import Mathlib

/-!
# Nod: journey tracking over three ordered maps

A shallow embedding of `src/nod.cc`.  The three global `std::map`s together with the
two output streams form the `World`; every C++ function that touches them becomes a
function `World → Option World`, where `none` stands for an execution that leaves
defined behaviour (an exception thrown by `std::stoi`, `substr`, `at`, the erasure of an
`end()` iterator, or a signed overflow).  The statements are about the executions with a
result; for each operation a theorem says exactly which executions these are
(`update_database_returns`, `apply_updates_returns`, `main_returns`).

Modelling conventions.
* `std::string` is `String`; one `Char` stands for one byte.
* `std::map<K, V, Compare>` is the list of its entries in iteration order.  A map
  built by the C++ library is always strictly increasing for its comparator; this is
  the predicate `map_ok`.
* `int` is 32 bits wide: `std::stoi` throws outside that range and the product
  `10 * std::stoi(..)` is checked against it.
* `int_fast32_t` and `int_fast64_t` (`car_dist_t`, `intersection_point_t`, `road_dist_t`)
  are 64 bits wide, as with glibc on x86-64.  Their values are integers, and every result
  of signed arithmetic in one of these types is checked against the range of the type: an
  overflow is undefined and gives `none` (`car_dist_result`, `road_dist_result`).
* `size_t` arithmetic wraps modulo `2 ^ 64`, and so does the line counter of invoke
  (`line_number_t`, an unsigned type of 64 bits with glibc on x86-64).
* Standard input is the list of the lines `std::getline` delivers.
* `std::regex_match` with one of the four expressions of main is a function from the line
  to its capture groups.  The four functions are written over the runs of non-space
  characters of the line; `data_regex_iff`, `all_query_regex_iff`, `car_query_regex_iff`
  and `road_query_regex_iff` show that each accepts exactly the language of its expression.
-/

namespace Nod

/-! ## Types (lines 4-20) -/

abbrev car_plate_t := String
abbrev line_number_t := Nat
abbrev line_content_t := String
abbrev road_text_t := String
/-- The type `int_fast32_t`; see `car_dist_t`. -/
abbrev intersection_point_t := Int
abbrev road_type_t := Char
abbrev road_number_t := Nat
/-- The type `int_fast32_t`.  A value is an integer between `INT_FAST32_MIN` and
`INT_FAST32_MAX`; the arithmetic of the program on this type goes through
`car_dist_result`, which has no result outside that range, so that every database the
program reaches holds only such values (`main_typed`). -/
abbrev car_dist_t := Int
/-- The type `int_fast64_t`.  A value is an integer between `INT_FAST64_MIN` and
`INT_FAST64_MAX`; the arithmetic of the program on this type goes through
`road_dist_result`, which has no result outside that range, so that every database the
program reaches holds only such values (`main_typed`). -/
abbrev road_dist_t := Int

abbrev record_type_t := line_number_t × line_content_t × road_text_t × intersection_point_t
abbrev road_name_t := road_type_t × road_number_t
abbrev car_data_t := car_dist_t × car_dist_t
abbrev input_type_t := line_number_t × line_content_t

/-- The capture groups of a successful `std::regex_match`; index 0 is the whole match. -/
abbrev smatch := List String

/-! ## Library functions used by the program -/

/-- Number of values of `size_t`. -/
def SIZE_MOD : Nat := 18446744073709551616

/-- The constant `std::string::npos`. -/
def npos : Nat := SIZE_MOD - 1

/-- Subtraction in `size_t`. -/
def size_sub (a b : Nat) : Nat := (a + SIZE_MOD - b % SIZE_MOD) % SIZE_MOD

/-- The call `s.substr(pos, count)`: throws when `pos > s.size()`. -/
def substr (s : String) (pos count : Nat) : Option String :=
  if pos > s.length then none
  else some (String.mk ((s.toList.drop pos).take (min count (s.length - pos))))

/-- The call `s.at(pos)`: throws when `pos >= s.size()`. -/
def string_at (s : String) (pos : Nat) : Option Char := s.toList.get? pos

/-- The classification `isspace` in the "C" locale. -/
def isspace (c : Char) : Bool :=
  c = ' ' || c = '\t' || c = '\n' || c = '\x0b' || c = '\x0c' || c = '\r'

/-- The classification `isdigit`, also the regex class `\d`. -/
def isdigit (c : Char) : Bool := decide ('0' ≤ c) && decide (c ≤ '9')

/-- Value of a decimal digit character. -/
def digit_value (c : Char) : Nat := c.toNat - 48

/-- Value of a sequence of decimal digits, most significant first. -/
def decimal_value (ds : List Char) : Nat :=
  ds.foldl (fun acc c => 10 * acc + digit_value c) 0

def INT_MIN : Int := -2147483648
def INT_MAX : Int := 2147483647

/-- Least value of `int_fast32_t`. -/
def INT_FAST32_MIN : Int := -9223372036854775808
/-- Greatest value of `int_fast32_t`. -/
def INT_FAST32_MAX : Int := 9223372036854775807
/-- Least value of `int_fast64_t`. -/
def INT_FAST64_MIN : Int := -9223372036854775808
/-- Greatest value of `int_fast64_t`. -/
def INT_FAST64_MAX : Int := 9223372036854775807

/-- The integer `x` is a value of `car_dist_t`. -/
abbrev fits_car_dist (x : Int) : Prop := INT_FAST32_MIN ≤ x ∧ x ≤ INT_FAST32_MAX

/-- The integer `x` is a value of `road_dist_t`. -/
abbrev fits_road_dist (x : Int) : Prop := INT_FAST64_MIN ≤ x ∧ x ≤ INT_FAST64_MAX

/-- The result of a signed operation in `car_dist_t` whose mathematical value is `x`:
there is none when `x` is not a value of the type (signed overflow). -/
def car_dist_result (x : Int) : Option car_dist_t := if fits_car_dist x then some x else none

/-- The result of a signed operation in `road_dist_t` whose mathematical value is `x`:
there is none when `x` is not a value of the type (signed overflow). -/
def road_dist_result (x : Int) : Option road_dist_t :=
  if fits_road_dist x then some x else none

/-- The optional sign read by `std::stoi`: whether it is a minus, and the rest. -/
def stoi_sign : List Char → Bool × List Char
  | '-' :: r => (true, r)
  | '+' :: r => (false, r)
  | r => (false, r)

/-- The call `std::stoi(s, nullptr, 10)`: leading white space is skipped, an optional sign
is read, then the longest run of digits; `std::invalid_argument` when there is no digit and
`std::out_of_range` when the value does not fit an `int`. -/
def stoi (s : String) : Option Int :=
  let signed := stoi_sign (s.toList.dropWhile isspace)
  let ds := signed.2.takeWhile isdigit
  if ds = [] then none
  else
    let v : Int := (decimal_value ds : Int)
    let r : Int := if signed.1 then -v else v
    if INT_MIN ≤ r ∧ r ≤ INT_MAX then some r else none

/-- Text written by `operator<<` for a signed integer. -/
def show_int (x : Int) : String := toString x

/-- Text written by `operator<<` for an unsigned integer. -/
def show_nat (x : Nat) : String := toString x

/-- Text written by `operator<<` for a `char`. -/
def show_char (c : Char) : String := String.singleton c

/-- The comparator `std::less<std::string>`: lexicographic on the bytes. -/
def string_less (a b : String) : Bool := decide (a.toList < b.toList)

/-- The member `find` of a `std::map` with comparator `comp`; `none` is `end()`.  The
same function gives `at`, where `none` is the exception `std::out_of_range`. -/
def map_find {κ ν : Type} (comp : κ → κ → Bool) : List (κ × ν) → κ → Option ν
  | [], _ => none
  | (k', v) :: t, k =>
    if comp k' k then map_find comp t k
    else if comp k k' then none
    else some v

/-- The member `emplace` of a `std::map`: inserts at the sorted position, and leaves the
map unchanged when an equivalent key is present. -/
def map_emplace {κ ν : Type} (comp : κ → κ → Bool) : List (κ × ν) → κ → ν → List (κ × ν)
  | [], k, v => [(k, v)]
  | (k', v') :: t, k, v =>
    if comp k' k then (k', v') :: map_emplace comp t k v
    else if comp k k' then (k, v) :: (k', v') :: t
    else (k', v') :: t

/-- The call `m.erase(m.find(k))`; erasing `end()` is undefined. -/
def map_erase {κ ν : Type} (comp : κ → κ → Bool) : List (κ × ν) → κ → Option (List (κ × ν))
  | [], _ => none
  | (k', v') :: t, k =>
    if comp k' k then (map_erase comp t k).map (fun t' => (k', v') :: t')
    else if comp k k' then none
    else some t

/-- Invariant of a `std::map`: the keys are strictly increasing for the comparator. -/
def map_ok {κ ν : Type} (comp : κ → κ → Bool) (m : List (κ × ν)) : Prop :=
  m.Pairwise (fun a b => comp a.1 b.1 = true)

/-! ## Globals (lines 22-42) -/

/-- The functor `road_name_comparator::operator()`. -/
def road_name_comparator (road1 road2 : road_name_t) : Bool :=
  if road1.2 = road2.2 then decide (road1.1 < road2.1)
  else decide (road1.2 < road2.2)

/-- The three global maps and the two output streams. -/
structure World where
  cars_on_road : List (car_plate_t × record_type_t)
  roads_data : List (road_name_t × road_dist_t)
  cars_data : List (car_plate_t × car_data_t)
  cout : String
  cerr : String
deriving DecidableEq

def motorway : Char := 'A'
def default_dist : Int := -1

/-- State at program start: empty maps, nothing written. -/
def World.initial : World := ⟨[], [], [], "", ""⟩

/-- The maps of a world satisfy the `std::map` invariant. -/
def World.ok (w : World) : Prop :=
  map_ok string_less w.cars_on_road ∧ map_ok road_name_comparator w.roads_data ∧
    map_ok string_less w.cars_data

/-! ## Namespace get (lines 44-76) -/

/-- The call `words.str(i)`; an index without a group gives the empty string. -/
def smatch_str (words : smatch) (i : Nat) : String := words.getD i ""

def get_car_plate (words : smatch) : car_plate_t := smatch_str words 1
def get_road_text (words : smatch) : road_text_t := smatch_str words 2
def get_distance (words : smatch) : String := smatch_str words 3
def get_query_key (words : smatch) : String := smatch_str words 1
def get_line_number (record : record_type_t) : line_number_t := record.1
def get_line_content (record : record_type_t) : line_content_t := record.2.1
def get_road (record : record_type_t) : road_text_t := record.2.2.1
def get_intersection_point (record : record_type_t) : intersection_point_t := record.2.2.2

/-! ## Namespace convert (lines 78-97) -/

/-- The function `convert::convert_string_to_road`.  The conversion of the `int` to
`road_number_t` (an unsigned type, 64 bits with glibc on x86-64) wraps. -/
def convert_string_to_road (text : road_text_t) : Option road_name_t := do
  let tail ← substr text 1 npos
  let n ← stoi tail
  let number : road_number_t := (n % (SIZE_MOD : Int)).toNat
  let c ← string_at text 0
  some (c, number)

/-- The function `convert::convert_string_to_number`.  The product is computed in `int`;
the sum of the product and of the second `int` is computed in `car_dist_t`, where the sum
of two values of `int` always fits (`convert_string_to_number_fits`). -/
def convert_string_to_number (number : String) : Option car_dist_t := do
  let whole ← substr number 0 (size_sub number.length 2)
  let w ← stoi whole
  let value : Int := 10 * w
  if ¬ (INT_MIN ≤ value ∧ value ≤ INT_MAX) then none
  else
    let frac ← substr number (size_sub number.length 1) npos
    let f ← stoi frac
    some (value + f)

/-! ## Namespace update (lines 99-203) -/

/-- The statement `if (dist == default_dist) ++dist;` of the two insert functions. -/
def start_if_unset (dist : Int) : Int := if dist = default_dist then dist + 1 else dist

/-- The function `update::add_car`. -/
def add_car (words : smatch) (input : input_type_t) (w : World) : Option World := do
  let number ← convert_string_to_number (get_distance words)
  let new_data : record_type_t := (input.1, input.2, get_road_text words, number)
  some { w with
    cars_on_road := map_emplace string_less w.cars_on_road (get_car_plate words) new_data }

/-- The expression `std::abs(dist2 - dist1)` on `car_dist_t`: the difference is computed
in the type, and so is its absolute value. -/
def car_abs_difference (dist2 dist1 : car_dist_t) : Option car_dist_t := do
  let difference ← car_dist_result (dist2 - dist1)
  car_dist_result (difference.natAbs : Int)

/-- The expression `std::abs(dist2 - dist1)` on `road_dist_t`. -/
def road_abs_difference (dist2 dist1 : road_dist_t) : Option road_dist_t := do
  let difference ← road_dist_result (dist2 - dist1)
  road_dist_result (difference.natAbs : Int)

/-- The function `update::insert_car_data`.  The increment of an unset slot goes from
`-1` to `0`; the difference of the two points, its absolute value and the sum written to
the slot are results of arithmetic in `car_dist_t`. -/
def insert_car_data (car_data : car_data_t) (words : smatch) (w : World) : Option World := do
  let record ← map_find string_less w.cars_on_road (get_car_plate words)
  let dist1 : car_dist_t := get_intersection_point record
  let dist2 ← convert_string_to_number (get_distance words)
  let c ← string_at (get_road_text words) 0
  let dist_A := car_data.1
  let dist_S := car_data.2
  let updated : car_data_t ←
    if c = motorway then do
      let distance ← car_abs_difference dist2 dist1
      let total ← car_dist_result (start_if_unset dist_A + distance)
      some (total, dist_S)
    else do
      let distance ← car_abs_difference dist2 dist1
      let total ← car_dist_result (start_if_unset dist_S + distance)
      some (dist_A, total)
  some { w with cars_data := map_emplace string_less w.cars_data (get_car_plate words) updated }

/-- The function `update::insert_road_data`.  The difference of the two points, its
absolute value and the sum written to the total are results of arithmetic in
`road_dist_t`. -/
def insert_road_data (road_dist : road_dist_t) (words : smatch) (w : World) : Option World := do
  let record ← map_find string_less w.cars_on_road (get_car_plate words)
  let dist1 : road_dist_t := get_intersection_point record
  let dist2 ← convert_string_to_number (get_distance words)
  let distance ← road_abs_difference dist2 dist1
  let total ← road_dist_result (start_if_unset road_dist + distance)
  let road ← convert_string_to_road (get_road_text words)
  some { w with roads_data := map_emplace road_name_comparator w.roads_data road total }

/-- The function `update::acquire_car_data`. -/
def acquire_car_data (words : smatch) (w : World) : Option World :=
  match map_find string_less w.cars_data (get_car_plate words) with
  | none => insert_car_data (default_dist, default_dist) words w
  | some car_data => do
    let erased ← map_erase string_less w.cars_data (get_car_plate words)
    insert_car_data car_data words { w with cars_data := erased }

/-- The function `update::acquire_road_data`. -/
def acquire_road_data (words : smatch) (w : World) : Option World := do
  let road ← convert_string_to_road (get_road_text words)
  match map_find road_name_comparator w.roads_data road with
  | none => insert_road_data default_dist words w
  | some road_dist => do
    let erased ← map_erase road_name_comparator w.roads_data road
    insert_road_data road_dist words { w with roads_data := erased }

/-- The function `update::end_of_journey`. -/
def end_of_journey (words : smatch) (w : World) : Option World := do
  let w1 ← acquire_car_data words w
  let w2 ← acquire_road_data words w1
  let erased ← map_erase string_less w2.cars_on_road (get_car_plate words)
  some { w2 with cars_on_road := erased }

/-- Line written to `std::cerr` for line `n` with content `text`. -/
def error_line (n : line_number_t) (text : line_content_t) : String :=
  "Error in line " ++ show_nat n ++ ": " ++ text ++ "\n"

/-- The function `update::update_database`. -/
def update_database (words : smatch) (input : input_type_t) (w : World) : Option World :=
  match map_find string_less w.cars_on_road (get_car_plate words) with
  | none => add_car words input w
  | some record =>
    if get_road record ≠ get_road_text words then do
      let w1 : World :=
        { w with cerr := w.cerr ++ error_line (get_line_number record) (get_line_content record) }
      let erased ← map_erase string_less w1.cars_on_road (get_car_plate words)
      add_car words input { w1 with cars_on_road := erased }
    else end_of_journey words w

/-! ## Namespace query (lines 205-268) -/

/-- Text of a distance: `dist / 10`, a comma, `dist % 10` (C++ division truncates). -/
def show_dist (dist : Int) : String :=
  show_int (Int.tdiv dist 10) ++ "," ++ show_int (Int.tmod dist 10)

/-- Text written by `query::print_car_data`. -/
def car_line (plate : car_plate_t) (car_data : car_data_t) : String :=
  plate
    ++ (if car_data.1 > default_dist then " A " ++ show_dist car_data.1 else "")
    ++ (if car_data.2 > default_dist then " S " ++ show_dist car_data.2 else "")
    ++ "\n"

/-- The function `query::print_car_data`. -/
def print_car_data (plate : car_plate_t) (car_data : car_data_t) (w : World) : World :=
  { w with cout := w.cout ++ car_line plate car_data }

/-- Text written by `query::print_road_data`. -/
def road_line (road : road_name_t) (dist : road_dist_t) : String :=
  show_char road.1 ++ show_nat road.2 ++ " " ++ show_dist dist ++ "\n"

/-- The function `query::print_road_data`. -/
def print_road_data (road : road_name_t) (dist : road_dist_t) (w : World) : World :=
  { w with cout := w.cout ++ road_line road dist }

/-- The function `query::all_data_query`: both loops read the maps while printing. -/
def all_data_query (w : World) : Option World :=
  let w1 := w.cars_data.foldl (fun acc car => print_car_data car.1 car.2 acc) w
  some (w.roads_data.foldl (fun acc road => print_road_data road.1 road.2 acc) w1)

/-- The function `query::car_query`. -/
def car_query (words : smatch) (w : World) : Option World :=
  match map_find string_less w.cars_data (get_query_key words) with
  | none => some w
  | some p => some (print_car_data (get_query_key words) p w)

/-- The function `query::road_query`. -/
def road_query (words : smatch) (w : World) : Option World := do
  let road ← convert_string_to_road (get_query_key words)
  match map_find road_name_comparator w.roads_data road with
  | none => some w
  | some p => some (print_road_data road p w)

/-! ## Input grammar (capture groups of `data_regex`, lines 312-313) -/

/-- The class `[1-9]`. -/
def isdigit19 (c : Char) : Bool := decide ('1' ≤ c) && decide (c ≤ '9')

/-- The class `[A-Za-z0-9]`. -/
def isalnum (c : Char) : Bool :=
  (decide ('A' ≤ c) && decide (c ≤ 'Z')) || (decide ('a' ≤ c) && decide (c ≤ 'z')) || isdigit c

/-- Group 1, `[A-Za-z0-9]{3,11}`. -/
def is_plate (s : String) : Bool :=
  decide (3 ≤ s.length) && decide (s.length ≤ 11) && s.toList.all isalnum

/-- The pattern `[1-9]\d{0,k}`. -/
def is_positive_number (k : Nat) (l : List Char) : Bool :=
  match l with
  | [] => false
  | c :: r => isdigit19 c && decide (r.length ≤ k) && r.all isdigit

/-- Group 2, `[AS][1-9]\d{0,2}`. -/
def is_road_label (s : String) : Bool :=
  match s.toList with
  | [] => false
  | c :: r => (c = 'A' || c = 'S') && is_positive_number 2 r

/-- Group 3, `0,\d|[1-9]\d{0,7},\d`: the last two characters are a comma and a digit,
and what stands before them is `0` or `[1-9]\d{0,7}`. -/
def is_distance (s : String) : Bool :=
  let l := s.toList
  (match l.drop (l.length - 2) with
    | [c, d] => c = ',' && isdigit d
    | _ => false) &&
  (l.take (l.length - 2) = ['0'] || is_positive_number 7 (l.take (l.length - 2)))

/-! ## The regular expressions of main (lines 312-318) -/

/-- A compiled `std::regex` as `std::regex_match` uses it on a whole line: the capture
groups when the line matches, the line itself at index 0. -/
abbrev regex := String → Option smatch

/-- The maximal runs of characters that are not white space (`\s`), in order of
appearance; `cur` is the run being read. -/
def tokens_from (cur : List Char) : List Char → List (List Char)
  | [] => if cur = [] then [] else [cur]
  | c :: r =>
    if isspace c then (if cur = [] then tokens_from [] r else cur :: tokens_from [] r)
    else tokens_from (cur ++ [c]) r

/-- The maximal runs of characters of a line that are not white space. -/
def tokens (l : List Char) : List (List Char) := tokens_from [] l

/-- The expression `^\s*([A-Za-z0-9]{3,11})\s+([AS][1-9]\d{0,2})\s+(0,\d|[1-9]\d{0,7},\d)\s*$`.
No group can hold white space, and the groups are separated and surrounded by white space
only, so a line matches exactly when its runs of other characters are three, one in the
language of each group; the groups are then these runs. -/
def data_regex : regex := fun line =>
  match tokens line.toList with
  | [p, r, d] =>
    if is_plate (String.mk p) && is_road_label (String.mk r) && is_distance (String.mk d) then
      some [line, String.mk p, String.mk r, String.mk d]
    else none
  | _ => none

/-- The common start `^\s*[?]` of the three query expressions: after the leading white
space comes a question mark; the result is the runs of non-space characters behind it. -/
def query_tokens (line : String) : Option (List (List Char)) :=
  match line.toList.dropWhile isspace with
  | '?' :: rest => some (tokens rest)
  | _ => none

/-- The expression `^\s*[?]\s*$`. -/
def all_query_regex : regex := fun line =>
  match query_tokens line with
  | some [] => some [line]
  | _ => none

/-- The expression `^\s*[?]\s*([a-zA-Z0-9]{3,11})\s*$`. -/
def car_query_regex : regex := fun line =>
  match query_tokens line with
  | some [k] => if is_plate (String.mk k) then some [line, String.mk k] else none
  | _ => none

/-- The expression `^\s*[?]\s*([AS][1-9]\d{0,2})\s*$`. -/
def road_query_regex : regex := fun line =>
  match query_tokens line with
  | some [k] => if is_road_label (String.mk k) then some [line, String.mk k] else none
  | _ => none

/-- The array `regexes_table` of main. -/
def regexes_table : Nat → regex
  | 0 => data_regex
  | 1 => all_query_regex
  | 2 => car_query_regex
  | _ => road_query_regex

/-! ## Namespace nod (lines 270-306) and main -/

/-- Number of values of `line_number_t` (`uint_fast32_t`, 64 bits with glibc on x86-64);
the increment of the line counter wraps. -/
def LINE_MOD : Nat := 18446744073709551616

/-- A statement `if (std::regex_match(line_content, words, re)) { query(words); .. }`:
the query runs on the capture groups when the line matches. -/
def query_if (matched : Option smatch) (query : smatch → World → Option World) (w : World) :
    Option World :=
  match matched with
  | some words => query words w
  | none => some w

/-- The last branch of the loop body of invoke: the two query tests, then the error when
`right_query` is still false. -/
def invoke_query (table : Nat → regex) (input : input_type_t) (w : World) : Option World :=
  (query_if (table 2 input.2) car_query w).bind fun w1 =>
    (query_if (table 3 input.2) road_query w1).bind fun w2 =>
      if (table 2 input.2).isSome || (table 3 input.2).isSome then some w2
      else some { w2 with cerr := w2.cerr ++ error_line input.1 input.2 }

/-- The body of the loop of invoke for a line that is not empty. -/
def invoke_line (table : Nat → regex) (input : input_type_t) (w : World) : Option World :=
  match table 0 input.2 with
  | some words => update_database words input w
  | none =>
    if (table 1 input.2).isSome then all_data_query w
    else invoke_query table input w

/-- The loop of invoke over the lines `std::getline` delivers, from the line counter `n`. -/
def invoke_loop (table : Nat → regex) :
    List line_content_t → line_number_t → World → Option (line_number_t × World)
  | [], n, w => some (n, w)
  | line_content :: rest, n, w =>
    if line_content = "" then invoke_loop table rest ((n + 1) % LINE_MOD) w
    else
      match invoke_line table ((n + 1) % LINE_MOD, line_content) w with
      | some w' => invoke_loop table rest ((n + 1) % LINE_MOD) w'
      | none => none

/-- The function `nod::invoke` on the lines of standard input. -/
def invoke (table : Nat → regex) (cin : List line_content_t) (w : World) : Option World :=
  (invoke_loop table cin 0 w).map Prod.snd

/-- The program: invoke with the table of main on the initial database. -/
def main (cin : List line_content_t) : Option World := invoke regexes_table cin World.initial

/-! ## Vocabulary of the statements -/

/-- The comparator of a `std::map` must be a strict total order on the keys. -/
structure comp_ok {κ : Type} (comp : κ → κ → Bool) : Prop where
  irrefl : ∀ a, comp a a = false
  trans : ∀ a b c, comp a b = true → comp b c = true → comp a c = true
  total : ∀ a b, comp a b = false → comp b a = false → a = b

/-- Distance covered between the entry point of an open journey and the point `p`. -/
def journey_delta (record : record_type_t) (p : Int) : Int :=
  ((p - get_intersection_point record).natAbs : Int)

/-- The pair `insert_car_data` stores for a journey of length `delta` on a road whose
label starts with `c`. -/
def car_data_after (c : Char) (delta : Int) (old : car_data_t) : car_data_t :=
  if c = motorway then (start_if_unset old.1 + delta, old.2)
  else (old.1, start_if_unset old.2 + delta)


/-- Writing `v` under `k` the way the acquire functions do: erase the entry when there is
one, then emplace. -/
def map_replace {κ ν : Type} (comp : κ → κ → Bool) (m : List (κ × ν)) (k : κ) (v : ν) :
    Option (List (κ × ν)) :=
  match map_find comp m k with
  | none => some (map_emplace comp m k v)
  | some _ => (map_erase comp m k).map (fun e => map_emplace comp e k v)

/-- A slot or total read with the sentinel counting as zero. -/
def counted (dist : Int) : Int := if dist = default_dist then 0 else dist

/-- The pair of slots of plate `P`, both unset when `P` has no accumulator. -/
def car_slots (w : World) (P : car_plate_t) : car_data_t :=
  (map_find string_less w.cars_data P).getD (default_dist, default_dist)

/-- The total of the road `key`, unset when the road has no accumulator. -/
def road_total (w : World) (key : road_name_t) : road_dist_t :=
  (map_find road_name_comparator w.roads_data key).getD default_dist

/-- Every number the database stores is a value of its type: the entry points are values
of `intersection_point_t`, the slots of `car_dist_t` and the totals of `road_dist_t`. -/
def World.typed (w : World) : Prop :=
  (∀ (P : car_plate_t) (record : record_type_t),
    map_find string_less w.cars_on_road P = some record →
    fits_car_dist (get_intersection_point record)) ∧
  (∀ (P : car_plate_t) (car_data : car_data_t),
    map_find string_less w.cars_data P = some car_data →
    fits_car_dist car_data.1 ∧ fits_car_dist car_data.2) ∧
  ∀ (key : road_name_t) (dist : road_dist_t),
    map_find road_name_comparator w.roads_data key = some dist → fits_road_dist dist

/-- The arithmetic of insert_car_data for a journey from the point `e` to the point `p` on
a road whose label starts with `c` overflows nothing: the difference of the points, its
absolute value and the new content of the slot of the category are values of `car_dist_t`. -/
def car_fits (c : Char) (p e : Int) (car_data : car_data_t) : Prop :=
  fits_car_dist (p - e) ∧ fits_car_dist |p - e| ∧
    fits_car_dist (start_if_unset (if c = motorway then car_data.1 else car_data.2) + |p - e|)

/-- The arithmetic of insert_road_data for a journey from the point `e` to the point `p`
overflows nothing: the difference of the points, its absolute value and the new total of
the road are values of `road_dist_t`. -/
def road_fits (p e : Int) (road_dist : road_dist_t) : Prop :=
  fits_road_dist (p - e) ∧ fits_road_dist |p - e| ∧
    fits_road_dist (start_if_unset road_dist + |p - e|)

/-- Closing a journey from the point `e` to the point `p` on a road whose label starts with
`c` overflows nothing, neither in the slot of the car nor in the total of the road. -/
def closing_fits (c : Char) (p e : Int) (car_data : car_data_t) (road_dist : road_dist_t) :
    Prop :=
  car_fits c p e car_data ∧ road_fits p e road_dist

instance (c : Char) (p e : Int) (car_data : car_data_t) : Decidable (car_fits c p e car_data) := by
  unfold car_fits
  infer_instance

instance (p e : Int) (road_dist : road_dist_t) : Decidable (road_fits p e road_dist) := by
  unfold road_fits
  infer_instance

instance (c : Char) (p e : Int) (car_data : car_data_t) (road_dist : road_dist_t) :
    Decidable (closing_fits c p e car_data road_dist) := by
  unfold closing_fits
  infer_instance

/-- The record `words` overflows nothing in the database `w`: when the plate has an open
journey on the road of the record, closing it fits.  A record that opens a journey always
fits. -/
def update_fits (words : smatch) (w : World) : Prop :=
  ∀ (n0 : Nat) (t0 : String) (e p : Int) (key : road_name_t),
    map_find string_less w.cars_on_road (get_car_plate words) =
      some (n0, t0, get_road_text words, e) →
    convert_string_to_number (get_distance words) = some p →
    convert_string_to_road (get_road_text words) = some key →
    closing_fits key.1 p e (car_slots w (get_car_plate words)) (road_total w key)

/-- Concatenation of the lines of an output. -/
def lines_text (lines : List String) : String := lines.foldr (fun a b => a ++ b) ""

/-- The car lines of query-all, in the order of the loop over `cars_data`. -/
def car_lines (w : World) : List String := w.cars_data.map (fun car => car_line car.1 car.2)

/-- The road lines of query-all, in the order of the loop over `roads_data`. -/
def road_lines (w : World) : List String :=
  w.roads_data.map (fun road => road_line road.1 road.2)

/-! ## Runs of update records and the journeys of the specification -/

/-- An update record as the loop hands it to update_database: the capture groups of the
line, and the line number with the line text. -/
abbrev update_record := smatch × input_type_t

/-- A record whose road label and distance belong to the input grammar. -/
def record_ok (r : update_record) : Bool :=
  is_road_label (get_road_text r.1) && is_distance (get_distance r.1)

/-- The update records applied one after the other. -/
def apply_updates : List update_record → World → Option World
  | [], w => some w
  | r :: rs, w => (update_database r.1 r.2 w).bind (apply_updates rs)

/-- Specification, section 4.1: `encode`, ten times the whole part plus the fractional
digit of a text `D,d`. -/
def encode (s : String) : Int :=
  10 * (decimal_value (s.toList.take (s.length - 2)) : Int)
    + (digit_value (s.toList.getLastD '0') : Int)

/-- Specification, section 4.2: the state of a plate. -/
inductive plate_state where
  | Absent
  | OnRoad (road : String) (entry_point : Int)
deriving DecidableEq

/-- Specification, glossary: a journey, bounded by an entry point and an exit point. -/
structure journey where
  plate : String
  road : String
  entry_point : Int
  exit_point : Int
deriving DecidableEq

/-- Specification, section 4.2: the states of all plates and the journeys completed. -/
abbrev journey_log := (String → plate_state) × List journey

/-- The log before any record. -/
def journey_log_initial : journey_log := (fun _ => plate_state.Absent, [])

/-- Specification, section 4.2, rules 1 to 3 for one record `(plate, road_label, point)`. -/
def journey_step (log : journey_log) (r : update_record) : journey_log :=
  let P := get_car_plate r.1
  let R := get_road_text r.1
  let p := encode (get_distance r.1)
  match log.1 P with
  | plate_state.Absent =>
    (fun Q => if Q = P then plate_state.OnRoad R p else log.1 Q, log.2)
  | plate_state.OnRoad road e =>
    if R = road then
      (fun Q => if Q = P then plate_state.Absent else log.1 Q, log.2 ++ [⟨P, road, e, p⟩])
    else (fun Q => if Q = P then plate_state.OnRoad R p else log.1 Q, log.2)

/-- The journeys completed by a sequence of records, oldest first. -/
def completed_journeys (rs : List update_record) : List journey :=
  (rs.foldl journey_step journey_log_initial).2

/-- Specification, glossary: the category of a road is motorway when its label starts with
the motorway letter. -/
def is_motorway (road : String) : Bool := decide (string_at road 0 = some motorway)

/-- Length `|exit - entry|` of a journey. -/
def journey_length (j : journey) : Int := |j.exit_point - j.entry_point|

/-- The journeys of plate `P` on roads of one category (`m` for motorway). -/
def plate_journeys (js : List journey) (P : String) (m : Bool) : List journey :=
  js.filter (fun j => decide (j.plate = P) && (is_motorway j.road == m))

/-- The journeys on the road of label `R`. -/
def road_journeys (js : List journey) (R : String) : List journey :=
  js.filter (fun j => decide (j.road = R))

/-- Sum of the lengths of a list of journeys. -/
def total_length (js : List journey) : Int := (js.map journey_length).sum

/-- The journeys `js` overflow no running total: for every plate and category the total
length of the journeys is a value of `car_dist_t`, and for every road the total length of
the journeys is a value of `road_dist_t`. -/
def journeys_fit (js : List journey) : Prop :=
  (∀ (P : String) (m : Bool), total_length (plate_journeys js P m) ≤ INT_FAST32_MAX) ∧
    ∀ R : String, total_length (road_journeys js R) ≤ INT_FAST64_MAX

/-- The content of a slot that received the journeys `js`: the sentinel when there is
none, their total length otherwise. -/
def expected_slot (js : List journey) : Int :=
  if js.isEmpty then default_dist else total_length js

/-- An entry of the open journeys, or its absence, matches the state of the plate. -/
def open_agrees (st : plate_state) (o : Option record_type_t) : Prop :=
  (st = plate_state.Absent ∧ o = none) ∨
  (∃ (R : String) (e : Int) (n : Nat) (t : String), st = plate_state.OnRoad R e ∧
    o = some (n, t, R, e))

/-- The database agrees with a journey log. -/
structure agrees (w : World) (log : journey_log) : Prop where
  ok : w.ok
  open_journey : ∀ P : String, open_agrees (log.1 P) (map_find string_less w.cars_on_road P)
  cars : ∀ P : String, map_find string_less w.cars_data P =
    if (log.2.filter (fun j => decide (j.plate = P))).isEmpty then none
    else some (expected_slot (plate_journeys log.2 P true),
      expected_slot (plate_journeys log.2 P false))
  roads : ∀ (R : String) (key : road_name_t), is_road_label R = true →
    convert_string_to_road R = some key →
    map_find road_name_comparator w.roads_data key =
      if (road_journeys log.2 R).isEmpty then none
      else some (total_length (road_journeys log.2 R))
  road_keys : ∀ (key : road_name_t) (dist : road_dist_t),
    map_find road_name_comparator w.roads_data key = some dist →
    ∃ R : String, is_road_label R = true ∧ convert_string_to_road R = some key

/-- The text of one slot in a car line: nothing before the first journey of the category,
then the label and the total length. -/
def slot_text (label : String) (js : List journey) : String :=
  if js.isEmpty then "" else " " ++ label ++ " " ++ show_dist (total_length js)

/-- The line a query must print for plate `P` after the journeys `js`: nothing when `P`
completed no journey, else the plate, the motorway slot, the other slot. -/
def expected_car_line (js : List journey) (P : String) : String :=
  if (js.filter (fun j => decide (j.plate = P))).isEmpty then ""
  else P ++ slot_text "A" (plate_journeys js P true) ++
    slot_text "S" (plate_journeys js P false) ++ "\n"

/-- Number of end-of-line characters in a text. -/
def newlines (s : String) : Nat := s.toList.count '\n'

/-- Sum of the motorway slots of all plates, an unset slot counting as 0. -/
def sum_motorway_slots (w : World) : Int := (w.cars_data.map (fun car => counted car.2.1)).sum

/-- Sum of the other-road slots of all plates, an unset slot counting as 0. -/
def sum_other_slots (w : World) : Int := (w.cars_data.map (fun car => counted car.2.2)).sum

/-- Sum of the totals of the roads whose category letter is the motorway letter. -/
def sum_motorway_roads (w : World) : Int :=
  (w.roads_data.map (fun road => if road.1.1 = motorway then road.2 else 0)).sum

/-- Sum of the totals of the roads of the other categories. -/
def sum_other_roads (w : World) : Int :=
  (w.roads_data.map (fun road => if road.1.1 = motorway then 0 else road.2)).sum

/-- Sum of the totals of all roads. -/
def sum_roads (w : World) : Int := (w.roads_data.map (fun road => road.2)).sum

/-- The distance booked on the cars is the distance booked on the roads, category by
category; no slot is below the sentinel and no road total is negative. -/
structure conserved (w : World) : Prop where
  ok : w.ok
  motorway : sum_motorway_roads w = sum_motorway_slots w
  other : sum_other_roads w = sum_other_slots w
  slots : ∀ car ∈ w.cars_data, default_dist ≤ car.2.1 ∧ default_dist ≤ car.2.2
  totals : ∀ road ∈ w.roads_data, 0 ≤ road.2

/-- A call of one of the four core operations. -/
inductive core_call where
  | update (words : smatch) (input : input_type_t)
  | all_data
  | car (words : smatch)
  | road (words : smatch)
deriving DecidableEq

/-- The core operations the loop body of invoke calls for a line, in the order of the
calls. -/
def dispatched (table : Nat → regex) (input : input_type_t) : List core_call :=
  match table 0 input.2 with
  | some words => [core_call.update words input]
  | none =>
    if (table 1 input.2).isSome then [core_call.all_data]
    else
      (match table 2 input.2 with
        | some words => [core_call.car words]
        | none => []) ++
      (match table 3 input.2 with
        | some words => [core_call.road words]
        | none => [])

/-- The update records the loop of invoke hands to update_database for the lines `cin`,
the line counter standing at `n` before the first of them. -/
def input_records (table : Nat → regex) : List line_content_t → line_number_t →
    List update_record
  | [], _ => []
  | line_content :: rest, n =>
    if line_content = "" then input_records table rest ((n + 1) % LINE_MOD)
    else
      match table 0 line_content with
      | some words =>
        (words, ((n + 1) % LINE_MOD, line_content)) ::
          input_records table rest ((n + 1) % LINE_MOD)
      | none => input_records table rest ((n + 1) % LINE_MOD)

/-- Running one core operation. -/
def run_call : core_call → World → Option World
  | core_call.update words input, w => update_database words input w
  | core_call.all_data, w => all_data_query w
  | core_call.car words, w => car_query words w
  | core_call.road words, w => road_query words w

/-- Running core operations one after the other. -/
def run_calls : List core_call → World → Option World
  | [], w => some w
  | call :: rest, w => (run_call call w).bind (run_calls rest)

/-- The language of data_regex, read off the expression: white space, the plate, white
space, the road label, white space, the distance, white space, where the second and the
third stretch of white space are not empty. -/
def data_line (line P R D : String) : Prop :=
  ∃ s0 s1 s2 s3 : List Char, s0.all isspace = true ∧ s1.all isspace = true ∧ s1 ≠ [] ∧
    s2.all isspace = true ∧ s2 ≠ [] ∧ s3.all isspace = true ∧
    line.toList = s0 ++ (P.toList ++ (s1 ++ (R.toList ++ (s2 ++ (D.toList ++ s3))))) ∧
    is_plate P = true ∧ is_road_label R = true ∧ is_distance D = true

/-- The language of all_query_regex: white space, a question mark, white space. -/
def all_query_line (line : String) : Prop :=
  ∃ s0 s1 : List Char, s0.all isspace = true ∧ s1.all isspace = true ∧
    line.toList = s0 ++ '?' :: s1

/-- The shape shared by car_query_regex and road_query_regex: white space, a question
mark, white space, the key, white space. -/
def key_query_line (line K : String) : Prop :=
  ∃ s0 s1 s2 : List Char, s0.all isspace = true ∧ s1.all isspace = true ∧
    s2.all isspace = true ∧ line.toList = s0 ++ '?' :: (s1 ++ (K.toList ++ s2))
/-! ## Decimal digits -/

theorem isdigit_iff (c : Char) : isdigit c = true ↔ 48 ≤ c.toNat ∧ c.toNat ≤ 57 := by
  simp only [isdigit, Bool.and_eq_true, decide_eq_true_eq]
  exact Iff.rfl

theorem char_eq_of_toNat {c d : Char} (h : c.toNat = d.toNat) : c = d := by
  apply Char.ext
  apply UInt32.ext
  exact h

theorem digitChar_digit_value {c : Char} (h : isdigit c = true) :
    Nat.digitChar (digit_value c) = c := by
  rw [isdigit_iff] at h
  obtain ⟨h1, h2⟩ := h
  apply char_eq_of_toNat
  unfold digit_value
  generalize c.toNat = n at h1 h2
  interval_cases n <;> rfl

theorem digit_value_digitChar {k : Nat} (h : k < 10) :
    digit_value (Nat.digitChar k) = k ∧ isdigit (Nat.digitChar k) = true := by
  interval_cases k <;> exact ⟨rfl, rfl⟩

theorem digit_value_lt {c : Char} (h : isdigit c = true) : digit_value c < 10 := by
  rw [isdigit_iff] at h
  unfold digit_value
  omega

theorem decimal_value_snoc (l : List Char) (d : Char) :
    decimal_value (l ++ [d]) = 10 * decimal_value l + digit_value d := by
  simp [decimal_value, List.foldl_append]

theorem toDigitsCore_fuel (f1 : Nat) : ∀ (f2 n : Nat) (acc : List Char), n < f1 → n < f2 →
    Nat.toDigitsCore 10 f1 n acc = Nat.toDigitsCore 10 f2 n acc := by
  induction f1 with
  | zero => intro f2 n acc h; omega
  | succ k ih =>
    intro f2 n acc h1 h2
    cases f2 with
    | zero => omega
    | succ m =>
      simp only [Nat.toDigitsCore]
      by_cases hz : n / 10 = 0
      · simp [hz]
      · simp only [hz, if_false]
        apply ih <;> omega

theorem toDigitsCore_acc (f : Nat) : ∀ (n : Nat) (acc : List Char),
    Nat.toDigitsCore 10 f n acc = Nat.toDigitsCore 10 f n [] ++ acc := by
  induction f with
  | zero => intro n acc; simp [Nat.toDigitsCore]
  | succ k ih =>
    intro n acc
    simp only [Nat.toDigitsCore]
    by_cases hz : n / 10 = 0
    · simp [hz]
    · simp only [hz, if_false]
      rw [ih _ (_ :: acc), ih _ [_]]
      simp

theorem toDigits_small {n : Nat} (h : n < 10) : Nat.toDigits 10 n = [Nat.digitChar n] := by
  have hz : n / 10 = 0 := by omega
  have hm : n % 10 = n := by omega
  simp [Nat.toDigits, Nat.toDigitsCore, hz, hm]

theorem toDigits_step {n : Nat} (h : 10 ≤ n) :
    Nat.toDigits 10 n = Nat.toDigits 10 (n / 10) ++ [Nat.digitChar (n % 10)] := by
  have hz : n / 10 ≠ 0 := by omega
  unfold Nat.toDigits
  rw [Nat.toDigitsCore]
  simp only [hz, if_false]
  rw [toDigitsCore_acc]
  congr 1
  apply toDigitsCore_fuel <;> omega


theorem decimal_value_toDigits (n : Nat) :
    decimal_value (Nat.toDigits 10 n) = n ∧ (Nat.toDigits 10 n).all isdigit = true := by
  induction n using Nat.strong_induction_on with
  | _ n ih =>
    by_cases h : n < 10
    · rw [toDigits_small h]
      have := digit_value_digitChar h
      simp [decimal_value, this.1, this.2]
    · have h10 : 10 ≤ n := by omega
      rw [toDigits_step h10, decimal_value_snoc]
      have hq := ih (n / 10) (by omega)
      have hd := digit_value_digitChar (show n % 10 < 10 by omega)
      rw [hq.1, hd.1]
      refine ⟨by omega, ?_⟩
      rw [List.all_append, hq.2]
      simp [hd.2]

theorem digit_value_pos {c : Char} (h : isdigit c = true) (h0 : c ≠ '0') : 1 ≤ digit_value c := by
  rw [isdigit_iff] at h
  have : c.toNat ≠ 48 := fun e => h0 (char_eq_of_toNat e)
  unfold digit_value
  omega

theorem decimal_value_cons (c : Char) (r : List Char) :
    decimal_value (c :: r) = digit_value c * 10 ^ r.length + decimal_value r := by
  induction r using List.reverseRecOn with
  | nil => simp [decimal_value]
  | append_singleton r d ih =>
    rw [← List.cons_append, decimal_value_snoc, decimal_value_snoc, ih]
    simp [pow_succ]
    ring

theorem decimal_value_lt (l : List Char) (h : l.all isdigit = true) :
    decimal_value l < 10 ^ l.length := by
  induction l with
  | nil => simp [decimal_value]
  | cons c r ih =>
    rw [List.all_cons, Bool.and_eq_true] at h
    rw [decimal_value_cons]
    have h1 := digit_value_lt h.1
    have h2 := ih h.2
    simp only [List.length_cons, pow_succ]
    nlinarith

/-- A digit string without a superfluous leading zero is the decimal text of its value. -/
theorem toDigits_decimal_value (l : List Char) (hd : l.all isdigit = true) (hne : l ≠ [])
    (hz : l = ['0'] ∨ l.head? ≠ some '0') : Nat.toDigits 10 (decimal_value l) = l := by
  induction l using List.reverseRecOn with
  | nil => exact absurd rfl hne
  | append_singleton r d ih =>
    rw [List.all_append, Bool.and_eq_true] at hd
    have hdd : isdigit d = true := by simpa using hd.2
    rw [decimal_value_snoc]
    cases r with
    | nil =>
      simp only [decimal_value, List.foldl_nil, Nat.mul_zero, Nat.zero_add, List.nil_append]
      rw [toDigits_small (digit_value_lt hdd), digitChar_digit_value hdd]
    | cons c r =>
      have hc : isdigit c = true := by
        have := hd.1
        rw [List.all_cons, Bool.and_eq_true] at this
        exact this.1
      have hc0 : c ≠ '0' := by
        rcases hz with hz | hz
        · simp at hz
        · simpa using hz
      have hpos : 1 ≤ decimal_value (c :: r) := by
        rw [decimal_value_cons]
        have := digit_value_pos hc hc0
        have hp : 1 ≤ 10 ^ r.length := Nat.one_le_pow _ _ (by norm_num)
        nlinarith
      have hlt := digit_value_lt hdd
      rw [toDigits_step (by omega)]
      have e1 : (10 * decimal_value (c :: r) + digit_value d) / 10 = decimal_value (c :: r) := by
        omega
      have e2 : (10 * decimal_value (c :: r) + digit_value d) % 10 = digit_value d := by omega
      rw [e1, e2, digitChar_digit_value hdd]
      rw [ih hd.1 (by simp) (Or.inr (by simpa using hc0))]


theorem not_isspace_of_isdigit {c : Char} (h : isdigit c = true) : isspace c = false := by
  rw [isdigit_iff] at h
  rw [Bool.eq_false_iff]
  intro hs
  simp only [isspace, Bool.or_eq_true, decide_eq_true_eq] at hs
  rcases hs with ((((hs | hs) | hs) | hs) | hs) | hs <;>
  · subst hs
    revert h
    decide

theorem stoi_sign_digit {c : Char} (r : List Char) (hc : isdigit c = true) :
    stoi_sign (c :: r) = (false, c :: r) := by
  have hm : c ≠ '-' := by
    rintro rfl
    revert hc
    decide
  have hp : c ≠ '+' := by
    rintro rfl
    revert hc
    decide
  unfold stoi_sign
  split
  · next heq =>
    simp only [List.cons.injEq] at heq
    exact absurd heq.1 hm
  · next heq =>
    simp only [List.cons.injEq] at heq
    exact absurd heq.1 hp
  · rfl

theorem stoi_digits (l : List Char) (hd : l.all isdigit = true) (hne : l ≠ [])
    (hr : decimal_value l ≤ 2147483647) : stoi (String.mk l) = some (decimal_value l : Int) := by
  cases l with
  | nil => exact absurd rfl hne
  | cons c r =>
    have hc : isdigit c = true := by
      rw [List.all_cons, Bool.and_eq_true] at hd
      exact hd.1
    have hsp := not_isspace_of_isdigit hc
    have htw : (c :: r).takeWhile isdigit = c :: r := by
      rw [List.takeWhile_eq_self_iff]
      intro x hx
      exact List.all_eq_true.mp hd x hx
    have e1 : (String.mk (c :: r)).toList.dropWhile isspace = c :: r := by
      simp [List.dropWhile_cons, hsp]
    have hr2 : (decimal_value (c :: r) : Int) ≤ 2147483647 := by exact_mod_cast hr
    unfold stoi
    rw [e1, stoi_sign_digit r hc]
    simp only [htw]
    simp [INT_MIN, INT_MAX]
    omega


theorem show_nat_eq (n : Nat) : show_nat n = String.mk (Nat.toDigits 10 n) := rfl

theorem show_int_natCast (n : Nat) : show_int (n : Int) = show_nat n := rfl

theorem isdigit_of_isdigit19 {c : Char} (h : isdigit19 c = true) :
    isdigit c = true ∧ c ≠ '0' := by
  simp only [isdigit19, Bool.and_eq_true, decide_eq_true_eq] at h
  have h1 : 49 ≤ c.toNat := h.1
  have h2 : c.toNat ≤ 57 := h.2
  refine ⟨(isdigit_iff c).mpr ⟨by omega, h2⟩, ?_⟩
  rintro rfl
  revert h1
  decide

/-- What the pattern `[1-9]\d{0,k}` gives about a string. -/
theorem positive_number_facts {k : Nat} {l : List Char} (h : is_positive_number k l = true) :
    l.all isdigit = true ∧ l ≠ [] ∧ l.head? ≠ some '0' ∧ l.length ≤ k + 1 := by
  cases l with
  | nil => simp [is_positive_number] at h
  | cons c r =>
    simp only [is_positive_number, Bool.and_eq_true, decide_eq_true_eq] at h
    obtain ⟨⟨h1, h2⟩, h3⟩ := h
    have := isdigit_of_isdigit19 h1
    refine ⟨by simp [this.1, h3], by simp, by simpa using this.2, by simpa using h2⟩

/-- What the pattern `0|[1-9]\d{0,k}` gives about a string. -/
theorem whole_part_facts {k : Nat} {l : List Char}
    (h : l = ['0'] ∨ is_positive_number k l = true) :
    l.all isdigit = true ∧ l ≠ [] ∧ (l = ['0'] ∨ l.head? ≠ some '0') ∧ l.length ≤ k + 1 := by
  rcases h with h | h
  · subst h
    exact ⟨by decide, by simp, Or.inl rfl, by simp⟩
  · have := positive_number_facts h
    exact ⟨this.1, this.2.1, Or.inr this.2.2.1, this.2.2.2⟩

/-- A string of the distance grammar is a whole part, a comma and one digit. -/
theorem is_distance_split {s : String} (h : is_distance s = true) :
    ∃ (ip : List Char) (d : Char), s = String.mk (ip ++ [',', d]) ∧ isdigit d = true ∧
      (ip = ['0'] ∨ is_positive_number 7 ip = true) := by
  obtain ⟨l⟩ := s
  simp only [is_distance, String.toList, Bool.and_eq_true, Bool.or_eq_true,
    decide_eq_true_eq] at h
  obtain ⟨h1, h2⟩ := h
  have hsplit := List.take_append_drop (l.length - 2) l
  generalize List.drop (l.length - 2) l = tl at h1 hsplit
  generalize List.take (l.length - 2) l = ip at h2 hsplit
  match tl, h1 with
  | [c, d], h1 =>
    simp only [Bool.and_eq_true, decide_eq_true_eq] at h1
    obtain ⟨rfl, hd⟩ := h1
    exact ⟨ip, d, by rw [← hsplit], hd, h2⟩

theorem is_distance_of_split (ip : List Char) (d : Char) (hd : isdigit d = true)
    (h : ip = ['0'] ∨ is_positive_number 7 ip = true) :
    is_distance (String.mk (ip ++ [',', d])) = true := by
  have e1 : (ip ++ [',', d]).length - 2 = ip.length := by simp
  simp only [is_distance, String.toList, e1, List.drop_left, List.take_left, Bool.and_eq_true,
    Bool.or_eq_true, decide_eq_true_eq]
  exact ⟨⟨trivial, hd⟩, h⟩

/-- On a string of the distance grammar the conversion succeeds with ten times the whole
part plus the fractional digit. -/
theorem convert_string_to_number_split (ip : List Char) (d : Char) (hd : isdigit d = true)
    (h : ip = ['0'] ∨ is_positive_number 7 ip = true) :
    convert_string_to_number (String.mk (ip ++ [',', d])) =
      some ((10 * decimal_value ip + digit_value d : Nat) : Int) := by
  obtain ⟨hall, hne, hz, hlen⟩ := whole_part_facts h
  have hv : decimal_value ip < 10 ^ 8 :=
    lt_of_lt_of_le (decimal_value_lt ip hall) (Nat.pow_le_pow_right (by norm_num) hlen)
  have hlen' : (String.mk (ip ++ [',', d])).length = ip.length + 2 := by
    simp [String.length]
  have s2 : size_sub (ip.length + 2) 2 = ip.length := by
    simp only [size_sub, SIZE_MOD]
    omega
  have s1 : size_sub (ip.length + 2) 1 = ip.length + 1 := by
    simp only [size_sub, SIZE_MOD]
    omega
  have w1 : substr (String.mk (ip ++ [',', d])) 0 ip.length = some (String.mk ip) := by
    simp [substr, String.length]
  have w2 : substr (String.mk (ip ++ [',', d])) (ip.length + 1) npos = some (String.mk [d]) := by
    have e : List.drop (ip.length + 1) (ip ++ [',', d]) = [d] := by
      rw [show ip ++ [',', d] = (ip ++ [',']) ++ [d] by simp]
      exact List.drop_left' (by simp)
    simp only [substr, String.length, String.toList, e]
    simp [npos, SIZE_MOD]
  have v1 := stoi_digits ip hall hne (by omega)
  have v2 : stoi (String.mk [d]) = some (digit_value d : Int) := by
    have := stoi_digits [d] (by simp [hd]) (by simp) (by
      have := digit_value_lt hd
      simp only [decimal_value, List.foldl_cons, List.foldl_nil]
      omega)
    simpa [decimal_value] using this
  unfold convert_string_to_number
  rw [hlen', s2, s1, w1, w2]
  simp only [Option.bind_eq_bind, Option.some_bind, v1, v2]
  have hw : (decimal_value ip : Int) < 100000000 := by exact_mod_cast hv
  have hrange : INT_MIN ≤ 10 * (decimal_value ip : Int) ∧ 10 * (decimal_value ip : Int) ≤ INT_MAX := by
    simp only [INT_MIN, INT_MAX]
    omega
  simp [hrange]

/-- Printing the value of a grammar string gives the string back. -/
theorem show_dist_split (ip : List Char) (d : Char) (hd : isdigit d = true)
    (h : ip = ['0'] ∨ is_positive_number 7 ip = true) :
    show_dist ((10 * decimal_value ip + digit_value d : Nat) : Int) =
      String.mk (ip ++ [',', d]) := by
  obtain ⟨hall, hne, hz, hlen⟩ := whole_part_facts h
  have hf := digit_value_lt hd
  have e1 : Int.tdiv ((10 * decimal_value ip + digit_value d : Nat) : Int) 10 =
      ((decimal_value ip : Nat) : Int) := by
    rw [show (10 : Int) = ((10 : Nat) : Int) from rfl, ← Int.ofNat_tdiv]
    congr 1
    omega
  have e2 : Int.tmod ((10 * decimal_value ip + digit_value d : Nat) : Int) 10 =
      ((digit_value d : Nat) : Int) := by
    rw [show (10 : Int) = ((10 : Nat) : Int) from rfl, ← Int.ofNat_tmod]
    congr 1
    omega
  unfold show_dist
  rw [e1, e2, show_int_natCast, show_int_natCast, show_nat_eq, show_nat_eq,
    toDigits_decimal_value ip hall hne hz, toDigits_small hf, digitChar_digit_value hd]
  apply String.ext
  simp [String.data_append]


/-- A string of the road grammar is a category letter and a positive number. -/
theorem is_road_label_split {s : String} (h : is_road_label s = true) :
    ∃ (c : Char) (num : List Char), s = String.mk (c :: num) ∧ (c = 'A' ∨ c = 'S') ∧
      is_positive_number 2 num = true := by
  obtain ⟨l⟩ := s
  cases l with
  | nil => simp [is_road_label] at h
  | cons c num =>
    simp only [is_road_label, String.toList, Bool.and_eq_true, Bool.or_eq_true,
      decide_eq_true_eq] at h
    exact ⟨c, num, rfl, h.1, h.2⟩

/-- On a string of the road grammar the conversion succeeds with the letter and the value
of the digits. -/
theorem convert_string_to_road_split (c : Char) (num : List Char)
    (h : is_positive_number 2 num = true) :
    convert_string_to_road (String.mk (c :: num)) = some (c, decimal_value num) := by
  obtain ⟨hall, hne, hz, hlen⟩ := positive_number_facts h
  have hv : decimal_value num < 10 ^ 3 :=
    lt_of_lt_of_le (decimal_value_lt num hall) (Nat.pow_le_pow_right (by norm_num) hlen)
  have w1 : substr (String.mk (c :: num)) 1 npos = some (String.mk num) := by
    simp only [substr, String.length, String.toList, List.length_cons, List.drop_succ_cons,
      List.drop_zero]
    have : min npos (num.length + 1 - 1) = num.length := by
      simp only [npos, SIZE_MOD]
      omega
    rw [if_neg (by omega), this, List.take_length]
  have v1 := stoi_digits num hall hne (by omega)
  unfold convert_string_to_road
  rw [w1]
  simp only [Option.bind_eq_bind, Option.some_bind, v1, string_at, String.toList,
    List.get?_cons_zero]
  have : ((decimal_value num : Int) % (SIZE_MOD : Int)).toNat = decimal_value num := by
    simp only [SIZE_MOD]
    omega
  rw [this]

/-- Printing the key of a grammar label gives the label back. -/
theorem show_road_split (c : Char) (num : List Char) (h : is_positive_number 2 num = true) :
    show_char c ++ show_nat (decimal_value num) = String.mk (c :: num) := by
  obtain ⟨hall, hne, hz, _⟩ := positive_number_facts h
  rw [show_nat_eq, toDigits_decimal_value num hall hne (Or.inr hz)]
  apply String.ext
  simp [String.data_append, show_char, String.singleton]


/-! ## Ordered maps -/

section map_lemmas

variable {κ ν : Type} {comp : κ → κ → Bool}

theorem comp_ok.asymm (hc : comp_ok comp) {a b : κ} (h : comp a b = true) : comp b a = false := by
  cases hba : comp b a with
  | false => rfl
  | true =>
    have := hc.trans a b a h hba
    rw [hc.irrefl] at this
    exact absurd this (by simp)

theorem map_find_cons (a : κ) (va : ν) (t : List (κ × ν)) (k : κ) :
    map_find comp ((a, va) :: t) k =
      if comp a k = true then map_find comp t k
      else if comp k a = true then none else some va := rfl

theorem map_find_none_of_lt (hc : comp_ok comp) (m : List (κ × ν)) (k : κ)
    (h : ∀ x ∈ m, comp k x.1 = true) : map_find comp m k = none := by
  cases m with
  | nil => rfl
  | cons x t =>
    obtain ⟨a, va⟩ := x
    have h1 : comp k a = true := h (a, va) (List.mem_cons_self _ _)
    simp [map_find, hc.asymm h1, h1]

theorem mem_map_emplace (m : List (κ × ν)) (k : κ) (v : ν) (x : κ × ν)
    (h : x ∈ map_emplace comp m k v) : x = (k, v) ∨ x ∈ m := by
  induction m with
  | nil => simpa [map_emplace] using h
  | cons y t ih =>
    obtain ⟨a, va⟩ := y
    unfold map_emplace at h
    split at h
    · rcases List.mem_cons.mp h with h | h
      · exact Or.inr (by simp [h])
      · rcases ih h with h | h
        · exact Or.inl h
        · exact Or.inr (List.mem_cons_of_mem _ h)
    · split at h
      · rcases List.mem_cons.mp h with h | h
        · exact Or.inl h
        · exact Or.inr h
      · exact Or.inr h

theorem map_ok_emplace (hc : comp_ok comp) (m : List (κ × ν)) (k : κ) (v : ν)
    (h : map_ok comp m) : map_ok comp (map_emplace comp m k v) := by
  induction m with
  | nil => simp [map_emplace, map_ok]
  | cons y t ih =>
    obtain ⟨a, va⟩ := y
    unfold map_ok at h ih ⊢
    rw [List.pairwise_cons] at h
    unfold map_emplace
    split
    · next hak =>
      rw [List.pairwise_cons]
      refine ⟨?_, ih h.2⟩
      intro x hx
      rcases mem_map_emplace t k v x hx with rfl | hx
      · exact hak
      · exact h.1 x hx
    · split
      · next hka =>
        rw [List.pairwise_cons]
        refine ⟨?_, List.pairwise_cons.mpr h⟩
        intro x hx
        rcases List.mem_cons.mp hx with rfl | hx
        · exact hka
        · exact hc.trans _ _ _ hka (h.1 x hx)
      · exact List.pairwise_cons.mpr h

theorem map_find_emplace_self (m : List (κ × ν)) (k : κ) (v : ν) (hc : comp_ok comp)
    (h : map_find comp m k = none) : map_find comp (map_emplace comp m k v) k = some v := by
  induction m with
  | nil => simp [map_emplace, map_find, hc.irrefl]
  | cons y t ih =>
    obtain ⟨a, va⟩ := y
    unfold map_find at h
    unfold map_emplace
    by_cases hak : comp a k = true
    · simp only [hak, if_true] at h ⊢
      simp only [map_find, hak, if_true]
      exact ih h
    · simp only [hak, if_false] at h ⊢
      by_cases hka : comp k a = true
      · simp [hka, map_find, hc.irrefl]
      · simp [hka] at h

theorem map_find_emplace_other (hc : comp_ok comp) (m : List (κ × ν)) (k : κ) (v : ν) (k' : κ)
    (hne : k' ≠ k) : map_find comp (map_emplace comp m k v) k' = map_find comp m k' := by
  induction m with
  | nil =>
    simp only [map_emplace, map_find]
    by_cases h1 : comp k k' = true
    · simp [h1]
    · by_cases h2 : comp k' k = true
      · simp [h1, h2]
      · exact absurd (hc.total k' k (by simpa using h2) (by simpa using h1)) hne
  | cons y t ih =>
    obtain ⟨a, va⟩ := y
    unfold map_emplace
    by_cases hak : comp a k = true
    · simp only [hak, if_true, map_find, ih]
    · simp only [hak, if_false]
      by_cases hka : comp k a = true
      · simp only [hka, if_true, Bool.false_eq_true, if_false]
        rw [map_find_cons k v]
        by_cases h1 : comp k k' = true
        · simp [h1]
        · simp only [h1, if_false]
          by_cases h2 : comp k' k = true
          · have h3 : comp k' a = true := hc.trans _ _ _ h2 hka
            simp [h2, map_find_cons a, hc.asymm h3, h3]
          · exact absurd (hc.total k' k (by simpa using h2) (by simpa using h1)) hne
      · simp [hka]

theorem map_erase_spec (hc : comp_ok comp) (m : List (κ × ν)) (k : κ) (v : ν)
    (hok : map_ok comp m) (h : map_find comp m k = some v) :
    ∃ m', map_erase comp m k = some m' ∧ map_ok comp m' ∧ map_find comp m' k = none ∧
      (∀ k', k' ≠ k → map_find comp m' k' = map_find comp m k') ∧
      (∀ x, x ∈ m' ↔ x ∈ m ∧ x.1 ≠ k) := by
  induction m with
  | nil => simp [map_find] at h
  | cons y t ih =>
    obtain ⟨a, va⟩ := y
    unfold map_ok at hok ih
    rw [List.pairwise_cons] at hok
    unfold map_find at h
    unfold map_erase
    by_cases hak : comp a k = true
    · simp only [hak, if_true] at h ⊢
      obtain ⟨m', e1, e2, e3, e4, e5⟩ := ih hok.2 h
      have hane : a ≠ k := by
        rintro rfl
        rw [hc.irrefl] at hak
        exact absurd hak (by simp)
      refine ⟨(a, va) :: m', by simp [e1], ?_, ?_, ?_, ?_⟩
      · unfold map_ok
        rw [List.pairwise_cons]
        exact ⟨fun x hx => hok.1 x ((e5 x).mp hx).1, e2⟩
      · simp [map_find, hak, e3]
      · intro k' hk'
        simp only [map_find, e4 k' hk']
      · intro x
        simp only [List.mem_cons, e5 x]
        constructor
        · rintro (rfl | h)
          · exact ⟨Or.inl rfl, hane⟩
          · exact ⟨Or.inr h.1, h.2⟩
        · rintro ⟨rfl | h, h2⟩
          · exact Or.inl rfl
          · exact Or.inr ⟨h, h2⟩
    · simp only [hak, if_false] at h ⊢
      by_cases hka : comp k a = true
      · simp [hka] at h
      · simp only [hka, if_false] at h ⊢
        have hka' : a = k := hc.total a k (by simpa using hak) (by simpa using hka)
        subst hka'
        refine ⟨t, rfl, hok.2, map_find_none_of_lt hc t a hok.1, ?_, ?_⟩
        · intro k' hk'
          rw [map_find]
          by_cases h1 : comp a k' = true
          · simp [h1]
          · have h2 : comp k' a = true := by
              by_contra h2
              exact hk' (hc.total k' a (by simpa using h2) (by simpa using h1))
            simp only [h1, h2, if_true]
            exact map_find_none_of_lt hc t k' (fun x hx => hc.trans _ _ _ h2 (hok.1 x hx))
        · intro x
          simp only [List.mem_cons]
          constructor
          · intro hx
            refine ⟨Or.inr hx, ?_⟩
            intro e
            have := hok.1 x hx
            rw [e, hc.irrefl] at this
            exact absurd this (by simp)
          · rintro ⟨rfl | h, h2⟩
            · exact absurd rfl h2
            · exact h

end map_lemmas


/-! ## The two comparators -/

theorem string_less_ok : comp_ok string_less := by
  refine ⟨?_, ?_, ?_⟩
  · intro a
    simp [string_less]
  · intro a b c h1 h2
    simp only [string_less, decide_eq_true_eq] at h1 h2 ⊢
    exact lt_trans h1 h2
  · intro a b h1 h2
    simp only [string_less, decide_eq_false_iff_not] at h1 h2
    apply String.ext
    rcases lt_trichotomy a.toList b.toList with h | h | h
    · exact absurd h h1
    · exact h
    · exact absurd h h2

theorem road_name_comparator_iff (t1 t2 : Char) (n1 n2 : Nat) :
    road_name_comparator (t1, n1) (t2, n2) = true ↔ n1 < n2 ∨ (n1 = n2 ∧ t1 < t2) := by
  dsimp only [road_name_comparator]
  by_cases e : n1 = n2
  · simp [e]
  · simp only [e, if_false, decide_eq_true_eq, false_and, or_false]

theorem road_name_comparator_ok : comp_ok road_name_comparator := by
  refine ⟨?_, ?_, ?_⟩
  · rintro ⟨t, n⟩
    rw [Bool.eq_false_iff, Ne, road_name_comparator_iff]
    simp
  · rintro ⟨t1, n1⟩ ⟨t2, n2⟩ ⟨t3, n3⟩ h1 h2
    rw [road_name_comparator_iff] at h1 h2 ⊢
    rcases h1 with h1 | ⟨h1, h1'⟩ <;> rcases h2 with h2 | ⟨h2, h2'⟩
    · exact Or.inl (by omega)
    · exact Or.inl (by omega)
    · exact Or.inl (by omega)
    · exact Or.inr ⟨by omega, lt_trans h1' h2'⟩
  · rintro ⟨t1, n1⟩ ⟨t2, n2⟩ h1 h2
    rw [Bool.eq_false_iff, Ne, road_name_comparator_iff] at h1 h2
    have hn : n1 = n2 := by
      by_contra hne
      rcases Nat.lt_or_gt_of_ne hne with h | h
      · exact h1 (Or.inl h)
      · exact h2 (Or.inl h)
    subst hn
    rcases lt_trichotomy t1 t2 with h | h | h
    · exact absurd (Or.inr ⟨rfl, h⟩) h1
    · rw [h]
    · exact absurd (Or.inr ⟨rfl, h⟩) h2

theorem map_find_of_mem {κ ν : Type} {comp : κ → κ → Bool} (hc : comp_ok comp)
    (m : List (κ × ν)) (k : κ) (v : ν) (hok : map_ok comp m) (h : (k, v) ∈ m) :
    map_find comp m k = some v := by
  induction m with
  | nil => simp at h
  | cons y t ih =>
    obtain ⟨a, va⟩ := y
    unfold map_ok at hok ih
    rw [List.pairwise_cons] at hok
    rw [map_find_cons]
    rcases List.mem_cons.mp h with e | h
    · simp only [Prod.mk.injEq] at e
      obtain ⟨rfl, rfl⟩ := e
      simp [hc.irrefl]
    · have := hok.1 (k, v) h
      simp only at this
      simp only [this, if_true]
      exact ih hok.2 h

theorem mem_of_map_find {κ ν : Type} {comp : κ → κ → Bool} (hc : comp_ok comp)
    (m : List (κ × ν)) (k : κ) (v : ν) (h : map_find comp m k = some v) : (k, v) ∈ m := by
  induction m with
  | nil => simp [map_find] at h
  | cons y t ih =>
    obtain ⟨a, va⟩ := y
    rw [map_find_cons] at h
    cases hak : comp a k with
    | true =>
      rw [hak] at h
      exact List.mem_cons_of_mem _ (ih h)
    | false =>
      cases hka : comp k a with
      | true =>
        rw [hak, hka] at h
        simp at h
      | false =>
        rw [hak, hka] at h
        simp only [Bool.false_eq_true, if_false, Option.some.injEq] at h
        have e : a = k := hc.total a k hak hka
        rw [e, h]
        exact List.mem_cons_self _ _

/-! ## One update step -/

theorem map_replace_spec {κ ν : Type} {comp : κ → κ → Bool} (hc : comp_ok comp)
    (m : List (κ × ν)) (k : κ) (v : ν) (hok : map_ok comp m) :
    ∃ m', map_replace comp m k v = some m' ∧
      map_ok comp m' ∧ map_find comp m' k = some v ∧
      (∀ k', k' ≠ k → map_find comp m' k' = map_find comp m k') ∧
      (∀ x, x ∈ m' → x = (k, v) ∨ (x ∈ m ∧ x.1 ≠ k)) := by
  unfold map_replace
  cases h : map_find comp m k with
  | none =>
    refine ⟨_, rfl, map_ok_emplace hc m k v hok, map_find_emplace_self m k v hc h,
      fun k' hk' => map_find_emplace_other hc m k v k' hk', ?_⟩
    intro x hx
    rcases mem_map_emplace m k v x hx with hx1 | hx1
    · exact Or.inl hx1
    · refine Or.inr ⟨hx1, ?_⟩
      intro hk
      have := map_find_of_mem hc m x.1 x.2 hok hx1
      rw [hk, h] at this
      exact absurd this (by simp)
  | some v0 =>
    obtain ⟨e, e1, e2, e3, e4, e5⟩ := map_erase_spec hc m k v0 hok h
    refine ⟨map_emplace comp e k v, by simp [e1], map_ok_emplace hc e k v e2,
      map_find_emplace_self e k v hc e3, ?_, ?_⟩
    · intro k' hk'
      rw [map_find_emplace_other hc e k v k' hk', e4 k' hk']
    · intro x hx
      rcases mem_map_emplace e k v x hx with hx | hx
      · exact Or.inl hx
      · exact Or.inr ((e5 x).mp hx)


theorem car_dist_result_fits {x : Int} (h : fits_car_dist x) : car_dist_result x = some x :=
  if_pos h

theorem car_dist_result_overflow {x : Int} (h : ¬ fits_car_dist x) : car_dist_result x = none :=
  if_neg h

theorem road_dist_result_fits {x : Int} (h : fits_road_dist x) : road_dist_result x = some x :=
  if_pos h

theorem road_dist_result_overflow {x : Int} (h : ¬ fits_road_dist x) :
    road_dist_result x = none :=
  if_neg h

theorem journey_delta_abs (record : record_type_t) (p : Int) :
    journey_delta record p = |p - get_intersection_point record| := by
  unfold journey_delta
  exact Int.natCast_natAbs _

/-- The expression `std::abs(dist2 - dist1)` has the value `|dist2 - dist1|` when the
difference and its absolute value fit, and no value otherwise. -/
theorem car_abs_difference_eq (p e : Int) :
    car_abs_difference p e =
      if fits_car_dist (p - e) ∧ fits_car_dist |p - e| then some |p - e| else none := by
  unfold car_abs_difference
  by_cases h1 : fits_car_dist (p - e)
  · rw [car_dist_result_fits h1]
    simp only [Option.bind_eq_bind, Option.some_bind, Int.natCast_natAbs]
    by_cases h2 : fits_car_dist |p - e|
    · rw [car_dist_result_fits h2, if_pos ⟨h1, h2⟩]
    · rw [car_dist_result_overflow h2, if_neg (fun h => h2 h.2)]
  · rw [car_dist_result_overflow h1, if_neg (fun h => h1 h.1)]
    rfl

theorem road_abs_difference_eq (p e : Int) :
    road_abs_difference p e =
      if fits_road_dist (p - e) ∧ fits_road_dist |p - e| then some |p - e| else none := by
  unfold road_abs_difference
  by_cases h1 : fits_road_dist (p - e)
  · rw [road_dist_result_fits h1]
    simp only [Option.bind_eq_bind, Option.some_bind, Int.natCast_natAbs]
    by_cases h2 : fits_road_dist |p - e|
    · rw [road_dist_result_fits h2, if_pos ⟨h1, h2⟩]
    · rw [road_dist_result_overflow h2, if_neg (fun h => h2 h.2)]
  · rw [road_dist_result_overflow h1, if_neg (fun h => h1 h.1)]
    rfl

/-- What insert_car_data does once the open journey, the point and the letter of the road
are known: it writes the new pair when the arithmetic fits and has no result otherwise. -/
theorem insert_car_data_eq (car_data : car_data_t) (words : smatch) (w : World)
    (record : record_type_t) (p : Int) (c : Char)
    (hopen : map_find string_less w.cars_on_road (get_car_plate words) = some record)
    (hd : convert_string_to_number (get_distance words) = some p)
    (hc : string_at (get_road_text words) 0 = some c) :
    insert_car_data car_data words w =
      if car_fits c p (get_intersection_point record) car_data then
        some { w with
          cars_data := map_emplace string_less w.cars_data (get_car_plate words)
            (car_data_after c (journey_delta record p) car_data) }
      else none := by
  unfold insert_car_data
  simp only [hopen, hd, hc, Option.bind_eq_bind, Option.some_bind, car_abs_difference_eq,
    journey_delta_abs, car_data_after, car_fits]
  by_cases hm : c = motorway
  · simp only [if_pos hm]
    by_cases h12 : fits_car_dist (p - get_intersection_point record) ∧
        fits_car_dist |p - get_intersection_point record|
    · by_cases h3 : fits_car_dist (start_if_unset car_data.1 +
          |p - get_intersection_point record|)
      · have h123 : fits_car_dist (p - get_intersection_point record) ∧
            fits_car_dist |p - get_intersection_point record| ∧
            fits_car_dist (start_if_unset car_data.1 +
              |p - get_intersection_point record|) := ⟨h12.1, h12.2, h3⟩
        simp only [if_pos h12, if_pos h123, Option.some_bind, car_dist_result_fits h3]
      · have h123 : ¬ (fits_car_dist (p - get_intersection_point record) ∧
            fits_car_dist |p - get_intersection_point record| ∧
            fits_car_dist (start_if_unset car_data.1 +
              |p - get_intersection_point record|)) := fun h => h3 h.2.2
        simp only [if_pos h12, if_neg h123, Option.some_bind, car_dist_result_overflow h3,
          Option.none_bind]
    · have h123 : ¬ (fits_car_dist (p - get_intersection_point record) ∧
          fits_car_dist |p - get_intersection_point record| ∧
          fits_car_dist (start_if_unset car_data.1 +
            |p - get_intersection_point record|)) := fun h => h12 ⟨h.1, h.2.1⟩
      simp only [if_neg h12, if_neg h123, Option.none_bind]
  · simp only [if_neg hm]
    by_cases h12 : fits_car_dist (p - get_intersection_point record) ∧
        fits_car_dist |p - get_intersection_point record|
    · by_cases h3 : fits_car_dist (start_if_unset car_data.2 +
          |p - get_intersection_point record|)
      · have h123 : fits_car_dist (p - get_intersection_point record) ∧
            fits_car_dist |p - get_intersection_point record| ∧
            fits_car_dist (start_if_unset car_data.2 +
              |p - get_intersection_point record|) := ⟨h12.1, h12.2, h3⟩
        simp only [if_pos h12, if_pos h123, Option.some_bind, car_dist_result_fits h3]
      · have h123 : ¬ (fits_car_dist (p - get_intersection_point record) ∧
            fits_car_dist |p - get_intersection_point record| ∧
            fits_car_dist (start_if_unset car_data.2 +
              |p - get_intersection_point record|)) := fun h => h3 h.2.2
        simp only [if_pos h12, if_neg h123, Option.some_bind, car_dist_result_overflow h3,
          Option.none_bind]
    · have h123 : ¬ (fits_car_dist (p - get_intersection_point record) ∧
          fits_car_dist |p - get_intersection_point record| ∧
          fits_car_dist (start_if_unset car_data.2 +
            |p - get_intersection_point record|)) := fun h => h12 ⟨h.1, h.2.1⟩
      simp only [if_neg h12, if_neg h123, Option.none_bind]

/-- What insert_road_data does once the open journey, the point and the key of the road are
known: it writes the new total when the arithmetic fits and has no result otherwise. -/
theorem insert_road_data_eq (road_dist : road_dist_t) (words : smatch) (w : World)
    (record : record_type_t) (p : Int) (key : road_name_t)
    (hopen : map_find string_less w.cars_on_road (get_car_plate words) = some record)
    (hd : convert_string_to_number (get_distance words) = some p)
    (hr : convert_string_to_road (get_road_text words) = some key) :
    insert_road_data road_dist words w =
      if road_fits p (get_intersection_point record) road_dist then
        some { w with
          roads_data := map_emplace road_name_comparator w.roads_data key
            (start_if_unset road_dist + journey_delta record p) }
      else none := by
  unfold insert_road_data
  simp only [hopen, hd, hr, Option.bind_eq_bind, Option.some_bind, road_abs_difference_eq,
    journey_delta_abs, road_fits]
  by_cases h12 : fits_road_dist (p - get_intersection_point record) ∧
      fits_road_dist |p - get_intersection_point record|
  · by_cases h3 : fits_road_dist (start_if_unset road_dist +
        |p - get_intersection_point record|)
    · have h123 : fits_road_dist (p - get_intersection_point record) ∧
          fits_road_dist |p - get_intersection_point record| ∧
          fits_road_dist (start_if_unset road_dist +
            |p - get_intersection_point record|) := ⟨h12.1, h12.2, h3⟩
      simp only [if_pos h12, if_pos h123, Option.some_bind, road_dist_result_fits h3]
    · have h123 : ¬ (fits_road_dist (p - get_intersection_point record) ∧
          fits_road_dist |p - get_intersection_point record| ∧
          fits_road_dist (start_if_unset road_dist +
            |p - get_intersection_point record|)) := fun h => h3 h.2.2
      simp only [if_pos h12, if_neg h123, Option.some_bind, road_dist_result_overflow h3,
        Option.none_bind]
  · have h123 : ¬ (fits_road_dist (p - get_intersection_point record) ∧
        fits_road_dist |p - get_intersection_point record| ∧
        fits_road_dist (start_if_unset road_dist +
          |p - get_intersection_point record|)) := fun h => h12 ⟨h.1, h.2.1⟩
    simp only [if_neg h12, if_neg h123, Option.none_bind]

theorem acquire_car_data_eq (words : smatch) (w : World) (record : record_type_t) (p : Int)
    (c : Char)
    (hopen : map_find string_less w.cars_on_road (get_car_plate words) = some record)
    (hd : convert_string_to_number (get_distance words) = some p)
    (hc : string_at (get_road_text words) 0 = some c) :
    acquire_car_data words w =
      if car_fits c p (get_intersection_point record)
          ((map_find string_less w.cars_data (get_car_plate words)).getD
            (default_dist, default_dist)) then
        (map_replace string_less w.cars_data (get_car_plate words)
          (car_data_after c (journey_delta record p)
            ((map_find string_less w.cars_data (get_car_plate words)).getD
              (default_dist, default_dist)))).map
          (fun m => { w with cars_data := m })
      else none := by
  unfold acquire_car_data map_replace
  cases hf : map_find string_less w.cars_data (get_car_plate words) with
  | none =>
    simp only [Option.getD_none, Option.map_some']
    exact insert_car_data_eq _ words w record p c hopen hd hc
  | some cd =>
    cases he : map_erase string_less w.cars_data (get_car_plate words) with
    | none => simp
    | some e =>
      simp only [Option.getD_some, Option.map_some', Option.bind_eq_bind, Option.some_bind]
      exact insert_car_data_eq cd words { w with cars_data := e } record p c hopen hd hc

theorem acquire_road_data_eq (words : smatch) (w : World) (record : record_type_t) (p : Int)
    (key : road_name_t)
    (hopen : map_find string_less w.cars_on_road (get_car_plate words) = some record)
    (hd : convert_string_to_number (get_distance words) = some p)
    (hr : convert_string_to_road (get_road_text words) = some key) :
    acquire_road_data words w =
      if road_fits p (get_intersection_point record)
          ((map_find road_name_comparator w.roads_data key).getD default_dist) then
        (map_replace road_name_comparator w.roads_data key
          (start_if_unset ((map_find road_name_comparator w.roads_data key).getD default_dist)
            + journey_delta record p)).map
          (fun m => { w with roads_data := m })
      else none := by
  unfold acquire_road_data map_replace
  simp only [hr, Option.bind_eq_bind, Option.some_bind]
  cases hf : map_find road_name_comparator w.roads_data key with
  | none =>
    simp only [Option.getD_none, Option.map_some']
    exact insert_road_data_eq _ words w record p key hopen hd hr
  | some cd =>
    cases he : map_erase road_name_comparator w.roads_data key with
    | none => simp
    | some e =>
      simp only [Option.getD_some, Option.map_some', Option.bind_eq_bind, Option.some_bind]
      exact insert_road_data_eq cd words { w with roads_data := e } record p key hopen hd hr

/-- When closing the journey fits, end_of_journey returns, and this is what it returns. -/
theorem end_of_journey_spec (words : smatch) (w : World) (record : record_type_t) (p : Int)
    (key : road_name_t) (c : Char) (hok : w.ok)
    (hopen : map_find string_less w.cars_on_road (get_car_plate words) = some record)
    (hd : convert_string_to_number (get_distance words) = some p)
    (hr : convert_string_to_road (get_road_text words) = some key)
    (hc : string_at (get_road_text words) 0 = some c)
    (hfit : closing_fits c p (get_intersection_point record)
      (car_slots w (get_car_plate words)) (road_total w key)) :
    ∃ w', end_of_journey words w = some w' ∧ w'.ok ∧ w'.cout = w.cout ∧ w'.cerr = w.cerr ∧
      map_find string_less w'.cars_on_road (get_car_plate words) = none ∧
      (∀ P', P' ≠ get_car_plate words →
        map_find string_less w'.cars_on_road P' = map_find string_less w.cars_on_road P') ∧
      map_find string_less w'.cars_data (get_car_plate words) =
        some (car_data_after c (journey_delta record p)
          ((map_find string_less w.cars_data (get_car_plate words)).getD
            (default_dist, default_dist))) ∧
      (∀ P', P' ≠ get_car_plate words →
        map_find string_less w'.cars_data P' = map_find string_less w.cars_data P') ∧
      map_find road_name_comparator w'.roads_data key =
        some (start_if_unset ((map_find road_name_comparator w.roads_data key).getD default_dist)
          + journey_delta record p) ∧
      (∀ k', k' ≠ key →
        map_find road_name_comparator w'.roads_data k' =
          map_find road_name_comparator w.roads_data k') := by
  obtain ⟨ho1, ho2, ho3⟩ := hok
  obtain ⟨m1, e1, ok1, f1, g1, _⟩ := map_replace_spec string_less_ok w.cars_data
    (get_car_plate words) (car_data_after c (journey_delta record p)
      ((map_find string_less w.cars_data (get_car_plate words)).getD
        (default_dist, default_dist))) ho3
  obtain ⟨m2, e2, ok2, f2, g2, _⟩ := map_replace_spec road_name_comparator_ok w.roads_data
    key (start_if_unset ((map_find road_name_comparator w.roads_data key).getD default_dist)
      + journey_delta record p) ho2
  obtain ⟨m3, e3, ok3, f3, g3, _⟩ := map_erase_spec string_less_ok w.cars_on_road
    (get_car_plate words) record ho1 hopen
  have hf1 : car_fits c p (get_intersection_point record)
      ((map_find string_less w.cars_data (get_car_plate words)).getD
        (default_dist, default_dist)) := hfit.1
  have hf2 : road_fits p (get_intersection_point record)
      ((map_find road_name_comparator w.roads_data key).getD default_dist) := hfit.2
  have a1 : acquire_car_data words w = some { w with cars_data := m1 } := by
    rw [acquire_car_data_eq words w record p c hopen hd hc, if_pos hf1, e1]
    rfl
  have a2 : acquire_road_data words { w with cars_data := m1 } =
      some { w with cars_data := m1, roads_data := m2 } := by
    rw [acquire_road_data_eq words { w with cars_data := m1 } record p key hopen hd hr]
    simp only [if_pos hf2, e2]
    rfl
  refine ⟨{ w with cars_data := m1, roads_data := m2, cars_on_road := m3 }, ?_,
    ⟨ok3, ok2, ok1⟩, rfl, rfl, f3, g3, f1, g1, f2, g2⟩
  unfold end_of_journey
  rw [a1]
  simp only [Option.bind_eq_bind, Option.some_bind, a2, e3]

/-- When closing the journey does not fit, end_of_journey has no result: one of the two
insert functions overflows. -/
theorem end_of_journey_overflow (words : smatch) (w : World) (record : record_type_t)
    (p : Int) (key : road_name_t) (c : Char)
    (hopen : map_find string_less w.cars_on_road (get_car_plate words) = some record)
    (hd : convert_string_to_number (get_distance words) = some p)
    (hr : convert_string_to_road (get_road_text words) = some key)
    (hc : string_at (get_road_text words) 0 = some c)
    (hfit : ¬ closing_fits c p (get_intersection_point record)
      (car_slots w (get_car_plate words)) (road_total w key)) :
    end_of_journey words w = none := by
  unfold end_of_journey
  rw [acquire_car_data_eq words w record p c hopen hd hc]
  by_cases hcar : car_fits c p (get_intersection_point record)
      ((map_find string_less w.cars_data (get_car_plate words)).getD
        (default_dist, default_dist))
  · have hroad : ¬ road_fits p (get_intersection_point record)
        ((map_find road_name_comparator w.roads_data key).getD default_dist) :=
      fun h => hfit ⟨hcar, h⟩
    rw [if_pos hcar]
    cases map_replace string_less w.cars_data (get_car_plate words)
        (car_data_after c (journey_delta record p)
          ((map_find string_less w.cars_data (get_car_plate words)).getD
            (default_dist, default_dist))) with
    | none => rfl
    | some m1 =>
      simp only [Option.map_some', Option.bind_eq_bind, Option.some_bind]
      rw [acquire_road_data_eq words { w with cars_data := m1 } record p key hopen hd hr,
        if_neg hroad]
      rfl
  · rw [if_neg hcar]
    rfl

/-- Rule 1: a plate without open journey gets one; nothing else changes. -/
theorem update_database_start (words : smatch) (input : input_type_t) (w : World) (p : Int)
    (hopen : map_find string_less w.cars_on_road (get_car_plate words) = none)
    (hd : convert_string_to_number (get_distance words) = some p) :
    update_database words input w =
      some { w with
        cars_on_road :=
          map_emplace string_less w.cars_on_road (get_car_plate words)
            (input.1, input.2, get_road_text words, p) } := by
  unfold update_database
  rw [hopen]
  simp [add_car, hd]

/-- Rule 3: a plate seen on another road than the one of its open journey. -/
theorem update_database_restart (words : smatch) (input : input_type_t) (w : World) (p : Int)
    (record : record_type_t) (hok : w.ok)
    (hopen : map_find string_less w.cars_on_road (get_car_plate words) = some record)
    (hroad : get_road record ≠ get_road_text words)
    (hd : convert_string_to_number (get_distance words) = some p) :
    ∃ w', update_database words input w = some w' ∧ w'.ok ∧ w'.cout = w.cout ∧
      w'.cerr = w.cerr ++ error_line (get_line_number record) (get_line_content record) ∧
      w'.cars_data = w.cars_data ∧ w'.roads_data = w.roads_data ∧
      map_find string_less w'.cars_on_road (get_car_plate words) =
        some (input.1, input.2, get_road_text words, p) ∧
      (∀ P', P' ≠ get_car_plate words →
        map_find string_less w'.cars_on_road P' = map_find string_less w.cars_on_road P') := by
  obtain ⟨ho1, ho2, ho3⟩ := hok
  obtain ⟨m3, e3, ok3, f3, g3, _⟩ := map_erase_spec string_less_ok w.cars_on_road
    (get_car_plate words) record ho1 hopen
  refine ⟨{ w with
      cerr := w.cerr ++ error_line (get_line_number record) (get_line_content record),
      cars_on_road :=
        map_emplace string_less m3 (get_car_plate words)
          (input.1, input.2, get_road_text words, p) }, ?_,
    ⟨map_ok_emplace string_less_ok _ _ _ ok3, ho2, ho3⟩, rfl, rfl, rfl, rfl,
    map_find_emplace_self _ _ _ string_less_ok f3, ?_⟩
  · unfold update_database
    rw [hopen]
    simp [hroad, e3, add_car, hd]
  · intro P' hP'
    simp only
    rw [map_find_emplace_other string_less_ok _ _ _ _ hP', g3 P' hP']

/-- Rule 2: a plate seen again on the road of its open journey. -/
theorem update_database_end (words : smatch) (input : input_type_t) (w : World)
    (record : record_type_t)
    (hopen : map_find string_less w.cars_on_road (get_car_plate words) = some record)
    (hroad : get_road record = get_road_text words) :
    update_database words input w = end_of_journey words w := by
  unfold update_database
  rw [hopen]
  simp [hroad]

/-- Facts about the conversion of a string of the distance grammar. -/
theorem convert_string_to_number_ok {s : String} (h : is_distance s = true) :
    ∃ p : Int, convert_string_to_number s = some p ∧ 0 ≤ p ∧ p ≤ 999999999 ∧
      show_dist p = s := by
  obtain ⟨ip, d, rfl, hd, hip⟩ := is_distance_split h
  refine ⟨_, convert_string_to_number_split ip d hd hip, by positivity, ?_,
    show_dist_split ip d hd hip⟩
  obtain ⟨hall, _, _, hlen⟩ := whole_part_facts hip
  have hv : decimal_value ip < 10 ^ 8 :=
    lt_of_lt_of_le (decimal_value_lt ip hall) (Nat.pow_le_pow_right (by norm_num) hlen)
  have := digit_value_lt hd
  have : 10 * decimal_value ip + digit_value d ≤ 999999999 := by omega
  exact_mod_cast this

/-- Facts about the conversion of a string of the road grammar. -/
theorem convert_string_to_road_ok {s : String} (h : is_road_label s = true) :
    ∃ (c : Char) (n : Nat), convert_string_to_road s = some (c, n) ∧
      string_at s 0 = some c ∧ (c = 'A' ∨ c = 'S') ∧ 1 ≤ n ∧ n ≤ 999 ∧
      show_char c ++ show_nat n = s := by
  obtain ⟨c, num, rfl, hc, hnum⟩ := is_road_label_split h
  obtain ⟨hall, hne, hz, hlen⟩ := positive_number_facts hnum
  have hv : decimal_value num < 10 ^ 3 :=
    lt_of_lt_of_le (decimal_value_lt num hall) (Nat.pow_le_pow_right (by norm_num) hlen)
  refine ⟨c, decimal_value num, convert_string_to_road_split c num hnum, rfl, hc, ?_,
    by omega, show_road_split c num hnum⟩
  cases num with
  | nil => exact absurd rfl hne
  | cons a r =>
    have ha : isdigit a = true := by
      rw [List.all_cons, Bool.and_eq_true] at hall
      exact hall.1
    have ha0 : a ≠ '0' := by simpa using hz
    rw [decimal_value_cons]
    have := digit_value_pos ha ha0
    have hp : 1 ≤ 10 ^ r.length := Nat.one_le_pow _ _ (by norm_num)
    nlinarith


/-- A value returned by `std::stoi` is a value of `int`. -/
theorem stoi_range {s : String} {r : Int} (h : stoi s = some r) : INT_MIN ≤ r ∧ r ≤ INT_MAX := by
  unfold stoi at h
  simp only at h
  by_cases hds : ((stoi_sign (s.toList.dropWhile isspace)).2.takeWhile isdigit) = []
  · rw [if_pos hds] at h
    exact absurd h (by simp)
  · rw [if_neg hds] at h
    generalize (if (stoi_sign (s.toList.dropWhile isspace)).1 = true
      then -(decimal_value ((stoi_sign (s.toList.dropWhile isspace)).2.takeWhile isdigit) : Int)
      else (decimal_value ((stoi_sign (s.toList.dropWhile isspace)).2.takeWhile isdigit) : Int))
      = r' at h
    by_cases hr : INT_MIN ≤ r' ∧ r' ≤ INT_MAX
    · rw [if_pos hr] at h
      rw [← Option.some.inj h]
      exact hr
    · rw [if_neg hr] at h
      exact absurd h (by simp)

/-- The sum `value += std::stoi(..)` of convert_string_to_number cannot overflow: whatever
the string, a value the function returns is a value of `car_dist_t`. -/
theorem convert_string_to_number_fits {s : String} {v : Int}
    (h : convert_string_to_number s = some v) : fits_car_dist v := by
  unfold convert_string_to_number at h
  cases h1 : substr s 0 (size_sub s.length 2) with
  | none => simp [h1] at h
  | some whole =>
    cases h2 : stoi whole with
    | none => simp [h1, h2] at h
    | some w =>
      simp only [h1, h2, Option.bind_eq_bind, Option.some_bind] at h
      split at h
      · exact absurd h (by simp)
      · next hv =>
        cases h3 : substr s (size_sub s.length 1) npos with
        | none => simp [h3] at h
        | some frac =>
          cases h4 : stoi frac with
          | none => simp [h3, h4] at h
          | some f =>
            simp only [h3, h4, Option.some_bind, Option.some.injEq] at h
            have hf := stoi_range h4
            have hv' : INT_MIN ≤ 10 * w ∧ 10 * w ≤ INT_MAX := not_not.mp hv
            unfold INT_MIN INT_MAX at hf hv'
            unfold fits_car_dist INT_FAST32_MIN INT_FAST32_MAX
            rw [← h]
            constructor <;> omega


/-! ## Claims -/

theorem start_if_unset_eq (x : Int) : start_if_unset x = counted x := by
  unfold start_if_unset counted default_dist
  split <;> omega

theorem journey_delta_eq (n0 : Nat) (t0 r : String) (e p : Int) :
    journey_delta (n0, t0, r, e) p = |p - e| := by
  simp [journey_delta, get_intersection_point]

/-- The letter of a key is the first character of the label it was converted from. -/
theorem road_letter {R : String} {key : road_name_t}
    (h : convert_string_to_road R = some key) : string_at R 0 = some key.1 := by
  unfold convert_string_to_road at h
  cases h1 : substr R 1 npos with
  | none => simp [h1] at h
  | some tail =>
    cases h2 : stoi tail with
    | none => simp [h1, h2] at h
    | some n =>
      cases h3 : string_at R 0 with
      | none => simp [h1, h2, h3] at h
      | some c =>
        simp only [h1, h2, h3, Option.bind_eq_bind, Option.some_bind,
          Option.some.injEq] at h
        rw [← h]

/-- The effect of closing the journey `(n0, t0, R, e)` of the plate of `words`, in the
vocabulary of the claims, when closing it fits. -/
theorem close_journey (words : smatch) (input : input_type_t) (w : World) (p e : Int)
    (n0 : Nat) (t0 : String) (key : road_name_t) (hok : w.ok)
    (hd : convert_string_to_number (get_distance words) = some p)
    (hr : convert_string_to_road (get_road_text words) = some key)
    (hopen : map_find string_less w.cars_on_road (get_car_plate words) =
      some (n0, t0, get_road_text words, e))
    (hfit : closing_fits key.1 p e (car_slots w (get_car_plate words)) (road_total w key)) :
    ∃ w', update_database words input w = some w' ∧ w'.ok ∧
      (string_at (get_road_text words) 0 = some 'A' →
        (car_slots w' (get_car_plate words)).1 =
          counted (car_slots w (get_car_plate words)).1 + |p - e|) ∧
      (string_at (get_road_text words) 0 ≠ some 'A' →
        (car_slots w' (get_car_plate words)).2 =
          counted (car_slots w (get_car_plate words)).2 + |p - e|) ∧
      map_find road_name_comparator w'.roads_data key =
        some (counted (road_total w key) + |p - e|) ∧
      map_find string_less w'.cars_on_road (get_car_plate words) = none ∧
      (map_find string_less w'.cars_data (get_car_plate words)).isSome = true := by
  have hc := road_letter hr
  obtain ⟨w', h1, h2, _, _, h5, _, h7, _, h9, _⟩ :=
    end_of_journey_spec words w (n0, t0, get_road_text words, e) p key key.1 hok hopen hd hr
      hc hfit
  refine ⟨w', ?_, h2, ?_, ?_, ?_, h5, by simp [h7]⟩
  · rw [update_database_end words input w _ hopen rfl, h1]
  · intro hA
    have : key.1 = motorway := by
      rw [hc] at hA
      simpa [motorway] using hA
    simp [car_slots, h7, car_data_after, this, start_if_unset_eq, journey_delta_eq]
  · intro hA
    have : key.1 ≠ motorway := by
      rw [hc] at hA
      simpa [motorway] using hA
    simp [car_slots, h7, car_data_after, this, start_if_unset_eq, journey_delta_eq]
  · rw [h9, start_if_unset_eq, journey_delta_eq]
    rfl

/-- Closing a journey that does not fit overflows: update_database has no result. -/
theorem close_journey_overflow (words : smatch) (input : input_type_t) (w : World) (p e : Int)
    (n0 : Nat) (t0 : String) (key : road_name_t)
    (hd : convert_string_to_number (get_distance words) = some p)
    (hr : convert_string_to_road (get_road_text words) = some key)
    (hopen : map_find string_less w.cars_on_road (get_car_plate words) =
      some (n0, t0, get_road_text words, e))
    (hfit : ¬ closing_fits key.1 p e (car_slots w (get_car_plate words)) (road_total w key)) :
    update_database words input w = none := by
  rw [update_database_end words input w _ hopen rfl]
  exact end_of_journey_overflow words w (n0, t0, get_road_text words, e) p key key.1 hopen hd
    hr (road_letter hr) hfit

/-- C1 (end of journey, rule 2).  In a well-formed database where the plate of a record has
an open journey on the road of the record with entry point `e`, and where closing the
journey overflows neither the slot nor the total, update_database adds exactly `|p - e|` to
the motorway slot of the plate when the label starts with `A` and to the other slot
otherwise (an unset slot counting as 0), adds `|p - e|` to the total of the road (an unset
total counting as 0) and removes the plate from the open journeys; where closing the
journey overflows, update_database has no defined result.  Consequently two consecutive
records of an absent plate on one road, with points `p1` then `p`, raise the slot of the
category and the total of the road by exactly `|p - p1|`, again unless that overflows. -/
theorem end_of_journey_adds_distance (words : smatch) (input : input_type_t) (w : World)
    (hok : w.ok) (hroad : is_road_label (get_road_text words) = true)
    (hdist : is_distance (get_distance words) = true) :
    ∃ (p : Int) (key : road_name_t),
      convert_string_to_number (get_distance words) = some p ∧
      convert_string_to_road (get_road_text words) = some key ∧
      (∀ (n0 : Nat) (t0 : String) (e : Int),
        map_find string_less w.cars_on_road (get_car_plate words) =
          some (n0, t0, get_road_text words, e) →
        (closing_fits key.1 p e (car_slots w (get_car_plate words)) (road_total w key) →
          ∃ w', update_database words input w = some w' ∧
            (string_at (get_road_text words) 0 = some 'A' →
              (car_slots w' (get_car_plate words)).1 =
                counted (car_slots w (get_car_plate words)).1 + |p - e|) ∧
            (string_at (get_road_text words) 0 ≠ some 'A' →
              (car_slots w' (get_car_plate words)).2 =
                counted (car_slots w (get_car_plate words)).2 + |p - e|) ∧
            map_find road_name_comparator w'.roads_data key =
              some (counted (road_total w key) + |p - e|) ∧
            map_find string_less w'.cars_on_road (get_car_plate words) = none) ∧
        (¬ closing_fits key.1 p e (car_slots w (get_car_plate words)) (road_total w key) →
          update_database words input w = none)) ∧
      (∀ (first : smatch) (input1 : input_type_t),
        get_car_plate first = get_car_plate words →
        get_road_text first = get_road_text words →
        is_distance (get_distance first) = true →
        map_find string_less w.cars_on_road (get_car_plate words) = none →
        ∃ (p1 : Int) (w1 : World),
          convert_string_to_number (get_distance first) = some p1 ∧
          update_database first input1 w = some w1 ∧
          (closing_fits key.1 p p1 (car_slots w (get_car_plate words)) (road_total w key) →
            ∃ w2, update_database words input w1 = some w2 ∧
              (string_at (get_road_text words) 0 = some 'A' →
                (car_slots w2 (get_car_plate words)).1 =
                  counted (car_slots w (get_car_plate words)).1 + |p - p1|) ∧
              (string_at (get_road_text words) 0 ≠ some 'A' →
                (car_slots w2 (get_car_plate words)).2 =
                  counted (car_slots w (get_car_plate words)).2 + |p - p1|) ∧
              map_find road_name_comparator w2.roads_data key =
                some (counted (road_total w key) + |p - p1|) ∧
              map_find string_less w2.cars_on_road (get_car_plate words) = none) ∧
          (¬ closing_fits key.1 p p1 (car_slots w (get_car_plate words)) (road_total w key) →
            update_database words input w1 = none)) := by
  obtain ⟨p, hp, _, _, _⟩ := convert_string_to_number_ok hdist
  obtain ⟨c, n, hkey, _, _, _, _, _⟩ := convert_string_to_road_ok hroad
  refine ⟨p, (c, n), hp, hkey, ?_, ?_⟩
  · intro n0 t0 e hopen
    constructor
    · intro hfit
      obtain ⟨w', h1, _, h3, h4, h5, h6, _⟩ :=
        close_journey words input w p e n0 t0 (c, n) hok hp hkey hopen hfit
      exact ⟨w', h1, h3, h4, h5, h6⟩
    · intro hfit
      exact close_journey_overflow words input w p e n0 t0 (c, n) hp hkey hopen hfit
  · intro first input1 hplate hroad1 hdist1 habsent
    obtain ⟨p1, hp1, _, _, _⟩ := convert_string_to_number_ok hdist1
    have hstart := update_database_start first input1 w p1 (by rw [hplate]; exact habsent) hp1
    rw [hplate, hroad1] at hstart
    obtain ⟨ho1, ho2, ho3⟩ := hok
    have hok1 : World.ok { w with
        cars_on_road :=
          map_emplace string_less w.cars_on_road (get_car_plate words)
            (input1.1, input1.2, get_road_text words, p1) } :=
      ⟨map_ok_emplace string_less_ok _ _ _ ho1, ho2, ho3⟩
    refine ⟨p1, _, hp1, hstart, ?_, ?_⟩
    · intro hfit
      obtain ⟨w2, h1, _, h3, h4, h5, h6, _⟩ :=
        close_journey words input _ p p1 input1.1 input1.2 (c, n) hok1 hp hkey
          (map_find_emplace_self _ _ _ string_less_ok habsent) hfit
      exact ⟨w2, h1, h3, h4, h5, h6⟩
    · intro hfit
      exact close_journey_overflow words input _ p p1 input1.1 input1.2 (c, n) hp hkey
        (map_find_emplace_self _ _ _ string_less_ok habsent) hfit

/-- C1, instance: the plate ABC123 entered A1 at 0,0 and S7 holds nothing; the record
`ABC123 A1 10,5` closes the journey with 10,5 on the motorway slot and on A1. -/
theorem end_of_journey_adds_distance_witness :
    ∃ w', update_database ["ABC123 A1 10,5", "ABC123", "A1", "10,5"] (2, "ABC123 A1 10,5")
        ⟨[("ABC123", (1, "ABC123 A1 0,0", "A1", 0))], [], [], "", ""⟩ = some w' ∧
      (car_slots w' "ABC123").1 = 105 ∧
      map_find road_name_comparator w'.roads_data ('A', 1) = some 105 ∧
      map_find string_less w'.cars_on_road "ABC123" = none := by
  obtain ⟨p, key, hp, hkey, h, _⟩ :=
    end_of_journey_adds_distance ["ABC123 A1 10,5", "ABC123", "A1", "10,5"]
      (2, "ABC123 A1 10,5") ⟨[("ABC123", (1, "ABC123 A1 0,0", "A1", 0))], [], [], "", ""⟩
      (by simp [World.ok, map_ok]) (by decide) (by decide)
  have e1 : p = 105 := by
    have : convert_string_to_number "10,5" = some 105 := by decide
    exact Option.some.inj (hp.symm.trans this)
  have e2 : key = ('A', 1) := by
    have : convert_string_to_road "A1" = some ('A', 1) := by decide
    exact Option.some.inj (hkey.symm.trans this)
  subst e1 e2
  obtain ⟨w', h1, h2, _, h4, h5⟩ := (h 1 "ABC123 A1 0,0" 0 (by decide)).1 (by decide)
  exact ⟨w', h1, h2 (by decide), h4, h5⟩

/-- The model has the overflow: with the motorway slot of ABC and the total of A1 at the
greatest value of their types, closing a journey of 10,5 has no defined result. -/
theorem update_database_overflow :
    update_database ["ABC A1 10,5", "ABC", "A1", "10,5"] (2, "ABC A1 10,5")
      ⟨[("ABC", (1, "ABC A1 0,0", "A1", 0))], [(('A', 1), 9223372036854775807)],
        [("ABC", (9223372036854775807, -1))], "", ""⟩ = none := by
  decide

/-- C3 (fixed-point round trip).  For every string `s` of the distance grammar the conversion
succeeds, and printing its value as `value / 10`, a comma, `value % 10` gives `s` back; this
is the text print_car_data and print_road_data put after the slot label or the road name. -/
theorem distance_round_trip (s : String) (h : is_distance s = true) :
    ∃ v : Int, convert_string_to_number s = some v ∧
      show_int (Int.tdiv v 10) ++ "," ++ show_int (Int.tmod v 10) = s ∧
      (∀ P : car_plate_t, car_line P (v, default_dist) = P ++ " A " ++ s ++ "\n" ∧
        car_line P (default_dist, v) = P ++ " S " ++ s ++ "\n") ∧
      (∀ road : road_name_t,
        road_line road v = show_char road.1 ++ show_nat road.2 ++ " " ++ s ++ "\n") := by
  obtain ⟨p, hp, h0, _, hs⟩ := convert_string_to_number_ok h
  have hgt : (-1 : Int) < p := by omega
  refine ⟨p, hp, hs, ?_, ?_⟩
  · intro P
    constructor
    · simp [car_line, hgt, hs, default_dist, String.append_assoc]
    · simp [car_line, hgt, hs, default_dist, String.append_assoc]
  · intro road
    simp [road_line, hs]

/-- C3, instance: the string `10,5`. -/
theorem distance_round_trip_witness :
    ∃ v : Int, convert_string_to_number "10,5" = some v ∧
      show_int (Int.tdiv v 10) ++ "," ++ show_int (Int.tmod v 10) = "10,5" :=
  let ⟨v, h1, h2, _⟩ := distance_round_trip "10,5" (by decide)
  ⟨v, h1, h2⟩

/-- C4 (encoding value and range).  A string of the distance grammar is the decimal text of
a whole part `w` below 10^8, a comma and a digit `f`; the conversion gives `10 * w + f`, in
`[0, 999999999]`; the product `10 * w`, the value and the difference with the value of any
other string of the grammar all lie within the range of a signed 32-bit integer. -/
theorem encoding_value_and_range (s : String) (h : is_distance s = true) :
    ∃ w f : Nat, s = show_nat w ++ "," ++ show_nat f ∧ w ≤ 99999999 ∧ f ≤ 9 ∧
      convert_string_to_number s = some (10 * (w : Int) + f) ∧
      0 ≤ 10 * (w : Int) + f ∧ 10 * (w : Int) + f ≤ 999999999 ∧
      10 * (w : Int) ≤ INT_MAX ∧ 10 * (w : Int) + f ≤ INT_MAX ∧
      (∀ (s' : String) (v' : Int), is_distance s' = true →
        convert_string_to_number s' = some v' →
        INT_MIN ≤ 10 * (w : Int) + f - v' ∧ 10 * (w : Int) + f - v' ≤ INT_MAX ∧
          |10 * (w : Int) + f - v'| ≤ 999999999) := by
  obtain ⟨ip, d, rfl, hd, hip⟩ := is_distance_split h
  obtain ⟨hall, hne, hz, hlen⟩ := whole_part_facts hip
  have hv : decimal_value ip < 10 ^ 8 :=
    lt_of_lt_of_le (decimal_value_lt ip hall) (Nat.pow_le_pow_right (by norm_num) hlen)
  have hf := digit_value_lt hd
  have hw : (decimal_value ip : Int) ≤ 99999999 := by
    have : decimal_value ip ≤ 99999999 := by omega
    exact_mod_cast this
  have hf' : (digit_value d : Int) ≤ 9 := by
    have : digit_value d ≤ 9 := by omega
    exact_mod_cast this
  have hw0 : (0 : Int) ≤ decimal_value ip := by positivity
  have hf0 : (0 : Int) ≤ digit_value d := by positivity
  refine ⟨decimal_value ip, digit_value d, ?_, by omega, by omega, ?_, by omega, by omega,
    by simp only [INT_MAX]; omega, by simp only [INT_MAX]; omega, ?_⟩
  · rw [show_nat_eq, show_nat_eq, toDigits_decimal_value ip hall hne hz, toDigits_small hf,
      digitChar_digit_value hd]
    apply String.ext
    simp [String.data_append]
  · rw [convert_string_to_number_split ip d hd hip]
    simp
  · intro s' v' hs' hv'
    obtain ⟨p', hp', h0, h1, _⟩ := convert_string_to_number_ok hs'
    have : v' = p' := Option.some.inj (hv'.symm.trans hp')
    subst this
    simp only [INT_MIN, INT_MAX]
    refine ⟨by omega, by omega, ?_⟩
    rw [abs_le]
    constructor <;> omega

/-- C4, instance: the largest string of the grammar. -/
theorem encoding_value_and_range_witness :
    ∃ w f : Nat, "99999999,9" = show_nat w ++ "," ++ show_nat f ∧
      convert_string_to_number "99999999,9" = some (10 * (w : Int) + f) ∧
      10 * (w : Int) + f ≤ 999999999 :=
  let ⟨w, f, h1, _, _, h2, _, h3, _⟩ := encoding_value_and_range "99999999,9" (by decide)
  ⟨w, f, h1, h2, h3⟩

/-- C5 (journey start, rule 1).  In a well-formed database where the plate of a record has
no open journey, update_database succeeds, the plate then has the open journey made of the
line number, the line text, the road label and the encoded point, and the car accumulators,
the road accumulators and both streams are exactly as before. -/
theorem journey_start (words : smatch) (input : input_type_t) (w : World) (hok : w.ok)
    (hdist : is_distance (get_distance words) = true)
    (habsent : map_find string_less w.cars_on_road (get_car_plate words) = none) :
    ∃ (p : Int) (w' : World), convert_string_to_number (get_distance words) = some p ∧
      update_database words input w = some w' ∧
      map_find string_less w'.cars_on_road (get_car_plate words) =
        some (input.1, input.2, get_road_text words, p) ∧
      w'.cars_data = w.cars_data ∧ w'.roads_data = w.roads_data ∧
      w'.cout = w.cout ∧ w'.cerr = w.cerr ∧ w'.ok := by
  obtain ⟨p, hp, _, _, _⟩ := convert_string_to_number_ok hdist
  obtain ⟨ho1, ho2, ho3⟩ := hok
  exact ⟨p, _, hp, update_database_start words input w p habsent hp,
    map_find_emplace_self _ _ _ string_less_ok habsent, rfl, rfl, rfl, rfl,
    ⟨map_ok_emplace string_less_ok _ _ _ ho1, ho2, ho3⟩⟩

/-- C5, instance: the record `ABC123 A1 0,0` read at line 1 by the initial database. -/
theorem journey_start_witness :
    ∃ w', update_database ["ABC123 A1 0,0", "ABC123", "A1", "0,0"] (1, "ABC123 A1 0,0")
        World.initial = some w' ∧
      map_find string_less w'.cars_on_road "ABC123" = some (1, "ABC123 A1 0,0", "A1", 0) ∧
      w'.cars_data = [] ∧ w'.roads_data = [] := by
  obtain ⟨p, w', hp, h1, h2, h3, h4, _⟩ :=
    journey_start ["ABC123 A1 0,0", "ABC123", "A1", "0,0"] (1, "ABC123 A1 0,0") World.initial
      (by simp [World.ok, World.initial, map_ok]) (by decide) (by decide)
  have e1 : p = 0 := by
    have : convert_string_to_number "0,0" = some 0 := by decide
    exact Option.some.inj (hp.symm.trans this)
  subst e1
  exact ⟨w', h1, h2, h3, h4⟩

/-- C6 (inconsistent road, rule 3).  In a well-formed database where the plate of a record
has an open journey recorded at line `n0` with text `t0` on a road whose label differs from
the one of the record, update_database writes exactly the one line `Error in line n0: t0` to
the error stream, replaces the open journey by one on the new road at the new point with the
current line number and text, and leaves standard output and every car and road accumulator
unchanged. -/
theorem inconsistent_road (words : smatch) (input : input_type_t) (w : World) (n0 : Nat)
    (t0 R : String) (e : Int) (hok : w.ok)
    (hdist : is_distance (get_distance words) = true)
    (hopen : map_find string_less w.cars_on_road (get_car_plate words) = some (n0, t0, R, e))
    (hne : R ≠ get_road_text words) :
    ∃ (p : Int) (w' : World), convert_string_to_number (get_distance words) = some p ∧
      update_database words input w = some w' ∧
      w'.cerr = w.cerr ++ ("Error in line " ++ show_nat n0 ++ ": " ++ t0 ++ "\n") ∧
      map_find string_less w'.cars_on_road (get_car_plate words) =
        some (input.1, input.2, get_road_text words, p) ∧
      w'.cars_data = w.cars_data ∧ w'.roads_data = w.roads_data ∧ w'.cout = w.cout := by
  obtain ⟨p, hp, _, _, _⟩ := convert_string_to_number_ok hdist
  obtain ⟨w', h1, _, h3, h4, h5, h6, h7, _⟩ :=
    update_database_restart words input w p (n0, t0, R, e) hok hopen hne hp
  exact ⟨p, w', hp, h1, h4, h7, h5, h6, h3⟩

/-- C6, instance: ABC123 entered A1 at line 1 and is seen on S2 at line 2. -/
theorem inconsistent_road_witness :
    ∃ w', update_database ["ABC123 S2 5,0", "ABC123", "S2", "5,0"] (2, "ABC123 S2 5,0")
        ⟨[("ABC123", (1, "ABC123 A1 0,0", "A1", 0))], [], [], "", ""⟩ = some w' ∧
      w'.cerr = "Error in line 1: ABC123 A1 0,0\n" ∧
      map_find string_less w'.cars_on_road "ABC123" = some (2, "ABC123 S2 5,0", "S2", 50) ∧
      w'.cars_data = [] ∧ w'.roads_data = [] := by
  obtain ⟨p, w', hp, h1, h2, h3, h4, h5, _⟩ :=
    inconsistent_road ["ABC123 S2 5,0", "ABC123", "S2", "5,0"] (2, "ABC123 S2 5,0")
      ⟨[("ABC123", (1, "ABC123 A1 0,0", "A1", 0))], [], [], "", ""⟩ 1 "ABC123 A1 0,0" "A1" 0
      (by simp [World.ok, map_ok]) (by decide) (by decide) (by decide)
  have e1 : p = 50 := by
    have : convert_string_to_number "5,0" = some 50 := by decide
    exact Option.some.inj (hp.symm.trans this)
  subst e1
  exact ⟨w', h1, h2, h3, h4, h5⟩


/-- C10 (road identity).  Two labels of the road grammar are equal as text exactly when
convert_string_to_road gives them the same key; the conversion succeeds, and the category
letter followed by the number in decimal, as print_road_data writes them, is the label. -/
theorem road_identity (r1 r2 : String) (h1 : is_road_label r1 = true)
    (h2 : is_road_label r2 = true) :
    (r1 = r2 ↔ convert_string_to_road r1 = convert_string_to_road r2) ∧
      ∃ key : road_name_t, convert_string_to_road r1 = some key ∧
        show_char key.1 ++ show_nat key.2 = r1 ∧ string_at r1 0 = some key.1 ∧
        ∀ dist : road_dist_t, road_line key dist = r1 ++ " " ++ show_dist dist ++ "\n" := by
  obtain ⟨c1, n1, e1, a1, _, _, _, s1⟩ := convert_string_to_road_ok h1
  obtain ⟨c2, n2, e2, _, _, _, _, s2⟩ := convert_string_to_road_ok h2
  refine ⟨⟨fun h => by rw [h], ?_⟩, (c1, n1), e1, s1, a1, ?_⟩
  · intro h
    rw [e1, e2] at h
    simp only [Option.some.injEq, Prod.mk.injEq] at h
    rw [← s1, ← s2, h.1, h.2]
  · intro dist
    simp only [road_line]
    rw [s1]

/-- C10, instance: the labels A1 and S1 differ and so do their keys. -/
theorem road_identity_witness :
    ("A1" = "S1" ↔ convert_string_to_road "A1" = convert_string_to_road "S1") ∧
      ∃ key : road_name_t, convert_string_to_road "A1" = some key ∧
        show_char key.1 ++ show_nat key.2 = "A1" :=
  let ⟨h, key, h1, h2, _⟩ := road_identity "A1" "S1" (by decide) (by decide)
  ⟨h, key, h1, h2⟩


/-! ## Queries -/

theorem foldl_print_car_data (l : List (car_plate_t × car_data_t)) (w : World) :
    l.foldl (fun acc car => print_car_data car.1 car.2 acc) w =
      { w with cout := w.cout ++ lines_text (l.map (fun car => car_line car.1 car.2)) } := by
  induction l generalizing w with
  | nil => simp [lines_text]
  | cons x t ih =>
    rw [List.foldl_cons, ih]
    simp [print_car_data, lines_text, String.append_assoc]

theorem foldl_print_road_data (l : List (road_name_t × road_dist_t)) (w : World) :
    l.foldl (fun acc road => print_road_data road.1 road.2 acc) w =
      { w with cout := w.cout ++ lines_text (l.map (fun road => road_line road.1 road.2)) } := by
  induction l generalizing w with
  | nil => simp [lines_text]
  | cons x t ih =>
    rw [List.foldl_cons, ih]
    simp [print_road_data, lines_text, String.append_assoc]

/-- What query-all does: it appends the car lines, then the road lines, to standard output
and touches nothing else. -/
theorem all_data_query_eq (w : World) :
    all_data_query w =
      some { w with cout := w.cout ++ lines_text (car_lines w) ++ lines_text (road_lines w) } := by
  simp only [all_data_query, foldl_print_car_data, foldl_print_road_data, car_lines, road_lines]

theorem map_keys_pairwise {κ ν : Type} {comp : κ → κ → Bool} (m : List (κ × ν))
    (h : map_ok comp m) : (m.map Prod.fst).Pairwise (fun a b => comp a b = true) := by
  unfold map_ok at h
  rw [List.pairwise_map]
  exact h

theorem map_keys_nodup {κ ν : Type} {comp : κ → κ → Bool} (hc : comp_ok comp)
    (m : List (κ × ν)) (h : map_ok comp m) : (m.map Prod.fst).Nodup := by
  have := map_keys_pairwise m h
  unfold List.Nodup
  refine this.imp ?_
  intro a b hab e
  rw [e, hc.irrefl] at hab
  exact absurd hab (by simp)

theorem map_find_isSome_iff {κ ν : Type} {comp : κ → κ → Bool} (hc : comp_ok comp)
    (m : List (κ × ν)) (h : map_ok comp m) (k : κ) :
    (map_find comp m k).isSome = true ↔ k ∈ m.map Prod.fst := by
  constructor
  · intro hs
    obtain ⟨v, hv⟩ := Option.isSome_iff_exists.mp hs
    exact List.mem_map.mpr ⟨(k, v), mem_of_map_find hc m k v hv, rfl⟩
  · intro hk
    obtain ⟨⟨k', v⟩, hx, rfl⟩ := List.mem_map.mp hk
    rw [map_find_of_mem hc m k' v h hx]
    rfl

/-- C9 (query-all road ordering).  On a well-formed database query-all appends to standard
output the car lines followed by one line per entry of the road map; the roads of these
lines are exactly the roads with an accumulator, each once, in strictly increasing order of
the number and, for equal numbers, of the category letter. -/
theorem query_all_road_order (w : World) (hok : w.ok) :
    ∃ w', all_data_query w = some w' ∧
      w'.cout = w.cout ++ lines_text (car_lines w) ++
        lines_text (w.roads_data.map (fun road => road_line road.1 road.2)) ∧
      (∀ key : road_name_t, (map_find road_name_comparator w.roads_data key).isSome = true ↔
        key ∈ w.roads_data.map Prod.fst) ∧
      (∀ (key : road_name_t) (dist : road_dist_t), (key, dist) ∈ w.roads_data ↔
        map_find road_name_comparator w.roads_data key = some dist) ∧
      (w.roads_data.map Prod.fst).Nodup ∧
      (w.roads_data.map Prod.fst).Pairwise
        (fun a b => a.2 < b.2 ∨ (a.2 = b.2 ∧ a.1 < b.1)) := by
  obtain ⟨_, ho2, _⟩ := hok
  refine ⟨_, all_data_query_eq w, rfl, map_find_isSome_iff road_name_comparator_ok _ ho2,
    ?_, map_keys_nodup road_name_comparator_ok _ ho2, ?_⟩
  · intro key dist
    exact ⟨map_find_of_mem road_name_comparator_ok _ key dist ho2,
      mem_of_map_find road_name_comparator_ok _ key dist⟩
  · refine (map_keys_pairwise _ ho2).imp ?_
    rintro ⟨t1, n1⟩ ⟨t2, n2⟩ h
    exact (road_name_comparator_iff t1 t2 n1 n2).mp h

/-- C9, instance: with totals on A1, S1 and A2 the road lines come in this order. -/
theorem query_all_road_order_witness :
    ∃ w', all_data_query ⟨[], [(('A', 1), 10), (('S', 1), 25), (('A', 2), 7)], [], "", ""⟩ =
        some w' ∧ w'.cout = "A1 1,0\nS1 2,5\nA2 0,7\n" := by
  obtain ⟨w', h1, h2, _⟩ :=
    query_all_road_order ⟨[], [(('A', 1), 10), (('S', 1), 25), (('A', 2), 7)], [], "", ""⟩
      (by simp [World.ok, map_ok, road_name_comparator])
  refine ⟨w', h1, ?_⟩
  rw [h2]
  decide


/-- C8 (car query output format).  In a well-formed database where the queried plate `P` has
the accumulator `(a, s)`, car_query appends to standard output exactly one line: `P`, then
` A ` with `a / 10`, a comma and `a % 10` when the motorway slot is above the sentinel, then
` S ` with `s / 10`, a comma and `s % 10` when the other slot is above the sentinel, then the
end of line; for a slot that is not below the sentinel, being above it is being set.
Query-all prints one line per entry of the car map, `P` has exactly one entry
there, and its line is this same line.  The records `ABC123 A1 0,0` and `ABC123 A1 10,5`
followed by the query `?ABC123` output `ABC123 A 10,5`. -/
theorem car_query_format (words : smatch) (w : World) (a s : car_dist_t) (hok : w.ok)
    (hacc : map_find string_less w.cars_data (get_query_key words) = some (a, s)) :
    (∃ w', car_query words w = some w' ∧
      w'.cout = w.cout ++ (get_query_key words
        ++ (if a > default_dist
            then " A " ++ show_int (Int.tdiv a 10) ++ "," ++ show_int (Int.tmod a 10) else "")
        ++ (if s > default_dist
            then " S " ++ show_int (Int.tdiv s 10) ++ "," ++ show_int (Int.tmod s 10) else "")
        ++ "\n") ∧
      w'.cout = w.cout ++ car_line (get_query_key words) (a, s) ∧
      w'.cars_on_road = w.cars_on_road ∧ w'.cars_data = w.cars_data ∧
      w'.roads_data = w.roads_data ∧ w'.cerr = w.cerr) ∧
    (default_dist ≤ a → (a > default_dist ↔ a ≠ default_dist)) ∧
    (default_dist ≤ s → (s > default_dist ↔ s ≠ default_dist)) ∧
    (∃ w'', all_data_query w = some w'' ∧
      w''.cout = w.cout ++ lines_text (w.cars_data.map (fun car => car_line car.1 car.2)) ++
        lines_text (road_lines w) ∧
      (get_query_key words, (a, s)) ∈ w.cars_data ∧
      (w.cars_data.map Prod.fst).count (get_query_key words) = 1) ∧
    ((((update_database ["ABC123 A1 0,0", "ABC123", "A1", "0,0"] (1, "ABC123 A1 0,0")
        World.initial).bind
      (update_database ["ABC123 A1 10,5", "ABC123", "A1", "10,5"] (2, "ABC123 A1 10,5"))).bind
      (car_query ["?ABC123", "ABC123"])).map World.cout = some "ABC123 A 10,5\n") := by
  obtain ⟨_, _, ho3⟩ := hok
  refine ⟨⟨print_car_data (get_query_key words) (a, s) w, ?_, ?_, rfl, rfl, rfl, rfl, rfl⟩,
    fun h => ⟨fun h1 => ne_of_gt h1, fun h1 => lt_of_le_of_ne h (Ne.symm h1)⟩,
    fun h => ⟨fun h1 => ne_of_gt h1, fun h1 => lt_of_le_of_ne h (Ne.symm h1)⟩,
    ⟨_, all_data_query_eq w, rfl, mem_of_map_find string_less_ok _ _ _ hacc, ?_⟩, by decide⟩
  · simp [car_query, hacc]
  · simp only [print_car_data, car_line, show_dist, String.append_assoc]
  · apply List.count_eq_one_of_mem (map_keys_nodup string_less_ok _ ho3)
    exact List.mem_map.mpr ⟨_, mem_of_map_find string_less_ok _ _ _ hacc, rfl⟩

/-- C8, instance: the database after the two records of the scenario, queried for ABC123. -/
theorem car_query_format_witness :
    ∃ w', car_query ["?ABC123", "ABC123"]
        ⟨[], [(('A', 1), 105)], [("ABC123", (105, -1))], "", ""⟩ = some w' ∧
      w'.cout = "ABC123 A 10,5\n" := by
  obtain ⟨⟨w', h1, h2, _⟩, _⟩ :=
    car_query_format ["?ABC123", "ABC123"]
      ⟨[], [(('A', 1), 105)], [("ABC123", (105, -1))], "", ""⟩ 105 (-1)
      (by simp [World.ok, map_ok]) (by decide)
  refine ⟨w', h1, ?_⟩
  rw [h2]
  decide


/-! ## The database follows the journeys of the specification -/

theorem encode_eq {s : String} (h : is_distance s = true) :
    convert_string_to_number s = some (encode s) := by
  obtain ⟨ip, d, rfl, hd, hip⟩ := is_distance_split h
  rw [convert_string_to_number_split ip d hd hip]
  have e1 : (String.mk (ip ++ [',', d])).length - 2 = ip.length := by
    simp [String.length]
  have e2 : (ip ++ [',', d]).getLastD '0' = d := by
    rw [show ip ++ [',', d] = (ip ++ [',']) ++ [d] by simp, List.getLastD_concat]
  simp only [encode, String.toList, e1, List.take_left, e2]
  push_cast
  rfl

theorem total_length_nonneg (js : List journey) : 0 ≤ total_length js := by
  unfold total_length
  apply List.sum_nonneg
  intro x hx
  obtain ⟨j, _, rfl⟩ := List.mem_map.mp hx
  exact abs_nonneg _

theorem total_length_concat (js : List journey) (j : journey) :
    total_length (js ++ [j]) = total_length js + journey_length j := by
  simp [total_length]

theorem start_if_unset_expected (js : List journey) :
    start_if_unset (expected_slot js) = total_length js := by
  unfold start_if_unset expected_slot
  cases js with
  | nil => simp [total_length, default_dist]
  | cons j t =>
    have := total_length_nonneg (j :: t)
    simp only [List.isEmpty_cons, Bool.false_eq_true, if_false]
    rw [if_neg]
    unfold default_dist
    omega

theorem expected_slot_concat (js : List journey) (j : journey) :
    expected_slot (js ++ [j]) = start_if_unset (expected_slot js) + journey_length j := by
  rw [start_if_unset_expected, ← total_length_concat]
  unfold expected_slot
  cases js <;> simp

theorem plate_journeys_concat (js : List journey) (j : journey) (P : String) (m : Bool) :
    plate_journeys (js ++ [j]) P m =
      plate_journeys js P m ++
        (if (decide (j.plate = P) && (is_motorway j.road == m)) = true then [j] else []) := by
  simp only [plate_journeys, List.filter_append, List.filter_cons, List.filter_nil]

theorem plate_journeys_of_none (js : List journey) (P : String) (m : Bool)
    (h : (js.filter (fun j => decide (j.plate = P))).isEmpty = true) :
    plate_journeys js P m = [] := by
  rw [List.isEmpty_iff] at h
  rw [List.filter_eq_nil_iff] at h
  unfold plate_journeys
  rw [List.filter_eq_nil_iff]
  intro j hj
  have := h j hj
  simp only [Bool.and_eq_true, not_and]
  intro hp
  exact absurd hp this

theorem agrees_initial : agrees World.initial journey_log_initial := by
  refine ⟨by simp [World.ok, World.initial, map_ok], ?_, ?_, ?_, ?_⟩
  · intro P
    exact Or.inl ⟨rfl, rfl⟩
  · intro P
    simp [journey_log_initial, World.initial, map_find]
  · intro R key _ _
    simp [journey_log_initial, World.initial, map_find, road_journeys]
  · intro key dist hf
    simp [World.initial, map_find] at hf


theorem open_agrees_update (st : String → plate_state)
    (m m' : List (car_plate_t × record_type_t)) (P0 : String) (X : plate_state)
    (h : ∀ P, open_agrees (st P) (map_find string_less m P))
    (h0 : open_agrees X (map_find string_less m' P0))
    (hother : ∀ P, P ≠ P0 → map_find string_less m' P = map_find string_less m P) :
    ∀ P, open_agrees ((fun Q => if Q = P0 then X else st Q) P) (map_find string_less m' P) := by
  intro P
  by_cases hP : P = P0
  · subst hP
    simpa using h0
  · simp only [hP, if_false]
    rw [hother P hP]
    exact h P

theorem isEmpty_concat {α : Type} (l : List α) (x : α) : (l ++ [x]).isEmpty = false := by
  cases l <;> rfl

theorem convert_string_to_road_inj {r1 r2 : String} {key : road_name_t}
    (h1 : is_road_label r1 = true) (h2 : is_road_label r2 = true)
    (e1 : convert_string_to_road r1 = some key) (e2 : convert_string_to_road r2 = some key) :
    r1 = r2 := by
  obtain ⟨c1, n1, k1, _, _, _, _, s1⟩ := convert_string_to_road_ok h1
  obtain ⟨c2, n2, k2, _, _, _, _, s2⟩ := convert_string_to_road_ok h2
  have a1 := Option.some.inj (k1.symm.trans e1)
  have a2 := Option.some.inj (k2.symm.trans e2)
  rw [← a2, Prod.mk.injEq] at a1
  rw [← s1, ← s2, a1.1, a1.2]

theorem start_if_unset_road (js : List journey) :
    start_if_unset ((if js.isEmpty = true then none
      else some (total_length js)).getD default_dist) = total_length js := by
  cases js with
  | nil => simp [start_if_unset, default_dist, total_length]
  | cons j t =>
    have := total_length_nonneg (j :: t)
    simp only [List.isEmpty_cons, Bool.false_eq_true, if_false, Option.getD_some,
      start_if_unset, default_dist]
    rw [if_neg (by omega)]

theorem road_journeys_concat (js : List journey) (j : journey) (R : String) :
    road_journeys (js ++ [j]) R =
      road_journeys js R ++ (if j.road = R then [j] else []) := by
  simp only [road_journeys, List.filter_append, List.filter_cons, List.filter_nil,
    decide_eq_true_eq]

/-- On a well-formed database a record of the grammar is processed exactly when it
overflows nothing. -/
theorem update_database_returns (words : smatch) (input : input_type_t) (w : World)
    (hok : w.ok) (hroad : is_road_label (get_road_text words) = true)
    (hdist : is_distance (get_distance words) = true) :
    (∃ w', update_database words input w = some w') ↔ update_fits words w := by
  obtain ⟨p, hp, _⟩ := convert_string_to_number_ok hdist
  obtain ⟨c, n, hkey, hat, _⟩ := convert_string_to_road_ok hroad
  constructor
  · rintro ⟨w', hw⟩ n0 t0 e p' key' hopen hp' hkey'
    by_contra hfit
    rw [close_journey_overflow words input w p' e n0 t0 key' hp' hkey' hopen hfit] at hw
    exact absurd hw (by simp)
  · intro hfit
    cases hopen : map_find string_less w.cars_on_road (get_car_plate words) with
    | none => exact ⟨_, update_database_start words input w p hopen hp⟩
    | some record =>
      obtain ⟨n0, t0, R, e⟩ := record
      by_cases hR : R = get_road_text words
      · subst hR
        obtain ⟨w', h1, _⟩ := close_journey words input w p e n0 t0 (c, n) hok hp hkey hopen
          (hfit n0 t0 e p (c, n) hopen hp hkey)
        exact ⟨w', h1⟩
      · obtain ⟨w', h1, _⟩ :=
          update_database_restart words input w p (n0, t0, R, e) hok hopen hR hp
        exact ⟨w', h1⟩

theorem total_length_append (a b : List journey) :
    total_length (a ++ b) = total_length a + total_length b := by
  simp [total_length]

/-- Journeys that fit still fit when the last ones are left out. -/
theorem journeys_fit_prefix (js extra : List journey) (h : journeys_fit (js ++ extra)) :
    journeys_fit js := by
  constructor
  · intro P m
    have := h.1 P m
    unfold plate_journeys at this ⊢
    rw [List.filter_append, total_length_append] at this
    have hn := total_length_nonneg
      (extra.filter (fun j => decide (j.plate = P) && (is_motorway j.road == m)))
    exact le_trans (le_add_of_nonneg_right hn) this
  · intro R
    have := h.2 R
    unfold road_journeys at this ⊢
    rw [List.filter_append, total_length_append] at this
    have hn := total_length_nonneg (extra.filter (fun j => decide (j.road = R)))
    exact le_trans (le_add_of_nonneg_right hn) this

/-- The slots of a plate in a database that agrees with a journey log. -/
theorem car_slots_agrees (w : World) (log : journey_log) (h : agrees w log) (P : String) :
    car_slots w P = (expected_slot (plate_journeys log.2 P true),
      expected_slot (plate_journeys log.2 P false)) := by
  unfold car_slots
  rw [h.cars P]
  split
  · next he =>
    simp [plate_journeys_of_none _ _ _ he, expected_slot]
  · rfl

/-- From a nonnegative `T` with `T + |x|` at most the greatest value of the type, the whole
arithmetic of closing a journey between two points that differ by `x` fits. -/
theorem fits_of_total (x T : Int) (hT : 0 ≤ T) (hsum : T + |x| ≤ 9223372036854775807) :
    (-9223372036854775808 ≤ x ∧ x ≤ 9223372036854775807) ∧
      (-9223372036854775808 ≤ |x| ∧ |x| ≤ 9223372036854775807) ∧
      (-9223372036854775808 ≤ T + |x| ∧ T + |x| ≤ 9223372036854775807) := by
  have h0 : 0 ≤ |x| := abs_nonneg x
  have h1 : x ≤ |x| := le_abs_self x
  have h2 : -x ≤ |x| := neg_le_abs x
  refine ⟨⟨by linarith, by linarith⟩, ⟨by linarith, by linarith⟩, ⟨by linarith, by linarith⟩⟩

/-- In a database that agrees with a journey log, a record whose journey keeps the journeys
of the log fitting overflows nothing. -/
theorem agrees_fits (w : World) (log : journey_log) (r : update_record) (h : agrees w log)
    (hr : record_ok r = true) (hfit : journeys_fit (journey_step log r).2) :
    update_fits r.1 w := by
  simp only [record_ok, Bool.and_eq_true] at hr
  obtain ⟨hroad, hdist⟩ := hr
  intro n0 t0 e p key hopen hp hkey
  have hpe : p = encode (get_distance r.1) :=
    Option.some.inj (hp.symm.trans (encode_eq hdist))
  have hat := road_letter hkey
  rcases h.open_journey (get_car_plate r.1) with ⟨_, hfind⟩ | ⟨R, e', n, t, hst, hfind⟩
  · rw [hfind] at hopen
    exact absurd hopen (by simp)
  · rw [hfind] at hopen
    simp only [Option.some.injEq, Prod.mk.injEq] at hopen
    obtain ⟨_, _, hR, he⟩ := hopen
    subst hR he
    have hlog : (journey_step log r).2 =
        log.2 ++ [⟨get_car_plate r.1, get_road_text r.1, e',
          encode (get_distance r.1)⟩] := by
      simp only [journey_step, hst, if_true]
    rw [hlog, ← hpe] at hfit
    have hone : total_length [(⟨get_car_plate r.1, get_road_text r.1, e', p⟩ : journey)] =
        |p - e'| := by
      simp [total_length, journey_length]
    have hm : is_motorway (get_road_text r.1) = decide (key.1 = motorway) := by
      simp [is_motorway, hat]
    have hcar := hfit.1 (get_car_plate r.1) (decide (key.1 = motorway))
    rw [plate_journeys_concat, total_length_append] at hcar
    simp only [decide_True, Bool.true_and, hm, beq_self_eq_true, if_true, hone] at hcar
    have hroad' := hfit.2 (get_road_text r.1)
    rw [road_journeys_concat, total_length_append] at hroad'
    simp only [if_true, hone] at hroad'
    have fc := fits_of_total (p - e') _ (total_length_nonneg _) hcar
    have fr := fits_of_total (p - e') _ (total_length_nonneg _) hroad'
    have hslot : start_if_unset (if key.1 = motorway
          then (car_slots w (get_car_plate r.1)).1 else (car_slots w (get_car_plate r.1)).2) =
        total_length (plate_journeys log.2 (get_car_plate r.1)
          (decide (key.1 = motorway))) := by
      rw [car_slots_agrees w log h]
      by_cases hc : key.1 = motorway
      · simp only [hc, if_true, decide_True]
        exact start_if_unset_expected _
      · simp only [hc, if_false, decide_False]
        exact start_if_unset_expected _
    have htotal : start_if_unset (road_total w key) =
        total_length (road_journeys log.2 (get_road_text r.1)) := by
      unfold road_total
      rw [h.roads _ _ hroad hkey]
      exact start_if_unset_road _
    refine ⟨⟨fc.1, fc.2.1, ?_⟩, ⟨fr.1, fr.2.1, ?_⟩⟩
    · rw [hslot]
      exact fc.2.2
    · rw [htotal]
      exact fr.2.2

/-- One record that overflows nothing keeps the database in agreement with the journey
log. -/
theorem agrees_step (w : World) (log : journey_log) (r : update_record) (h : agrees w log)
    (hr : record_ok r = true) (hfit : update_fits r.1 w) :
    ∃ w', update_database r.1 r.2 w = some w' ∧ agrees w' (journey_step log r) ∧
      w'.cout = w.cout := by
  simp only [record_ok, Bool.and_eq_true] at hr
  obtain ⟨hroad, hdist⟩ := hr
  have hp := encode_eq hdist
  obtain ⟨c, num, hkey, hat, _, _, _, _⟩ := convert_string_to_road_ok hroad
  rcases h.open_journey (get_car_plate r.1) with ⟨hst, hfind⟩ | ⟨R, e, n, t, hst, hfind⟩
  · -- rule 1
    refine ⟨_, update_database_start r.1 r.2 w _ hfind hp, ?_, rfl⟩
    obtain ⟨ho1, ho2, ho3⟩ := h.ok
    have hlog : journey_step log r =
        (fun Q => if Q = get_car_plate r.1
          then plate_state.OnRoad (get_road_text r.1) (encode (get_distance r.1))
          else log.1 Q, log.2) := by
      simp only [journey_step, hst]
    rw [hlog]
    refine ⟨⟨map_ok_emplace string_less_ok _ _ _ ho1, ho2, ho3⟩, ?_, h.cars, h.roads,
      h.road_keys⟩
    exact open_agrees_update log.1 w.cars_on_road _ _ _ h.open_journey
      (Or.inr ⟨_, _, _, _, rfl, map_find_emplace_self _ _ _ string_less_ok hfind⟩)
      (fun P hP => map_find_emplace_other string_less_ok _ _ _ _ hP)
  · by_cases hR : get_road_text r.1 = R
    · -- rule 2
      subst hR
      obtain ⟨w', h1, h2, h3, _, h5, h6, h7, h8, h9, h10⟩ :=
        end_of_journey_spec r.1 w _ _ (c, num) c h.ok hfind hp hkey hat
          (hfit n t e _ (c, num) hfind hp hkey)
      refine ⟨w', ?_, ?_, h3⟩
      · rw [update_database_end r.1 r.2 w _ hfind rfl, h1]
      have hlog : journey_step log r =
          (fun Q => if Q = get_car_plate r.1 then plate_state.Absent else log.1 Q,
            log.2 ++ [⟨get_car_plate r.1, get_road_text r.1, e,
              encode (get_distance r.1)⟩]) := by
        simp only [journey_step, hst, if_true]
      rw [hlog]
      have hδ : journey_delta (n, t, get_road_text r.1, e) (encode (get_distance r.1)) =
          journey_length ⟨get_car_plate r.1, get_road_text r.1, e,
            encode (get_distance r.1)⟩ := by
        rw [journey_delta_eq]
        rfl
      refine ⟨h2, ?_, ?_, ?_, ?_⟩
      · exact open_agrees_update log.1 w.cars_on_road _ _ _ h.open_journey
          (Or.inl ⟨rfl, h5⟩) h6
      · intro P
        by_cases hP : P = get_car_plate r.1
        · subst hP
          rw [h7, h.cars (get_car_plate r.1)]
          have hold : (if (log.2.filter
                (fun j => decide (j.plate = get_car_plate r.1))).isEmpty = true then none
              else some (expected_slot (plate_journeys log.2 (get_car_plate r.1) true),
                expected_slot (plate_journeys log.2 (get_car_plate r.1) false))).getD
                (default_dist, default_dist) =
              (expected_slot (plate_journeys log.2 (get_car_plate r.1) true),
                expected_slot (plate_journeys log.2 (get_car_plate r.1) false)) := by
            split
            · next he =>
              simp [plate_journeys_of_none _ _ _ he, expected_slot]
            · rfl
          rw [hold]
          simp only [List.filter_append, List.filter_cons, List.filter_nil, decide_True,
            if_true, isEmpty_concat,
            Bool.false_eq_true, if_false, plate_journeys_concat, Bool.true_and,
            car_data_after, hδ]
          by_cases hc : c = motorway
          · have hm : is_motorway (get_road_text r.1) = true := by
              simp [is_motorway, hat, hc]
            simp [hc, hm, expected_slot_concat]
          · have hm : is_motorway (get_road_text r.1) = false := by
              simp [is_motorway, hat, hc]
            simp [hc, hm, expected_slot_concat]
        · rw [h8 P hP, h.cars P]
          have hP' : ¬ get_car_plate r.1 = P := fun e => hP e.symm
          simp [List.filter_append, plate_journeys_concat, hP']
      · intro R' key' hR' hkey'
        by_cases hRR : R' = get_road_text r.1
        · subst hRR
          have : key' = (c, num) := Option.some.inj (hkey'.symm.trans hkey)
          subst this
          rw [h9, h.roads _ _ hroad hkey, start_if_unset_road, road_journeys_concat]
          simp only [if_true, isEmpty_concat, Bool.false_eq_true, if_false,
            total_length_concat, hδ]
        · have hk : key' ≠ (c, num) := by
            intro hk
            rw [hk] at hkey'
            exact hRR (convert_string_to_road_inj hR' hroad hkey' hkey)
          rw [h10 key' hk, h.roads R' key' hR' hkey', road_journeys_concat]
          have hRR' : ¬ get_road_text r.1 = R' := fun e => hRR e.symm
          simp [hRR']
      · intro key' dist hf
        by_cases hk : key' = (c, num)
        · exact ⟨get_road_text r.1, hroad, by rw [hk]; exact hkey⟩
        · rw [h10 key' hk] at hf
          exact h.road_keys key' dist hf
    · -- rule 3
      have hR' : get_road (n, t, R, e) ≠ get_road_text r.1 := fun e => hR e.symm
      obtain ⟨w', h1, h2, h3, _, h5, h6, h7, h8⟩ :=
        update_database_restart r.1 r.2 w _ (n, t, R, e) h.ok hfind hR' hp
      refine ⟨w', h1, ?_, h3⟩
      have hlog : journey_step log r =
          (fun Q => if Q = get_car_plate r.1
            then plate_state.OnRoad (get_road_text r.1) (encode (get_distance r.1))
            else log.1 Q, log.2) := by
        simp only [journey_step, hst, hR, if_false]
      rw [hlog]
      refine ⟨h2, ?_, ?_, ?_, ?_⟩
      · exact open_agrees_update log.1 w.cars_on_road _ _ _ h.open_journey
          (Or.inr ⟨_, _, _, _, rfl, h7⟩) h8
      · intro P
        rw [h5]
        exact h.cars P
      · intro R' key' hR'' hkey'
        rw [h6]
        exact h.roads R' key' hR'' hkey'
      · intro key' dist hf
        rw [h6] at hf
        exact h.road_keys key' dist hf


theorem journey_step_extends (log : journey_log) (r : update_record) :
    ∃ extra, (journey_step log r).2 = log.2 ++ extra := by
  unfold journey_step
  simp only
  split
  · exact ⟨[], by simp⟩
  · split
    · exact ⟨_, rfl⟩
    · exact ⟨[], by simp⟩

theorem journey_run_extends (rs : List update_record) : ∀ log : journey_log,
    ∃ extra, (rs.foldl journey_step log).2 = log.2 ++ extra := by
  induction rs with
  | nil => exact fun log => ⟨[], by simp⟩
  | cons r rs ih =>
    intro log
    obtain ⟨x1, h1⟩ := journey_step_extends log r
    obtain ⟨x2, h2⟩ := ih (journey_step log r)
    exact ⟨x1 ++ x2, by rw [List.foldl_cons, h2, h1, List.append_assoc]⟩

/-- A run of records of the grammar keeps the database in agreement with the journey log,
whatever database it returns; standard output is not written. -/
theorem agrees_run (rs : List update_record) : ∀ (w w' : World) (log : journey_log),
    agrees w log → (∀ r ∈ rs, record_ok r = true) → apply_updates rs w = some w' →
    agrees w' (rs.foldl journey_step log) ∧ w'.cout = w.cout := by
  induction rs with
  | nil =>
    intro w w' log h _ hw
    have : w = w' := Option.some.inj hw
    subst this
    exact ⟨h, rfl⟩
  | cons r rs ih =>
    intro w w' log h hrs hw
    have hr := hrs r (List.mem_cons_self _ _)
    have hr' := hr
    simp only [record_ok, Bool.and_eq_true] at hr'
    simp only [apply_updates] at hw
    cases h1 : update_database r.1 r.2 w with
    | none =>
      rw [h1] at hw
      exact absurd hw (by simp)
    | some w1 =>
      rw [h1] at hw
      simp only [Option.some_bind] at hw
      have hfit := (update_database_returns r.1 r.2 w h.ok hr'.1 hr'.2).mp ⟨w1, h1⟩
      obtain ⟨w1', g1, g2, g3⟩ := agrees_step w log r h hr hfit
      have e : w1' = w1 := Option.some.inj (g1.symm.trans h1)
      subst e
      obtain ⟨k1, k2⟩ := ih w1' w' (journey_step log r) g2
        (fun x hx => hrs x (List.mem_cons_of_mem _ hx)) hw
      exact ⟨k1, k2.trans g3⟩

/-- A run of records of the grammar whose journeys fit returns a database. -/
theorem apply_updates_fit (rs : List update_record) : ∀ (w : World) (log : journey_log),
    agrees w log → (∀ r ∈ rs, record_ok r = true) →
    journeys_fit (rs.foldl journey_step log).2 →
    ∃ w', apply_updates rs w = some w' := by
  induction rs with
  | nil => exact fun w _ _ _ _ => ⟨w, rfl⟩
  | cons r rs ih =>
    intro w log h hrs hfit
    have hr := hrs r (List.mem_cons_self _ _)
    obtain ⟨extra, hx⟩ := journey_run_extends rs (journey_step log r)
    have hfit1 : journeys_fit (journey_step log r).2 := by
      rw [List.foldl_cons, hx] at hfit
      exact journeys_fit_prefix _ _ hfit
    obtain ⟨w1, g1, g2, _⟩ := agrees_step w log r h hr (agrees_fits w log r h hr hfit1)
    obtain ⟨w2, k1⟩ := ih w1 (journey_step log r) g2
      (fun x hx => hrs x (List.mem_cons_of_mem _ hx)) hfit
    exact ⟨w2, by simp only [apply_updates, g1, Option.some_bind, k1]⟩


/-- In a database that agrees with a journey log whose journeys fit, a record that overflows
nothing leaves a log whose journeys fit. -/
theorem fits_step (w : World) (log : journey_log) (r : update_record) (h : agrees w log)
    (hj : journeys_fit log.2) (hr : record_ok r = true) (hfit : update_fits r.1 w) :
    journeys_fit (journey_step log r).2 := by
  simp only [record_ok, Bool.and_eq_true] at hr
  obtain ⟨hroad, hdist⟩ := hr
  have hp := encode_eq hdist
  obtain ⟨c, num, hkey, hat, _, _, _, _⟩ := convert_string_to_road_ok hroad
  rcases h.open_journey (get_car_plate r.1) with ⟨hst, _⟩ | ⟨R, e, n, t, hst, hfind⟩
  · have hlog : (journey_step log r).2 = log.2 := by
      simp only [journey_step, hst]
    rw [hlog]
    exact hj
  · by_cases hR : get_road_text r.1 = R
    · subst hR
      have hlog : (journey_step log r).2 =
          log.2 ++ [⟨get_car_plate r.1, get_road_text r.1, e,
            encode (get_distance r.1)⟩] := by
        simp only [journey_step, hst, if_true]
      rw [hlog]
      obtain ⟨⟨_, _, hc3⟩, ⟨_, _, hr3⟩⟩ := hfit n t e _ (c, num) hfind hp hkey
      have hone : total_length
          [(⟨get_car_plate r.1, get_road_text r.1, e, encode (get_distance r.1)⟩ : journey)] =
          |encode (get_distance r.1) - e| := by
        simp [total_length, journey_length]
      have hm : is_motorway (get_road_text r.1) = decide (c = motorway) := by
        simp [is_motorway, hat]
      have hslot : start_if_unset (if c = motorway
            then (car_slots w (get_car_plate r.1)).1
            else (car_slots w (get_car_plate r.1)).2) =
          total_length (plate_journeys log.2 (get_car_plate r.1) (decide (c = motorway))) := by
        rw [car_slots_agrees w log h]
        by_cases hc : c = motorway
        · simp only [hc, if_true, decide_True]
          exact start_if_unset_expected _
        · simp only [hc, if_false, decide_False]
          exact start_if_unset_expected _
      have htotal : start_if_unset (road_total w (c, num)) =
          total_length (road_journeys log.2 (get_road_text r.1)) := by
        unfold road_total
        rw [h.roads _ _ hroad hkey]
        exact start_if_unset_road _
      have hc3' : total_length (plate_journeys log.2 (get_car_plate r.1)
          (decide (c = motorway))) + |encode (get_distance r.1) - e| ≤ INT_FAST32_MAX := by
        rw [← hslot]
        exact hc3.2
      have hr3' : total_length (road_journeys log.2 (get_road_text r.1)) +
          |encode (get_distance r.1) - e| ≤ INT_FAST64_MAX := by
        rw [← htotal]
        exact hr3.2
      constructor
      · intro P m
        rw [plate_journeys_concat, total_length_append]
        split
        · next hcond =>
          simp only [Bool.and_eq_true, decide_eq_true_eq, beq_iff_eq] at hcond
          obtain ⟨hP, hmm⟩ := hcond
          rw [hone, ← hP, ← hmm, hm]
          exact hc3'
        · have : total_length ([] : List journey) = 0 := rfl
          rw [this, add_zero]
          exact hj.1 P m
      · intro R'
        rw [road_journeys_concat, total_length_append]
        split
        · next hcond =>
          rw [hone, ← hcond]
          exact hr3'
        · have : total_length ([] : List journey) = 0 := rfl
          rw [this, add_zero]
          exact hj.2 R'
    · have hlog : (journey_step log r).2 = log.2 := by
        simp only [journey_step, hst, hR, if_false]
      rw [hlog]
      exact hj

theorem journeys_fit_nil : journeys_fit [] := by
  have h32 : total_length ([] : List journey) ≤ INT_FAST32_MAX := by decide
  have h64 : total_length ([] : List journey) ≤ INT_FAST64_MAX := by decide
  exact ⟨fun _ _ => h32, fun _ => h64⟩

/-- The journeys of a run that returns a database overflow no running total. -/
theorem apply_updates_returns_fit (rs : List update_record) :
    ∀ (w w' : World) (log : journey_log), agrees w log → journeys_fit log.2 →
    (∀ r ∈ rs, record_ok r = true) → apply_updates rs w = some w' →
    journeys_fit (rs.foldl journey_step log).2 := by
  induction rs with
  | nil => exact fun _ _ _ _ hj _ _ => hj
  | cons r rs ih =>
    intro w w' log h hj hrs hw
    have hr := hrs r (List.mem_cons_self _ _)
    have hr' := hr
    simp only [record_ok, Bool.and_eq_true] at hr'
    simp only [apply_updates] at hw
    cases h1 : update_database r.1 r.2 w with
    | none =>
      rw [h1] at hw
      exact absurd hw (by simp)
    | some w1 =>
      rw [h1] at hw
      simp only [Option.some_bind] at hw
      have hfit := (update_database_returns r.1 r.2 w h.ok hr'.1 hr'.2).mp ⟨w1, h1⟩
      obtain ⟨w1', g1, g2, _⟩ := agrees_step w log r h hr hfit
      have e : w1' = w1 := Option.some.inj (g1.symm.trans h1)
      subst e
      exact ih w1' w' (journey_step log r) g2 (fits_step w log r h hj hr hfit)
        (fun x hx => hrs x (List.mem_cons_of_mem _ hx)) hw

/-- A run of records of the grammar from the empty database returns a database exactly when
its journeys overflow no running total. -/
theorem apply_updates_returns (rs : List update_record)
    (hrs : ∀ r ∈ rs, record_ok r = true) :
    (∃ w, apply_updates rs World.initial = some w) ↔ journeys_fit (completed_journeys rs) := by
  constructor
  · rintro ⟨w, hw⟩
    exact apply_updates_returns_fit rs World.initial w journey_log_initial agrees_initial
      journeys_fit_nil hrs hw
  · exact apply_updates_fit rs World.initial journey_log_initial agrees_initial hrs

theorem total_length_filter_le (js : List journey) (f : journey → Bool) :
    total_length (js.filter f) ≤ total_length js := by
  induction js with
  | nil => exact le_refl _
  | cons j t ih =>
    have hj : 0 ≤ journey_length j := abs_nonneg _
    have hc : total_length (j :: t) = journey_length j + total_length t := by
      simp [total_length]
    rw [List.filter_cons]
    split
    · have hf : total_length (j :: t.filter f) = journey_length j + total_length (t.filter f) := by
        simp [total_length]
      rw [hf, hc]
      exact add_le_add_left ih _
    · rw [hc]
      exact le_trans ih (le_add_of_nonneg_left hj)

/-- Journeys whose total length is a value of both types overflow no running total. -/
theorem journeys_fit_of_total (js : List journey) (h32 : total_length js ≤ INT_FAST32_MAX)
    (h64 : total_length js ≤ INT_FAST64_MAX) : journeys_fit js :=
  ⟨fun _ _ => le_trans (total_length_filter_le js _) h32,
    fun _ => le_trans (total_length_filter_le js _) h64⟩


/-- C2 (the sentinel never leaks).  A sequence of update records of the grammar applied to
the empty database returns a database exactly when the journeys it completes overflow no slot
and no road total; and in every database such a sequence returns, every set slot of every
car accumulator is the sum of `|exit - entry|` over the journeys the plate completed in that
category, every set road total is the sum over the journeys completed on that road, and a
slot or total that received a single journey equals the length of that journey. -/
theorem sentinel_never_leaks (rs : List update_record) (hrs : ∀ r ∈ rs, record_ok r = true) :
    ((∃ w, apply_updates rs World.initial = some w) ↔ journeys_fit (completed_journeys rs)) ∧
    ∀ w, apply_updates rs World.initial = some w →
      (∀ (P : String) (a s : car_dist_t), map_find string_less w.cars_data P = some (a, s) →
        (a ≠ default_dist → a = total_length (plate_journeys (completed_journeys rs) P true)) ∧
        (s ≠ default_dist → s = total_length (plate_journeys (completed_journeys rs) P false)) ∧
        (∀ j, plate_journeys (completed_journeys rs) P true = [j] →
          a = |j.exit_point - j.entry_point|) ∧
        (∀ j, plate_journeys (completed_journeys rs) P false = [j] →
          s = |j.exit_point - j.entry_point|)) ∧
      (∀ (key : road_name_t) (t : road_dist_t),
        map_find road_name_comparator w.roads_data key = some t →
        ∃ R : String, is_road_label R = true ∧ convert_string_to_road R = some key ∧
          t ≠ default_dist ∧ t = total_length (road_journeys (completed_journeys rs) R) ∧
          (∀ j, road_journeys (completed_journeys rs) R = [j] →
            t = |j.exit_point - j.entry_point|)) := by
  refine ⟨apply_updates_returns rs hrs, ?_⟩
  intro w h1
  obtain ⟨h2, _⟩ :=
    agrees_run rs World.initial w journey_log_initial agrees_initial hrs h1
  have slot : ∀ js : List journey, ∀ x : Int, x = expected_slot js →
      (x ≠ default_dist → x = total_length js) ∧
      (∀ j, js = [j] → x = |j.exit_point - j.entry_point|) := by
    intro js x hx
    subst hx
    constructor
    · intro hne
      unfold expected_slot at hne ⊢
      split
      · next he => simp [he] at hne
      · rfl
    · intro j hj
      subst hj
      simp [expected_slot, total_length, journey_length]
  refine ⟨?_, ?_⟩
  · intro P a s hf
    have hc := h2.cars P
    rw [hf] at hc
    split at hc
    · exact absurd hc (by simp)
    · simp only [Option.some.injEq, Prod.mk.injEq] at hc
      exact ⟨(slot _ a hc.1).1, (slot _ s hc.2).1, (slot _ a hc.1).2, (slot _ s hc.2).2⟩
  · intro key t hf
    obtain ⟨R, hR, hkey⟩ := h2.road_keys key t hf
    have hr := h2.roads R key hR hkey
    rw [hf] at hr
    split at hr
    · exact absurd hr (by simp)
    · simp only [Option.some.injEq] at hr
      have hnn := total_length_nonneg (road_journeys (completed_journeys rs) R)
      refine ⟨R, hR, hkey, ?_, hr, ?_⟩
      · rw [hr]
        unfold default_dist
        exact fun e => by
          have : total_length (road_journeys (completed_journeys rs) R) = -1 := e
          omega
      · intro j hj
        have hr' : t = total_length (road_journeys (completed_journeys rs) R) := hr
        rw [hr', hj]
        simp [total_length, journey_length]

/-- C2, instance: ABC123 drives on A1 from 0,0 to 10,5; its motorway slot and the total of
A1 are 105 and its other slot is still the sentinel. -/
theorem sentinel_never_leaks_witness :
    ∃ w, apply_updates
        [(["ABC123 A1 0,0", "ABC123", "A1", "0,0"], (1, "ABC123 A1 0,0")),
          (["ABC123 A1 10,5", "ABC123", "A1", "10,5"], (2, "ABC123 A1 10,5"))]
        World.initial = some w ∧
      w.cars_data = [("ABC123", (105, -1))] ∧ w.roads_data = [(('A', 1), 105)] := by
  obtain ⟨w, h⟩ := (sentinel_never_leaks
    [(["ABC123 A1 0,0", "ABC123", "A1", "0,0"], (1, "ABC123 A1 0,0")),
      (["ABC123 A1 10,5", "ABC123", "A1", "10,5"], (2, "ABC123 A1 10,5"))]
    (by decide)).1.mpr (journeys_fit_of_total _ (by decide) (by decide))
  have e : apply_updates
      [(["ABC123 A1 0,0", "ABC123", "A1", "0,0"], (1, "ABC123 A1 0,0")),
        (["ABC123 A1 10,5", "ABC123", "A1", "10,5"], (2, "ABC123 A1 10,5"))]
      World.initial = some ⟨[], [(('A', 1), 105)], [("ABC123", (105, -1))], "", ""⟩ := by
    decide
  have hw := Option.some.inj (h.symm.trans e)
  subst hw
  exact ⟨_, h, rfl, rfl⟩


theorem slot_text_eq (label : String) (js : List journey) :
    (if expected_slot js > default_dist then " " ++ label ++ " " ++ show_dist (expected_slot js)
      else "") = slot_text label js := by
  unfold slot_text expected_slot
  cases js with
  | nil => simp [default_dist]
  | cons j t =>
    have := total_length_nonneg (j :: t)
    simp only [List.isEmpty_cons, Bool.false_eq_true, if_false, default_dist]
    rw [if_pos (by omega)]

theorem car_line_expected (js : List journey) (P : String)
    (h : (js.filter (fun j => decide (j.plate = P))).isEmpty = false) :
    car_line P (expected_slot (plate_journeys js P true),
      expected_slot (plate_journeys js P false)) = expected_car_line js P := by
  unfold car_line expected_car_line
  rw [h]
  simp only [Bool.false_eq_true, if_false]
  rw [← slot_text_eq "A", ← slot_text_eq "S"]
  rfl

theorem slot_text_empty_iff (label : String) (js : List journey) :
    slot_text label js = "" ↔ js = [] := by
  unfold slot_text
  cases js with
  | nil => simp
  | cons j t =>
    simp only [List.isEmpty_cons, Bool.false_eq_true, if_false, reduceCtorEq, iff_false]
    intro h
    have := congrArg String.length h
    simp only [String.length_append] at this
    have h1 : " ".length = 1 := by decide
    have h0 : "".length = 0 := by decide
    omega

theorem total_length_zero (js : List journey)
    (h : ∀ j ∈ js, j.entry_point = j.exit_point) : total_length js = 0 := by
  unfold total_length
  apply List.sum_eq_zero
  intro x hx
  obtain ⟨j, hj, rfl⟩ := List.mem_map.mp hx
  simp [journey_length, h j hj]

/-- C7 (display suppression).  A sequence of update records of the grammar applied to the
empty database returns a database exactly when the journeys it completes overflow no slot and no
road total.  In every database such a sequence returns, car_query for a plate prints nothing
when the plate completed no journey and otherwise one line made of the plate, the motorway
slot and the other slot, where the text of a slot is empty exactly when the plate completed
no journey of that category and is otherwise the label with the total length; query-all
prints this same line for every plate that completed a journey.  A category with a journey
still has one after any further records, and a slot whose journeys all have entry equal to
exit is shown with 0,0. -/
theorem slot_shown_iff_journey (rs : List update_record)
    (hrs : ∀ r ∈ rs, record_ok r = true) :
    ((∃ w, apply_updates rs World.initial = some w) ↔ journeys_fit (completed_journeys rs)) ∧
      (∀ w, apply_updates rs World.initial = some w →
        (∀ words : smatch, ∃ w', car_query words w = some w' ∧
          w'.cout =
            w.cout ++ expected_car_line (completed_journeys rs) (get_query_key words)) ∧
        (∃ w', all_data_query w = some w' ∧
          w'.cout = w.cout ++
            lines_text (w.cars_data.map
              (fun car => expected_car_line (completed_journeys rs) car.1)) ++
            lines_text (road_lines w) ∧
          ∀ P : String, P ∈ w.cars_data.map Prod.fst ↔
            ∃ j ∈ completed_journeys rs, j.plate = P)) ∧
      (∀ (label : String) (js : List journey), slot_text label js = "" ↔ js = []) ∧
      (∀ (more : List update_record) (P : String) (m : Bool),
        plate_journeys (completed_journeys rs) P m ≠ [] →
        plate_journeys (completed_journeys (rs ++ more)) P m ≠ []) ∧
      (∀ (label : String) (js : List journey), js ≠ [] →
        (∀ j ∈ js, j.entry_point = j.exit_point) →
        slot_text label js = " " ++ label ++ " 0,0") := by
  refine ⟨apply_updates_returns rs hrs, ?_,
    slot_text_empty_iff, ?_, ?_⟩
  · intro w h1
    obtain ⟨h2, _⟩ :=
      agrees_run rs World.initial w journey_log_initial agrees_initial hrs h1
    obtain ⟨_, _, ho3⟩ := h2.ok
    have hcars : ∀ P, map_find string_less w.cars_data P =
        if ((completed_journeys rs).filter (fun j => decide (j.plate = P))).isEmpty then none
        else some (expected_slot (plate_journeys (completed_journeys rs) P true),
          expected_slot (plate_journeys (completed_journeys rs) P false)) := h2.cars
    refine ⟨?_, ?_⟩
    · intro words
      unfold car_query
      rw [hcars]
      cases he : ((completed_journeys rs).filter
          (fun j => decide (j.plate = get_query_key words))).isEmpty with
      | true => exact ⟨w, rfl, by simp [expected_car_line, he]⟩
      | false =>
        refine ⟨_, rfl, ?_⟩
        simp only [print_car_data]
        rw [car_line_expected _ _ he]
    · refine ⟨_, all_data_query_eq w, ?_, ?_⟩
      · simp only [car_lines]
        congr 3
        apply List.map_congr_left
        rintro ⟨P, d⟩ hmem
        have hf := map_find_of_mem string_less_ok _ P d ho3 hmem
        rw [hcars] at hf
        cases he : ((completed_journeys rs).filter
            (fun j => decide (j.plate = P))).isEmpty with
        | true =>
          rw [he] at hf
          exact absurd hf (by simp)
        | false =>
          rw [he] at hf
          simp only [Bool.false_eq_true, if_false, Option.some.injEq] at hf
          rw [← hf]
          exact car_line_expected _ _ he
      · intro P
        rw [← map_find_isSome_iff string_less_ok _ ho3, hcars]
        cases he : ((completed_journeys rs).filter
            (fun j => decide (j.plate = P))).isEmpty with
        | true =>
          rw [List.isEmpty_iff, List.filter_eq_nil_iff] at he
          simp only [if_true, Option.isSome_none, Bool.false_eq_true, false_iff, not_exists,
            not_and]
          intro j hj hp
          exact he j hj (by simpa using hp)
        | false =>
          simp only [Bool.false_eq_true, if_false, Option.isSome_some, true_iff]
          have hne : (completed_journeys rs).filter (fun j => decide (j.plate = P)) ≠ [] := by
            intro e
            rw [e] at he
            simp at he
          obtain ⟨j, hj⟩ := List.exists_mem_of_ne_nil _ hne
          rw [List.mem_filter] at hj
          exact ⟨j, hj.1, by simpa using hj.2⟩
  · intro more P m hne
    obtain ⟨extra, hx⟩ := journey_run_extends more (rs.foldl journey_step journey_log_initial)
    have : completed_journeys (rs ++ more) = completed_journeys rs ++ extra := by
      unfold completed_journeys
      rw [List.foldl_append, hx]
    rw [this]
    unfold plate_journeys at hne ⊢
    rw [List.filter_append]
    intro e
    exact hne (List.append_eq_nil.mp e).1
  · intro label js hne hz
    unfold slot_text
    cases js with
    | nil => exact absurd rfl hne
    | cons j t =>
      simp only [List.isEmpty_cons, Bool.false_eq_true, if_false, total_length_zero _ hz]
      have e1 : show_dist 0 = "0,0" := by decide
      have e2 : " " ++ "0,0" = " 0,0" := by decide
      rw [e1, String.append_assoc (" " ++ label), e2]

/-- C7, instance: ABC123 enters and leaves A1 at the same point 5,0; the motorway slot is
shown with 0,0 and the other slot is not shown. -/
theorem slot_shown_iff_journey_witness :
    ∃ w w', apply_updates
        [(["ABC123 A1 5,0", "ABC123", "A1", "5,0"], (1, "ABC123 A1 5,0")),
          (["ABC123 A1 5,0", "ABC123", "A1", "5,0"], (2, "ABC123 A1 5,0"))]
        World.initial = some w ∧
      car_query ["?ABC123", "ABC123"] w = some w' ∧ w'.cout = w.cout ++ "ABC123 A 0,0\n" := by
  obtain ⟨hfit, hq, _⟩ := slot_shown_iff_journey
    [(["ABC123 A1 5,0", "ABC123", "A1", "5,0"], (1, "ABC123 A1 5,0")),
      (["ABC123 A1 5,0", "ABC123", "A1", "5,0"], (2, "ABC123 A1 5,0"))]
    (by decide)
  obtain ⟨w, h⟩ := hfit.mpr (journeys_fit_of_total _ (by decide) (by decide))
  obtain ⟨w', h1, h2⟩ := (hq w h).1 ["?ABC123", "ABC123"]
  refine ⟨w, w', h, h1, ?_⟩
  rw [h2]
  congr 1


/-! ## The effect of one update on the three maps -/

/-- The database end_of_journey returns when closing the journey fits, map by map. -/
theorem end_of_journey_eq (words : smatch) (w : World) (record : record_type_t) (p : Int)
    (key : road_name_t) (c : Char) (hok : w.ok)
    (hopen : map_find string_less w.cars_on_road (get_car_plate words) = some record)
    (hd : convert_string_to_number (get_distance words) = some p)
    (hr : convert_string_to_road (get_road_text words) = some key)
    (hc : string_at (get_road_text words) 0 = some c)
    (hfit : closing_fits c p (get_intersection_point record)
      (car_slots w (get_car_plate words)) (road_total w key)) :
    ∃ m1 m2 m3,
      map_replace string_less w.cars_data (get_car_plate words)
        (car_data_after c (journey_delta record p) (car_slots w (get_car_plate words))) =
          some m1 ∧
      map_replace road_name_comparator w.roads_data key
        (start_if_unset (road_total w key) + journey_delta record p) = some m2 ∧
      map_erase string_less w.cars_on_road (get_car_plate words) = some m3 ∧
      end_of_journey words w =
        some { w with cars_data := m1, roads_data := m2, cars_on_road := m3 } := by
  obtain ⟨ho1, ho2, ho3⟩ := hok
  obtain ⟨m1, e1, _⟩ := map_replace_spec string_less_ok w.cars_data
    (get_car_plate words) (car_data_after c (journey_delta record p)
      (car_slots w (get_car_plate words))) ho3
  obtain ⟨m2, e2, _⟩ := map_replace_spec road_name_comparator_ok w.roads_data
    key (start_if_unset (road_total w key) + journey_delta record p) ho2
  obtain ⟨m3, e3, _⟩ := map_erase_spec string_less_ok w.cars_on_road
    (get_car_plate words) record ho1 hopen
  have hf1 : car_fits c p (get_intersection_point record)
      ((map_find string_less w.cars_data (get_car_plate words)).getD
        (default_dist, default_dist)) := hfit.1
  have hf2 : road_fits p (get_intersection_point record)
      ((map_find road_name_comparator w.roads_data key).getD default_dist) := hfit.2
  have a1 : acquire_car_data words w = some { w with cars_data := m1 } := by
    rw [acquire_car_data_eq words w record p c hopen hd hc, if_pos hf1]
    unfold car_slots at e1
    rw [e1]
    rfl
  have a2 : acquire_road_data words { w with cars_data := m1 } =
      some { w with cars_data := m1, roads_data := m2 } := by
    rw [acquire_road_data_eq words { w with cars_data := m1 } record p key hopen hd hr]
    unfold road_total at e2
    simp only [if_pos hf2, e2]
    rfl
  refine ⟨m1, m2, m3, e1, e2, e3, ?_⟩
  unfold end_of_journey
  rw [a1]
  simp only [Option.bind_eq_bind, Option.some_bind, a2, e3]

/-- What update_database does to a well-formed database for a record that overflows
nothing, whose distance converts to `p` and whose road converts to `key`: it returns, it
touches no other plate and no other road, and either it closes the open journey of the plate
on that road, or it only opens a journey for the plate. -/
theorem update_database_effect (words : smatch) (input : input_type_t) (w : World) (p : Int)
    (key : road_name_t) (c : Char) (hok : w.ok)
    (hd : convert_string_to_number (get_distance words) = some p)
    (hr : convert_string_to_road (get_road_text words) = some key)
    (hc : string_at (get_road_text words) 0 = some c) (hfit : update_fits words w) :
    ∃ w', update_database words input w = some w' ∧ w'.ok ∧ w'.cout = w.cout ∧
      (∀ P', P' ≠ get_car_plate words →
        map_find string_less w'.cars_on_road P' = map_find string_less w.cars_on_road P') ∧
      (∀ P', P' ≠ get_car_plate words →
        map_find string_less w'.cars_data P' = map_find string_less w.cars_data P') ∧
      (∀ k', k' ≠ key →
        map_find road_name_comparator w'.roads_data k' =
          map_find road_name_comparator w.roads_data k') ∧
      ((∃ (n : Nat) (t : String) (e : Int),
          map_find string_less w.cars_on_road (get_car_plate words) =
            some (n, t, get_road_text words, e) ∧
          map_replace string_less w.cars_data (get_car_plate words)
            (car_data_after c |p - e| (car_slots w (get_car_plate words))) =
              some w'.cars_data ∧
          map_replace road_name_comparator w.roads_data key
            (start_if_unset (road_total w key) + |p - e|) = some w'.roads_data ∧
          map_find string_less w'.cars_data (get_car_plate words) =
            some (car_data_after c |p - e| (car_slots w (get_car_plate words))) ∧
          map_find road_name_comparator w'.roads_data key =
            some (start_if_unset (road_total w key) + |p - e|) ∧
          map_find string_less w'.cars_on_road (get_car_plate words) = none ∧
          w'.cerr = w.cerr) ∨
        ((∀ (n : Nat) (t : String) (e : Int),
            map_find string_less w.cars_on_road (get_car_plate words) ≠
              some (n, t, get_road_text words, e)) ∧
          w'.cars_data = w.cars_data ∧ w'.roads_data = w.roads_data ∧
          map_find string_less w'.cars_on_road (get_car_plate words) =
            some (input.1, input.2, get_road_text words, p))) := by
  cases hopen : map_find string_less w.cars_on_road (get_car_plate words) with
  | none =>
    obtain ⟨ho1, ho2, ho3⟩ := hok
    refine ⟨_, update_database_start words input w p hopen hd,
      ⟨map_ok_emplace string_less_ok _ _ _ ho1, ho2, ho3⟩, rfl,
      fun P' hP' => map_find_emplace_other string_less_ok _ _ _ _ hP',
      fun _ _ => rfl, fun _ _ => rfl, Or.inr ⟨?_, rfl, rfl, ?_⟩⟩
    · intro n t e h
      exact absurd h (by simp)
    · exact map_find_emplace_self _ _ _ string_less_ok hopen
  | some record =>
    obtain ⟨n, t, R, e⟩ := record
    by_cases hR : R = get_road_text words
    · subst hR
      have hck : c = key.1 := Option.some.inj (hc.symm.trans (road_letter hr))
      have hcl : closing_fits c p e (car_slots w (get_car_plate words)) (road_total w key) := by
        rw [hck]
        exact hfit n t e p key hopen hd hr
      obtain ⟨m1, m2, m3, e1, e2, e3, heq⟩ :=
        end_of_journey_eq words w _ p key c hok hopen hd hr hc hcl
      obtain ⟨w', h1, h2, h3, h4, h5, h6, h7, h8, h9, h10⟩ :=
        end_of_journey_spec words w _ p key c hok hopen hd hr hc hcl
      have hw : w' = { w with cars_data := m1, roads_data := m2, cars_on_road := m3 } :=
        Option.some.inj (h1.symm.trans heq)
      rw [journey_delta_eq] at e1 e2 h7 h9
      refine ⟨w', ?_, h2, h3, h6, h8, h10, Or.inl ⟨n, t, e, rfl, ?_, ?_, h7, h9, h5, h4⟩⟩
      · rw [update_database_end words input w _ hopen rfl, h1]
      · rw [e1, hw]
      · rw [e2, hw]
    · obtain ⟨w', h1, h2, h3, _, h5, h6, h7, h8⟩ :=
        update_database_restart words input w p (n, t, R, e) hok hopen hR hd
      refine ⟨w', h1, h2, h3, h8, fun _ _ => by rw [h5], fun _ _ => by rw [h6],
        Or.inr ⟨?_, h5, h6, h7⟩⟩
      intro n' t' e' h
      simp only [Option.some.injEq, Prod.mk.injEq] at h
      exact hR h.2.2.1

/-- On a well-formed database a record of the input grammar that overflows nothing is
processed: no path of update_database throws, and the result is well-formed. -/
theorem update_database_total (words : smatch) (input : input_type_t) (w : World)
    (hok : w.ok) (hroad : is_road_label (get_road_text words) = true)
    (hdist : is_distance (get_distance words) = true) (hfit : update_fits words w) :
    ∃ w', update_database words input w = some w' ∧ w'.ok ∧ w'.cout = w.cout := by
  obtain ⟨p, hp, _⟩ := convert_string_to_number_ok hdist
  obtain ⟨c, n, hkey, hat, _⟩ := convert_string_to_road_ok hroad
  obtain ⟨w', h1, h2, h3, _⟩ :=
    update_database_effect words input w p (c, n) c hok hp hkey hat hfit
  exact ⟨w', h1, h2, h3⟩

/-- Whatever update_database returns on a well-formed database for a record of the grammar
is well-formed, and standard output is as before. -/
theorem update_database_ok (words : smatch) (input : input_type_t) (w w' : World)
    (hok : w.ok) (hroad : is_road_label (get_road_text words) = true)
    (hdist : is_distance (get_distance words) = true)
    (hw : update_database words input w = some w') : w'.ok ∧ w'.cout = w.cout := by
  have hfit := (update_database_returns words input w hok hroad hdist).mp ⟨w', hw⟩
  obtain ⟨w1, h1, h2, h3⟩ := update_database_total words input w hok hroad hdist hfit
  have e : w1 = w' := Option.some.inj (h1.symm.trans hw)
  subst e
  exact ⟨h2, h3⟩


/-- C11 (unknown query target).  A car query for a plate without car accumulator and a road
query for a road of the grammar without road accumulator return the database as it is,
both streams included; query-all on a database without accumulators does the same; and a
road query for a road of the grammar with total `t` appends to standard output exactly the
label, a blank, `t / 10`, a comma, `t % 10` and the end of line. -/
theorem unknown_query_target (words : smatch) (w : World) :
    (map_find string_less w.cars_data (get_query_key words) = none →
      car_query words w = some w) ∧
    (is_road_label (get_query_key words) = true →
      ∃ road : road_name_t, convert_string_to_road (get_query_key words) = some road ∧
        (map_find road_name_comparator w.roads_data road = none →
          road_query words w = some w) ∧
        (∀ t : road_dist_t, map_find road_name_comparator w.roads_data road = some t →
          road_query words w = some { w with
            cout := w.cout ++ (get_query_key words ++ " " ++ show_int (Int.tdiv t 10) ++ ","
              ++ show_int (Int.tmod t 10) ++ "\n") })) ∧
    (w.cars_data = [] → w.roads_data = [] → all_data_query w = some w) := by
  refine ⟨?_, ?_, ?_⟩
  · intro h
    simp [car_query, h]
  · intro hl
    obtain ⟨c, n, hkey, _, _, _, _, hs⟩ := convert_string_to_road_ok hl
    refine ⟨(c, n), hkey, ?_, ?_⟩
    · intro h
      simp [road_query, hkey, h]
    · intro t h
      simp only [road_query, hkey, Option.bind_eq_bind, Option.some_bind, h, print_road_data,
        road_line, show_dist, String.append_assoc]
      rw [← hs, String.append_assoc]
  · intro h1 h2
    rw [all_data_query_eq]
    obtain ⟨a, b, c, d, e⟩ := w
    simp only at h1 h2
    subst h1 h2
    simp [car_lines, road_lines, lines_text]

/-- C11, instance: the road A1 holds 10,5; the query for S2 prints nothing and the query
for A1 prints its line. -/
theorem unknown_query_target_witness :
    road_query ["?S2", "S2"] ⟨[], [(('A', 1), 105)], [], "", ""⟩ =
        some ⟨[], [(('A', 1), 105)], [], "", ""⟩ ∧
      road_query ["?A1", "A1"] ⟨[], [(('A', 1), 105)], [], "", ""⟩ =
        some ⟨[], [(('A', 1), 105)], [], "A1 10,5\n", ""⟩ := by
  obtain ⟨road, h1, h2, _⟩ :=
    (unknown_query_target ["?S2", "S2"] ⟨[], [(('A', 1), 105)], [], "", ""⟩).2.1 (by decide)
  have e1 : road = ('S', 2) := by
    have : convert_string_to_road (get_query_key ["?S2", "S2"]) = some ('S', 2) := by decide
    exact Option.some.inj (h1.symm.trans this)
  subst e1
  exact ⟨h2 (by decide), by decide⟩

/-- C12 (queries are read-only).  Query-all, a car query for any key and a road query for any
key of the road grammar succeed and return a database whose open journeys, car accumulators,
road accumulators and error stream are those before the query, whether or not the key has an
accumulator. -/
theorem queries_read_only (words : smatch) (w : World) :
    (∃ w', all_data_query w = some w' ∧ w'.cars_on_road = w.cars_on_road ∧
      w'.cars_data = w.cars_data ∧ w'.roads_data = w.roads_data ∧ w'.cerr = w.cerr) ∧
    (∃ w', car_query words w = some w' ∧ w'.cars_on_road = w.cars_on_road ∧
      w'.cars_data = w.cars_data ∧ w'.roads_data = w.roads_data ∧ w'.cerr = w.cerr) ∧
    (is_road_label (get_query_key words) = true →
      ∃ w', road_query words w = some w' ∧ w'.cars_on_road = w.cars_on_road ∧
        w'.cars_data = w.cars_data ∧ w'.roads_data = w.roads_data ∧ w'.cerr = w.cerr) := by
  refine ⟨⟨_, all_data_query_eq w, rfl, rfl, rfl, rfl⟩, ?_, ?_⟩
  · unfold car_query
    cases map_find string_less w.cars_data (get_query_key words) with
    | none => exact ⟨w, rfl, rfl, rfl, rfl, rfl⟩
    | some p => exact ⟨_, rfl, rfl, rfl, rfl, rfl⟩
  · intro hl
    obtain ⟨c, n, hkey, _⟩ := convert_string_to_road_ok hl
    unfold road_query
    simp only [hkey, Option.bind_eq_bind, Option.some_bind]
    cases map_find road_name_comparator w.roads_data (c, n) with
    | none => exact ⟨w, rfl, rfl, rfl, rfl, rfl⟩
    | some p => exact ⟨_, rfl, rfl, rfl, rfl, rfl⟩

/-- C12, instance: a road query for A1 on a database holding A1 keeps the three maps. -/
theorem queries_read_only_witness :
    ∃ w', road_query ["?A1", "A1"]
        ⟨[("XYZ99", (3, "XYZ99 S2 1,0", "S2", 10))], [(('A', 1), 105)],
          [("ABC123", (105, -1))], "", ""⟩ = some w' ∧
      w'.cars_on_road = [("XYZ99", (3, "XYZ99 S2 1,0", "S2", 10))] ∧
      w'.cars_data = [("ABC123", (105, -1))] ∧ w'.roads_data = [(('A', 1), 105)] :=
  let ⟨w', h1, h2, h3, h4, _⟩ := (queries_read_only ["?A1", "A1"]
    ⟨[("XYZ99", (3, "XYZ99 S2 1,0", "S2", 10))], [(('A', 1), 105)],
      [("ABC123", (105, -1))], "", ""⟩).2.2 (by decide)
  ⟨w', h1, h2, h3, h4⟩


theorem start_if_unset_ge (x : Int) : x ≤ start_if_unset x := by
  unfold start_if_unset
  split <;> omega

/-- C13 (accumulators are never deleted).  In a well-formed database a record of the input
grammar is processed exactly when it overflows neither a slot nor a road total; and in the
database update_database then returns, each plate with a car accumulator before has one
after, each road with a road accumulator before has one after, and no slot and no road total
is smaller after than before. -/
theorem accumulators_never_deleted (words : smatch) (input : input_type_t) (w : World)
    (hok : w.ok) (hroad : is_road_label (get_road_text words) = true)
    (hdist : is_distance (get_distance words) = true) :
    ((∃ w', update_database words input w = some w') ↔ update_fits words w) ∧
    ∀ w', update_database words input w = some w' →
      (∀ (P : car_plate_t) (a s : car_dist_t),
        map_find string_less w.cars_data P = some (a, s) →
        ∃ a' s', map_find string_less w'.cars_data P = some (a', s') ∧ a ≤ a' ∧ s ≤ s') ∧
      (∀ (key : road_name_t) (t : road_dist_t),
        map_find road_name_comparator w.roads_data key = some t →
        ∃ t', map_find road_name_comparator w'.roads_data key = some t' ∧ t ≤ t') := by
  refine ⟨update_database_returns words input w hok hroad hdist, ?_⟩
  intro w0 hw0
  have hfit := (update_database_returns words input w hok hroad hdist).mp ⟨w0, hw0⟩
  obtain ⟨p, hp, _⟩ := convert_string_to_number_ok hdist
  obtain ⟨c, n, hkey, hat, _⟩ := convert_string_to_road_ok hroad
  obtain ⟨w', h1, _, _, _, h5, h6, h7⟩ :=
    update_database_effect words input w p (c, n) c hok hp hkey hat hfit
  have hw : w' = w0 := Option.some.inj (h1.symm.trans hw0)
  subst hw
  refine ⟨?_, ?_⟩
  · intro P a s hf
    rcases h7 with ⟨_, _, e, _, _, _, g4, _⟩ | ⟨_, g2, _⟩
    · by_cases hP : P = get_car_plate words
      · subst hP
        have hδ : (0 : Int) ≤ |p - e| := abs_nonneg _
        have ha := start_if_unset_ge a
        have hs := start_if_unset_ge s
        rw [g4]
        simp only [car_slots, hf, Option.getD_some, car_data_after]
        split
        · exact ⟨start_if_unset a + |p - e|, s, rfl, le_add_of_le_of_nonneg ha hδ, le_refl _⟩
        · exact ⟨a, start_if_unset s + |p - e|, rfl, le_refl _, le_add_of_le_of_nonneg hs hδ⟩
      · exact ⟨a, s, by rw [h5 P hP, hf], le_refl _, le_refl _⟩
    · exact ⟨a, s, by rw [g2, hf], le_refl _, le_refl _⟩
  · intro key t hf
    rcases h7 with ⟨_, _, e, _, _, _, _, g5, _⟩ | ⟨_, _, g3, _⟩
    · by_cases hk : key = (c, n)
      · subst hk
        have hδ : (0 : Int) ≤ |p - e| := abs_nonneg _
        have ht := start_if_unset_ge t
        rw [g5]
        simp only [road_total, hf, Option.getD_some]
        exact ⟨start_if_unset t + |p - e|, rfl, le_add_of_le_of_nonneg ht hδ⟩
      · exact ⟨t, by rw [h6 key hk, hf], le_refl _⟩
    · exact ⟨t, by rw [g3, hf], le_refl _⟩

/-- C13, instance: ABC123 holds 10,5 on motorways and closes a journey of 2,0 on S2; its
accumulator and the one of A1 are still there. -/
theorem accumulators_never_deleted_witness :
    ∃ w', update_database ["ABC123 S2 3,0", "ABC123", "S2", "3,0"] (4, "ABC123 S2 3,0")
        ⟨[("ABC123", (3, "ABC123 S2 1,0", "S2", 10))], [(('A', 1), 105)],
          [("ABC123", (105, -1))], "", ""⟩ = some w' ∧
      (∃ a' s', map_find string_less w'.cars_data "ABC123" = some (a', s') ∧
        105 ≤ a' ∧ -1 ≤ s') ∧
      ∃ t', map_find road_name_comparator w'.roads_data ('A', 1) = some t' ∧ 105 ≤ t' := by
  have hw : update_database ["ABC123 S2 3,0", "ABC123", "S2", "3,0"] (4, "ABC123 S2 3,0")
      ⟨[("ABC123", (3, "ABC123 S2 1,0", "S2", 10))], [(('A', 1), 105)],
        [("ABC123", (105, -1))], "", ""⟩ =
      some ⟨[], [(('A', 1), 105), (('S', 2), 20)], [("ABC123", (105, 20))], "", ""⟩ := by
    decide
  obtain ⟨h2, h3⟩ :=
    (accumulators_never_deleted ["ABC123 S2 3,0", "ABC123", "S2", "3,0"] (4, "ABC123 S2 3,0")
      ⟨[("ABC123", (3, "ABC123 S2 1,0", "S2", 10))], [(('A', 1), 105)],
        [("ABC123", (105, -1))], "", ""⟩
      (by simp [World.ok, map_ok]) (by decide) (by decide)).2 _ hw
  exact ⟨_, hw, h2 "ABC123" 105 (-1) (by decide), h3 ('A', 1) 105 (by decide)⟩

/-- C17 (frame of an update).  In a well-formed database a record of the input grammar with
plate `P` and road `R` is processed exactly when it overflows neither a slot nor a road
total; and the database update_database then returns leaves unchanged the open journey of
every other plate, the car accumulator of every other plate and the total of every other
road, be the road given by its key or by another label of the grammar; when the record
closes a journey of `P` on `R`, the slot of `P` for the other category keeps its value,
unset included. -/
theorem update_frame (words : smatch) (input : input_type_t) (w : World)
    (hok : w.ok) (hroad : is_road_label (get_road_text words) = true)
    (hdist : is_distance (get_distance words) = true) :
    ∃ key : road_name_t,
      convert_string_to_road (get_road_text words) = some key ∧
      ((∃ w', update_database words input w = some w') ↔ update_fits words w) ∧
      ∀ w', update_database words input w = some w' →
      (∀ P', P' ≠ get_car_plate words →
        map_find string_less w'.cars_on_road P' = map_find string_less w.cars_on_road P') ∧
      (∀ P', P' ≠ get_car_plate words →
        map_find string_less w'.cars_data P' = map_find string_less w.cars_data P') ∧
      (∀ k', k' ≠ key →
        map_find road_name_comparator w'.roads_data k' =
          map_find road_name_comparator w.roads_data k') ∧
      (∀ (R' : String) (k' : road_name_t), is_road_label R' = true →
        R' ≠ get_road_text words → convert_string_to_road R' = some k' →
        map_find road_name_comparator w'.roads_data k' =
          map_find road_name_comparator w.roads_data k') ∧
      (∀ (n0 : Nat) (t0 : String) (e : Int),
        map_find string_less w.cars_on_road (get_car_plate words) =
          some (n0, t0, get_road_text words, e) →
        (string_at (get_road_text words) 0 = some 'A' →
          (car_slots w' (get_car_plate words)).2 = (car_slots w (get_car_plate words)).2) ∧
        (string_at (get_road_text words) 0 ≠ some 'A' →
          (car_slots w' (get_car_plate words)).1 = (car_slots w (get_car_plate words)).1)) := by
  obtain ⟨p, hp, _⟩ := convert_string_to_number_ok hdist
  obtain ⟨c, n, hkey, hat, _⟩ := convert_string_to_road_ok hroad
  refine ⟨(c, n), hkey, update_database_returns words input w hok hroad hdist, ?_⟩
  intro w0 hw0
  have hfit := (update_database_returns words input w hok hroad hdist).mp ⟨w0, hw0⟩
  obtain ⟨w', h1, _, _, h4, h5, h6, h7⟩ :=
    update_database_effect words input w p (c, n) c hok hp hkey hat hfit
  have hw : w' = w0 := Option.some.inj (h1.symm.trans hw0)
  subst hw
  refine ⟨h4, h5, h6, ?_, ?_⟩
  · intro R' k' hR' hne hk'
    apply h6
    intro hk
    rw [hk] at hk'
    exact hne (convert_string_to_road_inj hR' hroad hk' hkey)
  · intro n0 t0 e hopen
    rcases h7 with ⟨_, _, e', _, _, _, g4, _⟩ | ⟨g1, _⟩
    · constructor
      · intro hA
        have hc : c = motorway := by
          rw [hat] at hA
          simpa [motorway] using hA
        simp [car_slots, g4, car_data_after, hc]
      · intro hA
        have hc : c ≠ motorway := by
          rw [hat] at hA
          simpa [motorway] using hA
        simp [car_slots, g4, car_data_after, hc]
    · exact absurd hopen (g1 n0 t0 e)

/-- C17, instance: ABC123 closes a journey on S2 while XYZ99 is on A1; the journey of XYZ99,
the total of A1 and the motorway slot of ABC123 are as before. -/
theorem update_frame_witness :
    ∃ w', update_database ["ABC123 S2 3,0", "ABC123", "S2", "3,0"] (4, "ABC123 S2 3,0")
        ⟨[("ABC123", (3, "ABC123 S2 1,0", "S2", 10)), ("XYZ99", (2, "XYZ99 A1 0,0", "A1", 0))],
          [(('A', 1), 105)], [("ABC123", (105, -1))], "", ""⟩ = some w' ∧
      map_find string_less w'.cars_on_road "XYZ99" = some (2, "XYZ99 A1 0,0", "A1", 0) ∧
      map_find road_name_comparator w'.roads_data ('A', 1) = some 105 ∧
      (car_slots w' "ABC123").1 = 105 := by
  have hw : update_database ["ABC123 S2 3,0", "ABC123", "S2", "3,0"] (4, "ABC123 S2 3,0")
      ⟨[("ABC123", (3, "ABC123 S2 1,0", "S2", 10)), ("XYZ99", (2, "XYZ99 A1 0,0", "A1", 0))],
        [(('A', 1), 105)], [("ABC123", (105, -1))], "", ""⟩ =
      some ⟨[("XYZ99", (2, "XYZ99 A1 0,0", "A1", 0))], [(('A', 1), 105), (('S', 2), 20)],
        [("ABC123", (105, 20))], "", ""⟩ := by
    decide
  obtain ⟨key, hk, _, hframe⟩ :=
    update_frame ["ABC123 S2 3,0", "ABC123", "S2", "3,0"] (4, "ABC123 S2 3,0")
      ⟨[("ABC123", (3, "ABC123 S2 1,0", "S2", 10)), ("XYZ99", (2, "XYZ99 A1 0,0", "A1", 0))],
        [(('A', 1), 105)], [("ABC123", (105, -1))], "", ""⟩
      (by simp [World.ok, map_ok, string_less]; decide) (by decide) (by decide)
  obtain ⟨h2, _, _, h5, h6⟩ := hframe _ hw
  refine ⟨_, hw, ?_, ?_, ?_⟩
  · rw [h2 "XYZ99" (by decide)]
    decide
  · rw [h5 "A1" ('A', 1) (by decide) (by decide) (by decide)]
    decide
  · exact ((h6 3 "ABC123 S2 1,0" 10 (by decide)).2 (by decide)).trans (by decide)

/-- C20 (strict total order of the comparator).  road_name_comparator is irreflexive and
transitive, for two keys exactly one of before, after and equal holds, two keys are
equivalent for the map exactly when letter and number are both equal, and so A1 and S1 are
distinct entries: writing one in a map never changes what the map holds for the other. -/
theorem road_name_comparator_strict_total :
    (∀ k : road_name_t, road_name_comparator k k = false) ∧
    (∀ k1 k2 k3 : road_name_t, road_name_comparator k1 k2 = true →
      road_name_comparator k2 k3 = true → road_name_comparator k1 k3 = true) ∧
    (∀ k1 k2 : road_name_t,
      (road_name_comparator k1 k2 = true ∧ road_name_comparator k2 k1 = false ∧ k1 ≠ k2) ∨
      (road_name_comparator k1 k2 = false ∧ road_name_comparator k2 k1 = true ∧ k1 ≠ k2) ∨
      (road_name_comparator k1 k2 = false ∧ road_name_comparator k2 k1 = false ∧ k1 = k2)) ∧
    (∀ k1 k2 : road_name_t,
      (road_name_comparator k1 k2 = false ∧ road_name_comparator k2 k1 = false) ↔
        (k1.1 = k2.1 ∧ k1.2 = k2.2)) ∧
    road_name_comparator ('A', 1) ('S', 1) = true ∧
    (∀ (m : List (road_name_t × road_dist_t)) (v : road_dist_t),
      map_find road_name_comparator (map_emplace road_name_comparator m ('S', 1) v) ('A', 1) =
        map_find road_name_comparator m ('A', 1) ∧
      map_find road_name_comparator (map_emplace road_name_comparator m ('A', 1) v) ('S', 1) =
        map_find road_name_comparator m ('S', 1)) := by
  have hc := road_name_comparator_ok
  refine ⟨hc.irrefl, hc.trans, ?_, ?_, by decide, ?_⟩
  · intro k1 k2
    cases h12 : road_name_comparator k1 k2 with
    | true =>
      refine Or.inl ⟨rfl, hc.asymm h12, ?_⟩
      rintro rfl
      rw [hc.irrefl] at h12
      exact absurd h12 (by simp)
    | false =>
      cases h21 : road_name_comparator k2 k1 with
      | true =>
        refine Or.inr (Or.inl ⟨rfl, rfl, ?_⟩)
        rintro rfl
        rw [hc.irrefl] at h21
        exact absurd h21 (by simp)
      | false => exact Or.inr (Or.inr ⟨rfl, rfl, hc.total k1 k2 h12 h21⟩)
  · rintro ⟨t1, n1⟩ ⟨t2, n2⟩
    constructor
    · rintro ⟨h1, h2⟩
      have := hc.total _ _ h1 h2
      simp only [Prod.mk.injEq] at this
      exact this
    · rintro ⟨h1, h2⟩
      simp only at h1 h2
      subst h1 h2
      exact ⟨hc.irrefl _, hc.irrefl _⟩
  · intro m v
    exact ⟨map_find_emplace_other hc m _ v _ (by decide),
      map_find_emplace_other hc m _ v _ (by decide)⟩


theorem typed_initial : World.initial.typed := by
  refine ⟨?_, ?_, ?_⟩ <;> intro k v h <;> simp [World.initial, map_find] at h

/-- Whatever update_database returns on a well-formed database whose numbers are values of
their types stores only values of their types. -/
theorem update_database_typed (words : smatch) (input : input_type_t) (w w0 : World)
    (hok : w.ok) (ht : w.typed) (hroad : is_road_label (get_road_text words) = true)
    (hdist : is_distance (get_distance words) = true)
    (hw0 : update_database words input w = some w0) : w0.typed := by
  have hfit := (update_database_returns words input w hok hroad hdist).mp ⟨w0, hw0⟩
  obtain ⟨p, hp, _⟩ := convert_string_to_number_ok hdist
  obtain ⟨c, n, hkey, hat, _⟩ := convert_string_to_road_ok hroad
  obtain ⟨w', h1, _, _, h4, h5, h6, h7⟩ :=
    update_database_effect words input w p (c, n) c hok hp hkey hat hfit
  have hw : w' = w0 := Option.some.inj (h1.symm.trans hw0)
  subst hw
  obtain ⟨t1, t2, t3⟩ := ht
  have hdefault : fits_car_dist default_dist := by decide
  have hslots : fits_car_dist (car_slots w (get_car_plate words)).1 ∧
      fits_car_dist (car_slots w (get_car_plate words)).2 := by
    unfold car_slots
    cases hf : map_find string_less w.cars_data (get_car_plate words) with
    | none => exact ⟨hdefault, hdefault⟩
    | some cd => exact t2 _ cd hf
  rcases h7 with ⟨n0, t0, e, hopen, _, _, g4, g5, g6, _⟩ | ⟨_, g2, g3, g4⟩
  · obtain ⟨⟨_, _, hc3⟩, ⟨_, _, hr3⟩⟩ := hfit n0 t0 e p (c, n) hopen hp hkey
    refine ⟨?_, ?_, ?_⟩
    · intro P record hf
      by_cases hP : P = get_car_plate words
      · rw [hP, g6] at hf
        exact absurd hf (by simp)
      · rw [h4 P hP] at hf
        exact t1 P record hf
    · intro P cd hf
      by_cases hP : P = get_car_plate words
      · rw [hP, g4] at hf
        rw [← Option.some.inj hf]
        unfold car_data_after
        by_cases hc : c = motorway
        · rw [if_pos hc]
          rw [show (c, n).1 = c from rfl, if_pos hc] at hc3
          exact ⟨hc3, hslots.2⟩
        · rw [if_neg hc]
          rw [show (c, n).1 = c from rfl, if_neg hc] at hc3
          exact ⟨hslots.1, hc3⟩
      · rw [h5 P hP] at hf
        exact t2 P cd hf
    · intro key dist hf
      by_cases hk : key = (c, n)
      · rw [hk, g5] at hf
        rw [← Option.some.inj hf]
        exact hr3
      · rw [h6 key hk] at hf
        exact t3 key dist hf
  · refine ⟨?_, ?_, ?_⟩
    · intro P record hf
      by_cases hP : P = get_car_plate words
      · rw [hP, g4] at hf
        rw [← Option.some.inj hf]
        exact convert_string_to_number_fits hp
      · rw [h4 P hP] at hf
        exact t1 P record hf
    · rw [g2]
      exact t2
    · rw [g3]
      exact t3

/-- Whatever database a run of records of the grammar returns stores only values of the
integer types of the program. -/
theorem apply_updates_typed (rs : List update_record) : ∀ w w' : World, w.ok → w.typed →
    (∀ r ∈ rs, record_ok r = true) → apply_updates rs w = some w' → w'.typed := by
  induction rs with
  | nil =>
    intro w w' _ ht _ hw
    have : w = w' := Option.some.inj hw
    subst this
    exact ht
  | cons r rs ih =>
    intro w w' hok ht hrs hw
    have hr := hrs r (List.mem_cons_self _ _)
    simp only [record_ok, Bool.and_eq_true] at hr
    simp only [apply_updates] at hw
    cases h1 : update_database r.1 r.2 w with
    | none =>
      rw [h1] at hw
      exact absurd hw (by simp)
    | some w1 =>
      rw [h1] at hw
      simp only [Option.some_bind] at hw
      exact ih w1 w' (update_database_ok r.1 r.2 w w1 hok hr.1 hr.2 h1).1
        (update_database_typed r.1 r.2 w w1 hok ht hr.1 hr.2 h1)
        (fun x hx => hrs x (List.mem_cons_of_mem _ hx)) hw

theorem expected_slot_cases (js : List journey) :
    (js = [] ∧ expected_slot js = default_dist) ∨ (js ≠ [] ∧ 0 ≤ expected_slot js) := by
  cases js with
  | nil => exact Or.inl ⟨rfl, rfl⟩
  | cons j t =>
    refine Or.inr ⟨by simp, ?_⟩
    have := total_length_nonneg (j :: t)
    simpa [expected_slot] using this

theorem plate_journeys_split (js : List journey) (P : String)
    (h : (js.filter (fun j => decide (j.plate = P))).isEmpty = false) :
    plate_journeys js P true ≠ [] ∨ plate_journeys js P false ≠ [] := by
  have hne : js.filter (fun j => decide (j.plate = P)) ≠ [] := by
    intro e
    rw [e] at h
    simp at h
  obtain ⟨j, hj⟩ := List.exists_mem_of_ne_nil _ hne
  rw [List.mem_filter] at hj
  cases hm : is_motorway j.road with
  | true =>
    left
    apply List.ne_nil_of_mem (a := j)
    simp only [plate_journeys, List.mem_filter]
    exact ⟨hj.1, by simp [hm, of_decide_eq_true hj.2]⟩
  | false =>
    right
    apply List.ne_nil_of_mem (a := j)
    simp only [plate_journeys, List.mem_filter]
    exact ⟨hj.1, by simp [hm, of_decide_eq_true hj.2]⟩

theorem car_line_not_bare (P : String) (a s : Int)
    (h : a > default_dist ∨ s > default_dist) : car_line P (a, s) ≠ P ++ "\n" := by
  intro e
  have hl := congrArg String.length e
  simp only [car_line, String.length_append] at hl
  have h3 : " A ".length = 3 := by decide
  have h4 : " S ".length = 3 := by decide
  have h0 : "".length = 0 := by decide
  rcases h with h | h
  · rw [if_pos h] at hl
    simp only [String.length_append, h3] at hl
    omega
  · rw [if_pos h] at hl
    simp only [String.length_append, h4] at hl
    omega

/-- C19 (well-formed accumulators).  A sequence of update records of the grammar applied to
the empty database returns a database exactly when the journeys it completes overflow no slot
and no road total; and in every database such a sequence returns, every entry of the car
accumulators has at least one slot different from the sentinel, every slot different from
the sentinel is at least 0, every road total is at least 0, and the line a query prints for
an entry of the car accumulators is never the bare plate. -/
theorem accumulators_well_formed (rs : List update_record)
    (hrs : ∀ r ∈ rs, record_ok r = true) :
    ((∃ w, apply_updates rs World.initial = some w) ↔ journeys_fit (completed_journeys rs)) ∧
    ∀ w, apply_updates rs World.initial = some w →
      (∀ (P : car_plate_t) (a s : car_dist_t), (P, (a, s)) ∈ w.cars_data →
        (a ≠ default_dist ∨ s ≠ default_dist) ∧ (a ≠ default_dist → 0 ≤ a) ∧
        (s ≠ default_dist → 0 ≤ s) ∧ car_line P (a, s) ≠ P ++ "\n") ∧
      (∀ (key : road_name_t) (t : road_dist_t), (key, t) ∈ w.roads_data →
        0 ≤ t ∧ t ≠ default_dist) := by
  refine ⟨apply_updates_returns rs hrs, ?_⟩
  intro w h1
  obtain ⟨h2, _⟩ :=
    agrees_run rs World.initial w journey_log_initial agrees_initial hrs h1
  obtain ⟨_, ho2, ho3⟩ := h2.ok
  refine ⟨?_, ?_⟩
  · intro P a s hmem
    have hf := map_find_of_mem string_less_ok _ P (a, s) ho3 hmem
    rw [h2.cars P] at hf
    cases he : ((rs.foldl journey_step journey_log_initial).2.filter
        (fun j => decide (j.plate = P))).isEmpty with
    | true =>
      rw [he] at hf
      exact absurd hf (by simp)
    | false =>
      rw [he] at hf
      simp only [Bool.false_eq_true, if_false, Option.some.injEq, Prod.mk.injEq] at hf
      obtain ⟨ea, es⟩ := hf
      have ca := expected_slot_cases
        (plate_journeys (rs.foldl journey_step journey_log_initial).2 P true)
      have cs := expected_slot_cases
        (plate_journeys (rs.foldl journey_step journey_log_initial).2 P false)
      rw [ea] at ca
      rw [es] at cs
      have hd : default_dist = -1 := rfl
      have hone : a ≠ default_dist ∨ s ≠ default_dist := by
        rcases plate_journeys_split _ P he with hA | hS
        · rcases ca with ⟨c1, _⟩ | ⟨_, c2⟩
          · exact absurd c1 hA
          · left
            rw [hd]
            intro e
            rw [e] at c2
            exact absurd c2 (by decide)
        · rcases cs with ⟨c1, _⟩ | ⟨_, c2⟩
          · exact absurd c1 hS
          · right
            rw [hd]
            intro e
            rw [e] at c2
            exact absurd c2 (by decide)
      have ha : a ≠ default_dist → 0 ≤ a := by
        intro hne
        rcases ca with ⟨_, c1⟩ | ⟨_, c2⟩
        · exact absurd c1 hne
        · exact c2
      have hs : s ≠ default_dist → 0 ≤ s := by
        intro hne
        rcases cs with ⟨_, c1⟩ | ⟨_, c2⟩
        · exact absurd c1 hne
        · exact c2
      refine ⟨hone, ha, hs, car_line_not_bare P a s ?_⟩
      rcases hone with h | h
      · left
        have := ha h
        rw [hd]
        exact lt_of_lt_of_le (by decide) this
      · right
        have := hs h
        rw [hd]
        exact lt_of_lt_of_le (by decide) this
  · intro key t hmem
    have hf := map_find_of_mem road_name_comparator_ok _ key t ho2 hmem
    obtain ⟨R, hR, hkey⟩ := h2.road_keys key t hf
    have hr := h2.roads R key hR hkey
    rw [hf] at hr
    split at hr
    · exact absurd hr (by simp)
    · simp only [Option.some.injEq] at hr
      have hnn := total_length_nonneg
        (road_journeys (rs.foldl journey_step journey_log_initial).2 R)
      rw [← hr] at hnn
      refine ⟨hnn, ?_⟩
      intro e
      rw [e] at hnn
      exact absurd hnn (by decide)

/-- C19, instance: after a journey of ABC123 on A1 with entry equal to exit the motorway
slot is 0, not the sentinel, and the total of A1 is 0. -/
theorem accumulators_well_formed_witness :
    ∃ w, apply_updates
        [(["ABC123 A1 5,0", "ABC123", "A1", "5,0"], (1, "ABC123 A1 5,0")),
          (["ABC123 A1 5,0", "ABC123", "A1", "5,0"], (2, "ABC123 A1 5,0"))]
        World.initial = some w ∧
      w.cars_data = [("ABC123", (0, -1))] ∧ w.roads_data = [(('A', 1), 0)] ∧
      car_line "ABC123" (0, -1) ≠ "ABC123" ++ "\n" := by
  obtain ⟨hfit, hall⟩ := accumulators_well_formed
    [(["ABC123 A1 5,0", "ABC123", "A1", "5,0"], (1, "ABC123 A1 5,0")),
      (["ABC123 A1 5,0", "ABC123", "A1", "5,0"], (2, "ABC123 A1 5,0"))]
    (by decide)
  obtain ⟨w, h⟩ := hfit.mpr (journeys_fit_of_total _ (by decide) (by decide))
  obtain ⟨hc, _⟩ := hall w h
  have e : apply_updates
      [(["ABC123 A1 5,0", "ABC123", "A1", "5,0"], (1, "ABC123 A1 5,0")),
        (["ABC123 A1 5,0", "ABC123", "A1", "5,0"], (2, "ABC123 A1 5,0"))]
      World.initial = some ⟨[], [(('A', 1), 0)], [("ABC123", (0, -1))], "", ""⟩ := by
    decide
  have hw := Option.some.inj (h.symm.trans e)
  subst hw
  exact ⟨_, h, rfl, rfl, (hc "ABC123" 0 (-1) (by simp)).2.2.2⟩


/-! ## Counting the lines of an output -/

theorem newlines_append (s t : String) : newlines (s ++ t) = newlines s + newlines t := by
  simp [newlines, String.data_append, List.count_append]

theorem newlines_show_nat (n : Nat) : newlines (show_nat n) = 0 := by
  rw [show_nat_eq]
  simp only [newlines, String.toList]
  rw [List.count_eq_zero]
  intro hmem
  have := List.all_eq_true.mp (decimal_value_toDigits n).2 _ hmem
  revert this
  decide

theorem newlines_show_int (x : Int) : newlines (show_int x) = 0 := by
  cases x with
  | ofNat m => exact newlines_show_nat m
  | negSucc m =>
    have e : show_int (Int.negSucc m) = "-" ++ show_nat (m + 1) := rfl
    rw [e, newlines_append, newlines_show_nat]
    decide

theorem newlines_show_dist (x : Int) : newlines (show_dist x) = 0 := by
  simp only [show_dist, newlines_append, newlines_show_int]
  decide

theorem newlines_car_line (P : String) (d : car_data_t) (hP : newlines P = 0) :
    newlines (car_line P d) = 1 := by
  have h1 : newlines " A " = 0 := by decide
  have h2 : newlines " S " = 0 := by decide
  have h3 : newlines "" = 0 := by decide
  have h4 : newlines "\n" = 1 := by decide
  simp only [car_line, newlines_append, hP, h4]
  split <;> split <;> simp [newlines_append, newlines_show_dist, h1, h2, h3]

theorem newlines_road_line (key : road_name_t) (t : road_dist_t) (hk : key.1 ≠ '\n') :
    newlines (road_line key t) = 1 := by
  have h1 : newlines " " = 0 := by decide
  have h4 : newlines "\n" = 1 := by decide
  have h5 : newlines (show_char key.1) = 0 := by
    have e : (show_char key.1).toList = [key.1] := rfl
    simp only [newlines, e]
    rw [List.count_eq_zero]
    intro hmem
    exact hk (List.mem_singleton.mp hmem).symm
  simp only [road_line, newlines_append, newlines_show_nat, newlines_show_dist, h1, h4, h5]

theorem lines_text_append (a b : List String) :
    lines_text (a ++ b) = lines_text a ++ lines_text b := by
  induction a with
  | nil => simp [lines_text]
  | cons x t ih =>
    simp only [lines_text, List.cons_append, List.foldr_cons] at ih ⊢
    rw [ih, String.append_assoc]

theorem newlines_lines_text (l : List String) (h : ∀ x ∈ l, newlines x = 1) :
    newlines (lines_text l) = l.length := by
  induction l with
  | nil => decide
  | cons x t ih =>
    have e : lines_text (x :: t) = x ++ lines_text t := rfl
    rw [e, newlines_append, h x (List.mem_cons_self _ _),
      ih (fun y hy => h y (List.mem_cons_of_mem _ hy))]
    simp only [List.length_cons]
    omega

/-- C14 (query-all car section).  On a well-formed database query-all appends to standard
output the car lines followed by the road lines: one car line for each entry of the car
map, whose plates are exactly the plates with a car accumulator, each once, in strictly
increasing lexicographic order of their characters, then one road line per entry of the road
map; the lines number the car accumulators plus the road accumulators, and when no plate and
no road letter contains an end of line the output has exactly that many ends of line. -/
theorem query_all_car_section (w : World) (hok : w.ok) :
    ∃ w', all_data_query w = some w' ∧
      w'.cout = w.cout ++ lines_text
        (w.cars_data.map (fun car => car_line car.1 car.2) ++
          w.roads_data.map (fun road => road_line road.1 road.2)) ∧
      (∀ P : car_plate_t, (map_find string_less w.cars_data P).isSome = true ↔
        P ∈ w.cars_data.map Prod.fst) ∧
      (w.cars_data.map Prod.fst).Nodup ∧
      (w.cars_data.map Prod.fst).Pairwise (fun a b => a.toList < b.toList) ∧
      (w.cars_data.map (fun car => car_line car.1 car.2) ++
        w.roads_data.map (fun road => road_line road.1 road.2)).length =
          w.cars_data.length + w.roads_data.length ∧
      ((∀ car ∈ w.cars_data, newlines car.1 = 0) →
        (∀ road ∈ w.roads_data, road.1.1 ≠ '\n') →
        newlines (lines_text
          (w.cars_data.map (fun car => car_line car.1 car.2) ++
            w.roads_data.map (fun road => road_line road.1 road.2))) =
          w.cars_data.length + w.roads_data.length) := by
  obtain ⟨_, _, ho3⟩ := hok
  refine ⟨_, all_data_query_eq w, ?_, map_find_isSome_iff string_less_ok _ ho3,
    map_keys_nodup string_less_ok _ ho3, ?_, by simp, ?_⟩
  · simp only [car_lines, road_lines, lines_text_append, String.append_assoc]
  · refine (map_keys_pairwise _ ho3).imp ?_
    intro a b h
    simpa [string_less] using h
  · intro hc hr
    rw [newlines_lines_text]
    · simp
    · intro x hx
      rcases List.mem_append.mp hx with hx | hx
      · obtain ⟨car, hcar, rfl⟩ := List.mem_map.mp hx
        exact newlines_car_line _ _ (hc car hcar)
      · obtain ⟨road, hroad, rfl⟩ := List.mem_map.mp hx
        exact newlines_road_line _ _ (hr road hroad)

/-- C14, instance: two cars and one road; the car lines come first, AAA111 before ABC123. -/
theorem query_all_car_section_witness :
    ∃ w', all_data_query
        ⟨[], [(('S', 7), 30)], [("AAA111", (-1, 30)), ("ABC123", (105, -1))], "", ""⟩ =
        some w' ∧
      w'.cout = "AAA111 S 3,0\nABC123 A 10,5\nS7 3,0\n" ∧ newlines w'.cout = 3 := by
  obtain ⟨w', h1, h2, _⟩ := query_all_car_section
    ⟨[], [(('S', 7), 30)], [("AAA111", (-1, 30)), ("ABC123", (105, -1))], "", ""⟩
    (by simp [World.ok, map_ok, string_less]; decide)
  have e : w'.cout = "AAA111 S 3,0\nABC123 A 10,5\nS7 3,0\n" := by
    rw [h2]
    decide
  refine ⟨w', h1, e, ?_⟩
  rw [e]
  decide


/-! ## Conservation of distance -/

theorem sum_map_emplace {κ ν : Type} {comp : κ → κ → Bool}
    (f : κ × ν → Int) (m : List (κ × ν)) (k : κ) (v : ν)
    (h : map_find comp m k = none) :
    ((map_emplace comp m k v).map f).sum = (m.map f).sum + f (k, v) := by
  induction m with
  | nil => simp [map_emplace]
  | cons y t ih =>
    obtain ⟨a, va⟩ := y
    rw [map_find_cons] at h
    unfold map_emplace
    cases hak : comp a k with
    | true =>
      rw [hak] at h
      simp only [if_true, List.map_cons, List.sum_cons, ih h]
      ring
    | false =>
      cases hka : comp k a with
      | true =>
        simp only [Bool.false_eq_true, if_false, if_true, List.map_cons, List.sum_cons]
        ring
      | false =>
        rw [hak, hka] at h
        simp at h

theorem sum_map_erase {κ ν : Type} {comp : κ → κ → Bool} (hc : comp_ok comp)
    (f : κ × ν → Int) (m : List (κ × ν)) (k : κ) (v0 : ν) :
    ∀ m', map_find comp m k = some v0 → map_erase comp m k = some m' →
      (m'.map f).sum + f (k, v0) = (m.map f).sum := by
  induction m with
  | nil =>
    intro m' h
    simp [map_find] at h
  | cons y t ih =>
    obtain ⟨a, va⟩ := y
    intro m' h e
    rw [map_find_cons] at h
    unfold map_erase at e
    cases hak : comp a k with
    | true =>
      rw [hak] at h e
      simp only [if_true] at h e
      cases ht : map_erase comp t k with
      | none =>
        rw [ht] at e
        simp at e
      | some t' =>
        rw [ht] at e
        simp only [Option.map_some', Option.some.injEq] at e
        rw [← e]
        simp only [List.map_cons, List.sum_cons]
        have := ih t' h ht
        linarith
    | false =>
      cases hka : comp k a with
      | true =>
        rw [hak, hka] at h
        simp at h
      | false =>
        rw [hak, hka] at h e
        simp only [Bool.false_eq_true, if_false, Option.some.injEq] at h e
        have hk : a = k := hc.total a k hak hka
        rw [← e, ← h, hk]
        simp only [List.map_cons, List.sum_cons]
        ring

/-- The sum of a function over a map after a value was written under a key. -/
theorem sum_map_replace {κ ν : Type} {comp : κ → κ → Bool} (hc : comp_ok comp)
    (f : κ × ν → Int) (m m' : List (κ × ν)) (k : κ) (v : ν) (hok : map_ok comp m)
    (e : map_replace comp m k v = some m') :
    (m'.map f).sum + ((map_find comp m k).map (fun v0 => f (k, v0))).getD 0 =
      (m.map f).sum + f (k, v) := by
  unfold map_replace at e
  cases hf : map_find comp m k with
  | none =>
    rw [hf] at e
    simp only [Option.some.injEq] at e
    rw [← e, sum_map_emplace f m k v hf]
    simp
  | some v0 =>
    rw [hf] at e
    obtain ⟨m1, e1, _, e3, _⟩ := map_erase_spec hc m k v0 hok hf
    rw [e1] at e
    simp only [Option.map_some', Option.some.injEq] at e
    rw [← e, sum_map_emplace f m1 k v e3]
    have := sum_map_erase hc f m k v0 m1 hf e1
    simp only [Option.map_some', Option.getD_some]
    linarith

theorem counted_start (x delta : Int) (hx : default_dist ≤ x) (hd : 0 ≤ delta) :
    counted (start_if_unset x + delta) = counted x + delta ∧
      0 ≤ start_if_unset x + delta := by
  unfold counted start_if_unset default_dist at *
  split <;> split <;> omega

/-- One record of the grammar keeps the distance conserved, whatever database
update_database returns. -/
theorem conserved_step (words : smatch) (input : input_type_t) (w w0 : World)
    (h : conserved w) (hroad : is_road_label (get_road_text words) = true)
    (hdist : is_distance (get_distance words) = true)
    (hw0 : update_database words input w = some w0) : conserved w0 := by
  have hfit := (update_database_returns words input w h.ok hroad hdist).mp ⟨w0, hw0⟩
  obtain ⟨p, hp, _⟩ := convert_string_to_number_ok hdist
  obtain ⟨c, n, hkey, hat, _⟩ := convert_string_to_road_ok hroad
  obtain ⟨w', h1, hok', _, _, _, _, h7⟩ :=
    update_database_effect words input w p (c, n) c h.ok hp hkey hat hfit
  have hw : w' = w0 := Option.some.inj (h1.symm.trans hw0)
  subst hw
  obtain ⟨_, ho2, ho3⟩ := h.ok
  rcases h7 with ⟨_, _, e, _, r1, r2, _⟩ | ⟨_, g2, g3, _⟩
  · have hδ : (0 : Int) ≤ |p - e| := abs_nonneg _
    have hold : default_dist ≤ (car_slots w (get_car_plate words)).1 ∧
        default_dist ≤ (car_slots w (get_car_plate words)).2 := by
      unfold car_slots
      cases hf : map_find string_less w.cars_data (get_car_plate words) with
      | none => exact ⟨le_refl _, le_refl _⟩
      | some v0 => exact h.slots _ (mem_of_map_find string_less_ok _ _ _ hf)
    have hcar1 : ((map_find string_less w.cars_data (get_car_plate words)).map
        (fun v0 => counted v0.1)).getD 0 = counted (car_slots w (get_car_plate words)).1 := by
      unfold car_slots
      cases map_find string_less w.cars_data (get_car_plate words) <;> rfl
    have hcar2 : ((map_find string_less w.cars_data (get_car_plate words)).map
        (fun v0 => counted v0.2)).getD 0 = counted (car_slots w (get_car_plate words)).2 := by
      unfold car_slots
      cases map_find string_less w.cars_data (get_car_plate words) <;> rfl
    have s1 := sum_map_replace string_less_ok (fun car => counted car.2.1) _ _ _ _ ho3 r1
    have s2 := sum_map_replace string_less_ok (fun car => counted car.2.2) _ _ _ _ ho3 r1
    simp only [hcar1] at s1
    simp only [hcar2] at s2
    have htot : 0 ≤ start_if_unset (road_total w (c, n)) + |p - e| ∧
        start_if_unset (road_total w (c, n)) + |p - e| =
          ((map_find road_name_comparator w.roads_data (c, n)).map (fun t0 => t0)).getD 0
            + |p - e| := by
      unfold road_total
      cases hf : map_find road_name_comparator w.roads_data (c, n) with
      | none =>
        simp only [Option.getD_none, Option.map_none']
        exact ⟨by simp [start_if_unset, default_dist],
          by simp [start_if_unset, default_dist]⟩
      | some t0 =>
        have ht0 : (0 : Int) ≤ t0 :=
          h.totals _ (mem_of_map_find road_name_comparator_ok _ _ _ hf)
        have hne : ¬ t0 = (-1 : Int) := by
          intro e
          rw [e] at ht0
          exact absurd ht0 (by decide)
        have : start_if_unset t0 = t0 := by
          unfold start_if_unset default_dist
          rw [if_neg hne]
        simp only [Option.getD_some, Option.map_some', this]
        exact ⟨add_nonneg ht0 hδ, trivial⟩
    have s3 := sum_map_replace road_name_comparator_ok
      (fun road => if road.1.1 = motorway then road.2 else 0) _ _ _ _ ho2 r2
    have s4 := sum_map_replace road_name_comparator_ok
      (fun road => if road.1.1 = motorway then 0 else road.2) _ _ _ _ ho2 r2
    simp only at s3 s4
    rw [htot.2] at s3 s4
    have hm := h.motorway
    have ho := h.other
    unfold sum_motorway_roads sum_motorway_slots at hm
    unfold sum_other_roads sum_other_slots at ho
    have c1 := counted_start _ _ hold.1 hδ
    have c2 := counted_start _ _ hold.2 hδ
    obtain ⟨m1, e1, _, _, _, mem1⟩ := map_replace_spec string_less_ok w.cars_data
      (get_car_plate words) (car_data_after c |p - e| (car_slots w (get_car_plate words))) ho3
    obtain ⟨m2, e2, _, _, _, mem2⟩ := map_replace_spec road_name_comparator_ok w.roads_data
      (c, n) (start_if_unset (road_total w (c, n)) + |p - e|) ho2
    have hm1 : m1 = w'.cars_data := Option.some.inj (e1.symm.trans r1)
    have hm2 : m2 = w'.roads_data := Option.some.inj (e2.symm.trans r2)
    refine ⟨hok', ?_, ?_, ?_, ?_⟩
    · unfold sum_motorway_roads sum_motorway_slots
      cases hf : map_find road_name_comparator w.roads_data (c, n) <;>
        rw [hf] at s3 <;>
        by_cases hc : c = motorway <;>
        simp only [car_data_after, hc, if_true, if_false, Option.map_none', Option.map_some',
          Option.getD_none, Option.getD_some] at s1 s3 <;>
        linarith [c1.1]
    · unfold sum_other_roads sum_other_slots
      cases hf : map_find road_name_comparator w.roads_data (c, n) <;>
        rw [hf] at s4 <;>
        by_cases hc : c = motorway <;>
        simp only [car_data_after, hc, if_true, if_false, Option.map_none', Option.map_some',
          Option.getD_none, Option.getD_some] at s2 s4 <;>
        linarith [c2.1]
    · intro car hcar
      rw [← hm1] at hcar
      rcases mem1 car hcar with rfl | ⟨hcar, _⟩
      · simp only [car_data_after]
        have d1 : default_dist ≤ 0 := by decide
        split
        · exact ⟨le_trans d1 c1.2, hold.2⟩
        · exact ⟨hold.1, le_trans d1 c2.2⟩
      · exact h.slots car hcar
    · intro road hroad'
      rw [← hm2] at hroad'
      rcases mem2 road hroad' with rfl | ⟨hr, _⟩
      · exact htot.1
      · exact h.totals road hr
  · refine ⟨hok', ?_, ?_, ?_, ?_⟩
    · unfold sum_motorway_roads sum_motorway_slots
      rw [g2, g3]
      exact h.motorway
    · unfold sum_other_roads sum_other_slots
      rw [g2, g3]
      exact h.other
    · rw [g2]
      exact h.slots
    · rw [g3]
      exact h.totals

/-- A run of records of the grammar keeps the distance conserved, whatever database it
returns. -/
theorem conserved_run (rs : List update_record) : ∀ w w' : World, conserved w →
    (∀ r ∈ rs, record_ok r = true) → apply_updates rs w = some w' → conserved w' := by
  induction rs with
  | nil =>
    intro w w' h _ hw
    have : w = w' := Option.some.inj hw
    subst this
    exact h
  | cons r rs ih =>
    intro w w' h hrs hw
    have hr := hrs r (List.mem_cons_self _ _)
    simp only [record_ok, Bool.and_eq_true] at hr
    simp only [apply_updates] at hw
    cases h1 : update_database r.1 r.2 w with
    | none =>
      rw [h1] at hw
      exact absurd hw (by simp)
    | some w1 =>
      rw [h1] at hw
      simp only [Option.some_bind] at hw
      exact ih w1 w' (conserved_step r.1 r.2 w w1 h hr.1 hr.2 h1)
        (fun x hx => hrs x (List.mem_cons_of_mem _ hx)) hw

theorem conserved_initial : conserved World.initial :=
  ⟨by simp [World.ok, World.initial, map_ok], rfl, rfl,
    fun car h => by simp [World.initial] at h, fun road h => by simp [World.initial] at h⟩

theorem sum_roads_split (w : World) :
    sum_roads w = sum_motorway_roads w + sum_other_roads w := by
  unfold sum_roads sum_motorway_roads sum_other_roads
  induction w.roads_data with
  | nil => simp
  | cons x t ih =>
    simp only [List.map_cons, List.sum_cons, ih]
    split <;> ring

/-- C18 (conservation of distance).  A sequence of update records of the grammar applied to
the empty database returns a database exactly when the journeys it completes overflow no slot
and no road total; and in every database such a sequence returns, the totals of the roads of
category `A` sum to the motorway slots of all plates, the totals of the other roads sum to
the other-road slots, and so the totals of all roads sum to the motorway plus other-road
slots of all plates, an unset slot counting as 0. -/
theorem distance_conserved (rs : List update_record) (hrs : ∀ r ∈ rs, record_ok r = true) :
    ((∃ w, apply_updates rs World.initial = some w) ↔ journeys_fit (completed_journeys rs)) ∧
    ∀ w, apply_updates rs World.initial = some w →
      ((w.roads_data.filter (fun road => decide (road.1.1 = 'A'))).map (fun road => road.2)).sum
        = (w.cars_data.map (fun car => counted car.2.1)).sum ∧
      ((w.roads_data.filter (fun road => decide (road.1.1 ≠ 'A'))).map
          (fun road => road.2)).sum
        = (w.cars_data.map (fun car => counted car.2.2)).sum ∧
      (w.roads_data.map (fun road => road.2)).sum =
        (w.cars_data.map (fun car => counted car.2.1 + counted car.2.2)).sum := by
  refine ⟨apply_updates_returns rs hrs, ?_⟩
  intro w h1
  have hc := conserved_run rs World.initial w conserved_initial hrs h1
  have hm := hc.motorway
  have ho := hc.other
  have hs := sum_roads_split w
  unfold sum_motorway_roads sum_motorway_slots at hm
  unfold sum_other_roads sum_other_slots at ho
  unfold sum_roads sum_motorway_roads sum_other_roads at hs
  have fA : ∀ l : List (road_name_t × road_dist_t),
      ((l.filter (fun road => decide (road.1.1 = 'A'))).map (fun road => road.2)).sum =
        (l.map (fun road => if road.1.1 = motorway then road.2 else 0)).sum := by
    intro l
    induction l with
    | nil => rfl
    | cons x t ih =>
      by_cases hx : x.1.1 = 'A'
      · simp [List.filter_cons, hx, motorway, ih]
      · simp [List.filter_cons, hx, motorway, ih]
  have fS : ∀ l : List (road_name_t × road_dist_t),
      ((l.filter (fun road => !decide (road.1.1 = 'A'))).map (fun road => road.2)).sum =
        (l.map (fun road => if road.1.1 = motorway then 0 else road.2)).sum := by
    intro l
    induction l with
    | nil => rfl
    | cons x t ih =>
      by_cases hx : x.1.1 = 'A'
      · simp [List.filter_cons, hx, motorway, ih]
      · simp [List.filter_cons, hx, motorway, ih]
  refine ⟨?_, ?_, ?_⟩
  · rw [fA, hm]
  · simp only [ne_eq, decide_not]
    rw [fS, ho]
  · rw [hs, hm, ho, List.sum_map_add]

/-- C18, instance: ABC123 drives 10,5 on A1 and XYZ99 drives 2,0 on S7; the motorway slots
and the roads of category A both sum to 105, the others to 20. -/
theorem distance_conserved_witness :
    ∃ w, apply_updates
        [(["ABC123 A1 0,0", "ABC123", "A1", "0,0"], (1, "ABC123 A1 0,0")),
          (["XYZ99 S7 3,0", "XYZ99", "S7", "3,0"], (2, "XYZ99 S7 3,0")),
          (["ABC123 A1 10,5", "ABC123", "A1", "10,5"], (3, "ABC123 A1 10,5")),
          (["XYZ99 S7 1,0", "XYZ99", "S7", "1,0"], (4, "XYZ99 S7 1,0"))]
        World.initial = some w ∧
      w.cars_data = [("ABC123", (105, -1)), ("XYZ99", (-1, 20))] ∧
      w.roads_data = [(('A', 1), 105), (('S', 7), 20)] ∧
      (w.roads_data.map (fun road => road.2)).sum =
        (w.cars_data.map (fun car => counted car.2.1 + counted car.2.2)).sum := by
  obtain ⟨hfit, hall⟩ := distance_conserved
    [(["ABC123 A1 0,0", "ABC123", "A1", "0,0"], (1, "ABC123 A1 0,0")),
      (["XYZ99 S7 3,0", "XYZ99", "S7", "3,0"], (2, "XYZ99 S7 3,0")),
      (["ABC123 A1 10,5", "ABC123", "A1", "10,5"], (3, "ABC123 A1 10,5")),
      (["XYZ99 S7 1,0", "XYZ99", "S7", "1,0"], (4, "XYZ99 S7 1,0"))]
    (by decide)
  obtain ⟨w, h⟩ := hfit.mpr (journeys_fit_of_total _ (by decide) (by decide))
  obtain ⟨_, _, h3⟩ := hall w h
  have e : apply_updates
      [(["ABC123 A1 0,0", "ABC123", "A1", "0,0"], (1, "ABC123 A1 0,0")),
        (["XYZ99 S7 3,0", "XYZ99", "S7", "3,0"], (2, "XYZ99 S7 3,0")),
        (["ABC123 A1 10,5", "ABC123", "A1", "10,5"], (3, "ABC123 A1 10,5")),
        (["XYZ99 S7 1,0", "XYZ99", "S7", "1,0"], (4, "XYZ99 S7 1,0"))]
      World.initial =
        some ⟨[], [(('A', 1), 105), (('S', 7), 20)],
          [("ABC123", (105, -1)), ("XYZ99", (-1, 20))], "", ""⟩ := by
    decide
  have hw := Option.some.inj (h.symm.trans e)
  subst hw
  exact ⟨_, h, rfl, rfl, h3⟩


/-! ## The loop of invoke -/

theorem data_regex_some {line : String} {words : smatch} (h : data_regex line = some words) :
    ∃ P R D : String, words = [line, P, R, D] ∧ is_plate P = true ∧
      is_road_label R = true ∧ is_distance D = true := by
  unfold data_regex at h
  split at h
  · next p r d _ =>
    split at h
    · next hc =>
      simp only [Bool.and_eq_true] at hc
      simp only [Option.some.injEq] at h
      exact ⟨_, _, _, h.symm, hc.1.1, hc.1.2, hc.2⟩
    · exact absurd h (by simp)
  · exact absurd h (by simp)

theorem car_query_regex_some {line : String} {words : smatch}
    (h : car_query_regex line = some words) :
    ∃ k : List Char, query_tokens line = some [k] ∧ words = [line, String.mk k] ∧
      is_plate (String.mk k) = true := by
  unfold car_query_regex at h
  split at h
  · next k hk =>
    split at h
    · next hc =>
      simp only [Option.some.injEq] at h
      exact ⟨k, hk, h.symm, hc⟩
    · exact absurd h (by simp)
  · exact absurd h (by simp)

theorem road_query_regex_some {line : String} {words : smatch}
    (h : road_query_regex line = some words) :
    ∃ k : List Char, query_tokens line = some [k] ∧ words = [line, String.mk k] ∧
      is_road_label (String.mk k) = true := by
  unfold road_query_regex at h
  split at h
  · next k hk =>
    split at h
    · next hc =>
      simp only [Option.some.injEq] at h
      exact ⟨k, hk, h.symm, hc⟩
    · exact absurd h (by simp)
  · exact absurd h (by simp)

/-- With the table of main the query branch never throws and keeps the three maps. -/
theorem invoke_query_total (input : input_type_t) (w : World) :
    ∃ w', invoke_query regexes_table input w = some w' ∧
      w'.cars_on_road = w.cars_on_road ∧ w'.cars_data = w.cars_data ∧
      w'.roads_data = w.roads_data := by
  have hcar : ∃ w1, query_if (regexes_table 2 input.2) car_query w = some w1 ∧
      w1.cars_on_road = w.cars_on_road ∧ w1.cars_data = w.cars_data ∧
      w1.roads_data = w.roads_data := by
    unfold query_if
    split
    · next words _ =>
      unfold car_query
      cases map_find string_less w.cars_data (get_query_key words) with
      | none => exact ⟨w, rfl, rfl, rfl, rfl⟩
      | some p => exact ⟨_, rfl, rfl, rfl, rfl⟩
    · exact ⟨w, rfl, rfl, rfl, rfl⟩
  obtain ⟨w1, e1, a1, a2, a3⟩ := hcar
  have hroad : ∃ w2, query_if (regexes_table 3 input.2) road_query w1 = some w2 ∧
      w2.cars_on_road = w1.cars_on_road ∧ w2.cars_data = w1.cars_data ∧
      w2.roads_data = w1.roads_data := by
    unfold query_if
    split
    · next words hm =>
      obtain ⟨k, _, hw, hk⟩ := road_query_regex_some hm
      have hl : is_road_label (get_query_key words) = true := by
        rw [hw]
        exact hk
      obtain ⟨c, n, hkey, _⟩ := convert_string_to_road_ok hl
      unfold road_query
      simp only [hkey, Option.bind_eq_bind, Option.some_bind]
      cases map_find road_name_comparator w1.roads_data (c, n) with
      | none => exact ⟨w1, rfl, rfl, rfl, rfl⟩
      | some p => exact ⟨_, rfl, rfl, rfl, rfl⟩
    · exact ⟨w1, rfl, rfl, rfl, rfl⟩
  obtain ⟨w2, e2, b1, b2, b3⟩ := hroad
  unfold invoke_query
  rw [e1]
  simp only [Option.some_bind]
  rw [e2]
  simp only [Option.some_bind]
  split
  · exact ⟨w2, rfl, b1.trans a1, b2.trans a2, b3.trans a3⟩
  · exact ⟨_, rfl, b1.trans a1, b2.trans a2, b3.trans a3⟩

/-- A line that matches data_regex is handed to update_database with its capture groups. -/
theorem invoke_line_update (input : input_type_t) (w : World) (words : smatch)
    (h : data_regex input.2 = some words) :
    invoke_line regexes_table input w = update_database words input w := by
  unfold invoke_line
  simp only [regexes_table, h]

/-- With the table of main a line that does not match data_regex never throws and keeps the
three maps. -/
theorem invoke_line_query (input : input_type_t) (w : World)
    (h : data_regex input.2 = none) :
    ∃ w', invoke_line regexes_table input w = some w' ∧
      w'.cars_on_road = w.cars_on_road ∧ w'.cars_data = w.cars_data ∧
      w'.roads_data = w.roads_data := by
  unfold invoke_line
  simp only [regexes_table, h]
  split
  · refine ⟨_, all_data_query_eq w, rfl, rfl, rfl⟩
  · exact invoke_query_total input w

/-- Agreement with a journey log is a property of the three maps. -/
theorem agrees_of_maps (w w' : World) (log : journey_log) (h : agrees w log)
    (h1 : w'.cars_on_road = w.cars_on_road) (h2 : w'.cars_data = w.cars_data)
    (h3 : w'.roads_data = w.roads_data) : agrees w' log := by
  obtain ⟨hok, a, b, c, d⟩ := h
  refine ⟨?_, ?_, ?_, ?_, ?_⟩
  · unfold World.ok at hok ⊢
    rw [h1, h2, h3]
    exact hok
  · rw [h1]
    exact a
  · rw [h2]
    exact b
  · rw [h3]
    exact c
  · rw [h3]
    exact d

/-- When the loop of invoke returns, the line counter has counted every line. -/
theorem invoke_loop_counter (table : Nat → regex) (cin : List line_content_t) :
    ∀ (n k : Nat) (w w' : World), n < LINE_MOD →
    invoke_loop table cin n w = some (k, w') → k = (n + cin.length) % LINE_MOD := by
  induction cin with
  | nil =>
    intro n k w w' hn h
    simp only [invoke_loop, Option.some.injEq, Prod.mk.injEq] at h
    rw [List.length_nil, Nat.add_zero, Nat.mod_eq_of_lt hn]
    exact h.1.symm
  | cons line rest ih =>
    intro n k w w' _ h
    have hlt : (n + 1) % LINE_MOD < LINE_MOD := Nat.mod_lt _ (by decide)
    have hn : ((n + 1) % LINE_MOD + rest.length) % LINE_MOD =
        (n + (line :: rest).length) % LINE_MOD := by
      simp only [List.length_cons, LINE_MOD]
      omega
    unfold invoke_loop at h
    by_cases he : line = ""
    · rw [if_pos he] at h
      rw [← hn]
      exact ih _ _ _ _ hlt h
    · rw [if_neg he] at h
      cases h1 : invoke_line table ((n + 1) % LINE_MOD, line) w with
      | none =>
        rw [h1] at h
        exact absurd h (by simp)
      | some w1 =>
        rw [h1] at h
        rw [← hn]
        exact ih _ _ _ _ hlt h

/-- The program never throws on an input whose journeys overflow no running total: the loop
of invoke runs to the end, the line counter has then counted every line, and the database
agrees with the journeys of the update records of the input. -/
theorem invoke_loop_total (cin : List line_content_t) :
    ∀ (n : Nat) (w : World) (log : journey_log), n < LINE_MOD → agrees w log →
    journeys_fit ((input_records regexes_table cin n).foldl journey_step log).2 →
    ∃ w', invoke_loop regexes_table cin n w = some ((n + cin.length) % LINE_MOD, w') ∧
      agrees w' ((input_records regexes_table cin n).foldl journey_step log) := by
  induction cin with
  | nil =>
    intro n w log hn h _
    refine ⟨w, ?_, h⟩
    simp only [invoke_loop, List.length_nil, Nat.add_zero, Nat.mod_eq_of_lt hn]
  | cons line rest ih =>
    intro n w log _ h hfit
    have hlt : (n + 1) % LINE_MOD < LINE_MOD := Nat.mod_lt _ (by decide)
    have hn : ((n + 1) % LINE_MOD + rest.length) % LINE_MOD =
        (n + (line :: rest).length) % LINE_MOD := by
      simp only [List.length_cons, LINE_MOD]
      omega
    unfold invoke_loop
    unfold input_records at hfit ⊢
    by_cases he : line = ""
    · rw [if_pos he] at hfit ⊢
      rw [if_pos he]
      obtain ⟨w', h1, h2⟩ := ih ((n + 1) % LINE_MOD) w log hlt h hfit
      exact ⟨w', by rw [h1, hn], h2⟩
    · rw [if_neg he] at hfit ⊢
      rw [if_neg he]
      cases hd : data_regex line with
      | none =>
        simp only [regexes_table, hd] at hfit ⊢
        obtain ⟨w1, e1, m1, m2, m3⟩ := invoke_line_query ((n + 1) % LINE_MOD, line) w hd
        rw [e1]
        obtain ⟨w', h1, h2⟩ := ih ((n + 1) % LINE_MOD) w1 log hlt
          (agrees_of_maps w w1 log h m1 m2 m3) hfit
        exact ⟨w', by simp only [h1, hn], h2⟩
      | some words =>
        simp only [regexes_table, hd, List.foldl_cons] at hfit ⊢
        obtain ⟨P, R, D, hw, _, hR, hD⟩ := data_regex_some hd
        have hr : record_ok (words, ((n + 1) % LINE_MOD, line)) = true := by
          simp only [record_ok, Bool.and_eq_true]
          exact ⟨by rw [hw]; exact hR, by rw [hw]; exact hD⟩
        obtain ⟨extra, hx⟩ := journey_run_extends
          (input_records regexes_table rest ((n + 1) % LINE_MOD))
          (journey_step log (words, ((n + 1) % LINE_MOD, line)))
        have hfit1 : journeys_fit
            (journey_step log (words, ((n + 1) % LINE_MOD, line))).2 := by
          rw [hx] at hfit
          exact journeys_fit_prefix _ _ hfit
        obtain ⟨w1, g1, g2, _⟩ := agrees_step w log (words, ((n + 1) % LINE_MOD, line)) h hr
          (agrees_fits w log _ h hr hfit1)
        rw [invoke_line_update ((n + 1) % LINE_MOD, line) w words hd, g1]
        obtain ⟨w', h1, h2⟩ := ih ((n + 1) % LINE_MOD) w1 _ hlt g2 hfit
        exact ⟨w', by simp only [h1, hn], h2⟩

/-- Whatever database the loop of invoke returns agrees with the journeys of the update
records of the input, and these journeys overflow no running total; in particular the
database is well-formed. -/
theorem invoke_loop_agrees (cin : List line_content_t) :
    ∀ (n k : Nat) (w w' : World) (log : journey_log), agrees w log → journeys_fit log.2 →
    invoke_loop regexes_table cin n w = some (k, w') →
    agrees w' ((input_records regexes_table cin n).foldl journey_step log) ∧
      journeys_fit ((input_records regexes_table cin n).foldl journey_step log).2 := by
  induction cin with
  | nil =>
    intro n k w w' log h hj hw
    simp only [invoke_loop, Option.some.injEq, Prod.mk.injEq] at hw
    rw [← hw.2]
    exact ⟨h, hj⟩
  | cons line rest ih =>
    intro n k w w' log h hj hw
    unfold invoke_loop at hw
    unfold input_records
    by_cases he : line = ""
    · rw [if_pos he] at hw
      rw [if_pos he]
      exact ih _ _ _ _ _ h hj hw
    · rw [if_neg he] at hw
      rw [if_neg he]
      cases hd : data_regex line with
      | none =>
        simp only [regexes_table, hd]
        obtain ⟨w1, e1, m1, m2, m3⟩ := invoke_line_query ((n + 1) % LINE_MOD, line) w hd
        rw [e1] at hw
        exact ih _ _ _ _ _ (agrees_of_maps w w1 log h m1 m2 m3) hj hw
      | some words =>
        simp only [regexes_table, hd, List.foldl_cons]
        obtain ⟨P, R, D, hwd, _, hR, hD⟩ := data_regex_some hd
        have hr : record_ok (words, ((n + 1) % LINE_MOD, line)) = true := by
          simp only [record_ok, Bool.and_eq_true]
          exact ⟨by rw [hwd]; exact hR, by rw [hwd]; exact hD⟩
        rw [invoke_line_update ((n + 1) % LINE_MOD, line) w words hd] at hw
        cases h1 : update_database words ((n + 1) % LINE_MOD, line) w with
        | none =>
          rw [h1] at hw
          exact absurd hw (by simp)
        | some w1 =>
          rw [h1] at hw
          have hr' := hr
          simp only [record_ok, Bool.and_eq_true] at hr'
          have hfit := (update_database_returns words ((n + 1) % LINE_MOD, line) w h.ok
            hr'.1 hr'.2).mp ⟨w1, h1⟩
          obtain ⟨w1', g1, g2, _⟩ :=
            agrees_step w log (words, ((n + 1) % LINE_MOD, line)) h hr hfit
          have e : w1' = w1 := Option.some.inj (g1.symm.trans h1)
          subst e
          exact ih _ _ _ _ _ g2
            (fits_step w log (words, ((n + 1) % LINE_MOD, line)) h hj hr hfit) hw

/-- The loop of invoke started on the empty database returns exactly when the journeys of
the input overflow no running total. -/
theorem invoke_loop_returns (cin : List line_content_t) :
    (∃ (k : Nat) (w : World), invoke_loop regexes_table cin 0 World.initial = some (k, w)) ↔
      journeys_fit (completed_journeys (input_records regexes_table cin 0)) := by
  constructor
  · rintro ⟨k, w, hw⟩
    exact (invoke_loop_agrees cin 0 k World.initial w journey_log_initial agrees_initial
      journeys_fit_nil hw).2
  · intro hfit
    obtain ⟨w, h1, _⟩ := invoke_loop_total cin 0 World.initial journey_log_initial
      (by decide) agrees_initial hfit
    exact ⟨_, w, h1⟩

/-- The program returns exactly on the inputs whose journeys overflow no running total. -/
theorem main_returns (cin : List line_content_t) :
    (∃ w, main cin = some w) ↔
      journeys_fit (completed_journeys (input_records regexes_table cin 0)) := by
  rw [← invoke_loop_returns]
  unfold main invoke
  constructor
  · rintro ⟨w, hw⟩
    cases hl : invoke_loop regexes_table cin 0 World.initial with
    | none =>
      rw [hl] at hw
      exact absurd hw (by simp)
    | some s => exact ⟨s.1, s.2, rfl⟩
  · rintro ⟨k, w, hw⟩
    exact ⟨w, by rw [hw]; rfl⟩

/-- Every database the program reaches is well-formed. -/
theorem main_ok (cin : List line_content_t) (w : World) (h : main cin = some w) : w.ok := by
  unfold main invoke at h
  cases hl : invoke_loop regexes_table cin 0 World.initial with
  | none =>
    rw [hl] at h
    exact absurd h (by simp)
  | some s =>
    rw [hl] at h
    simp only [Option.map_some', Option.some.injEq] at h
    rw [← h]
    exact (invoke_loop_agrees cin 0 s.1 World.initial s.2 journey_log_initial agrees_initial
      journeys_fit_nil hl).1.ok

/-- Having only values of the integer types is a property of the three maps. -/
theorem typed_of_maps (w w' : World) (h : w.typed)
    (h1 : w'.cars_on_road = w.cars_on_road) (h2 : w'.cars_data = w.cars_data)
    (h3 : w'.roads_data = w.roads_data) : w'.typed := by
  unfold World.typed at h ⊢
  rw [h1, h2, h3]
  exact h

theorem invoke_loop_typed (cin : List line_content_t) :
    ∀ (n k : Nat) (w w' : World), w.ok → w.typed →
    invoke_loop regexes_table cin n w = some (k, w') → w'.ok ∧ w'.typed := by
  induction cin with
  | nil =>
    intro n k w w' hok ht hw
    simp only [invoke_loop, Option.some.injEq, Prod.mk.injEq] at hw
    rw [← hw.2]
    exact ⟨hok, ht⟩
  | cons line rest ih =>
    intro n k w w' hok ht hw
    unfold invoke_loop at hw
    by_cases he : line = ""
    · rw [if_pos he] at hw
      exact ih _ _ _ _ hok ht hw
    · rw [if_neg he] at hw
      cases hd : data_regex line with
      | none =>
        obtain ⟨w1, e1, m1, m2, m3⟩ := invoke_line_query ((n + 1) % LINE_MOD, line) w hd
        rw [e1] at hw
        have hok1 : w1.ok := by
          unfold World.ok at hok ⊢
          rw [m1, m2, m3]
          exact hok
        exact ih _ _ _ _ hok1 (typed_of_maps w w1 ht m1 m2 m3) hw
      | some words =>
        obtain ⟨P, R, D, hwd, _, hR, hD⟩ := data_regex_some hd
        have hroad : is_road_label (get_road_text words) = true := by
          rw [hwd]
          exact hR
        have hdist : is_distance (get_distance words) = true := by
          rw [hwd]
          exact hD
        rw [invoke_line_update ((n + 1) % LINE_MOD, line) w words hd] at hw
        cases h1 : update_database words ((n + 1) % LINE_MOD, line) w with
        | none =>
          rw [h1] at hw
          exact absurd hw (by simp)
        | some w1 =>
          rw [h1] at hw
          exact ih _ _ _ _ (update_database_ok words _ w w1 hok hroad hdist h1).1
            (update_database_typed words _ w w1 hok ht hroad hdist h1) hw

/-- Every database the program reaches stores only values of the integer types of the
program: the integers of the embedding never leave the ranges of `int_fast32_t` and
`int_fast64_t`. -/
theorem main_typed (cin : List line_content_t) (w : World) (h : main cin = some w) :
    w.typed := by
  unfold main invoke at h
  cases hl : invoke_loop regexes_table cin 0 World.initial with
  | none =>
    rw [hl] at h
    exact absurd h (by simp)
  | some s =>
    rw [hl] at h
    simp only [Option.map_some', Option.some.injEq] at h
    rw [← h]
    exact (invoke_loop_typed cin 0 s.1 World.initial s.2
      (by simp [World.ok, World.initial, map_ok]) typed_initial hl).2

theorem invoke_loop_append (table : Nat → regex) (a b : List line_content_t) :
    ∀ (n : Nat) (w : World),
    invoke_loop table (a ++ b) n w =
      (invoke_loop table a n w).bind (fun s => invoke_loop table b s.1 s.2) := by
  induction a with
  | nil => intro n w; rfl
  | cons line rest ih =>
    intro n w
    simp only [List.cons_append, invoke_loop]
    by_cases he : line = ""
    · simp only [he, if_true]
      exact ih _ _
    · simp only [he, if_false]
      cases invoke_line table ((n + 1) % LINE_MOD, line) w with
      | none => rfl
      | some w' => exact ih _ _


/-- C15 (malformed line).  Let a line that is not empty and matches none of the four
expressions of main stand after the lines `pre` of an input shorter than the range of the
line counter.  The lines before it are processed without fault exactly when their journeys
overflow no running total; and whatever database `w` they leave, the line then appends
exactly the one line `Error in line n: text` to the error stream, with `n` the number of
lines before it, empty ones included, plus one, and changes nothing else; an empty line at
that place changes nothing at all and advances the counter by one; the rest of the input is
processed from there, and the whole input is processed without fault exactly when its
journeys overflow no running total. -/
theorem malformed_line_reported (pre post : List line_content_t) (line : line_content_t)
    (hlen : pre.length + 1 < LINE_MOD) (hne : line ≠ "")
    (h0 : data_regex line = none) (h1 : all_query_regex line = none)
    (h2 : car_query_regex line = none) (h3 : road_query_regex line = none) :
    ((∃ w : World, invoke_loop regexes_table pre 0 World.initial = some (pre.length, w)) ↔
      journeys_fit (completed_journeys (input_records regexes_table pre 0))) ∧
    (∀ (k : line_number_t) (w : World),
      invoke_loop regexes_table pre 0 World.initial = some (k, w) →
      k = pre.length ∧
      invoke_loop regexes_table (pre ++ [line]) 0 World.initial =
        some (pre.length + 1, { w with
          cerr := w.cerr ++
            ("Error in line " ++ show_nat (pre.length + 1) ++ ": " ++ line ++ "\n") }) ∧
      invoke_loop regexes_table (pre ++ [""]) 0 World.initial = some (pre.length + 1, w) ∧
      main (pre ++ line :: post) =
        (invoke_loop regexes_table post (pre.length + 1) { w with
          cerr := w.cerr ++
            ("Error in line " ++ show_nat (pre.length + 1) ++ ": " ++ line ++ "\n") }).map
          Prod.snd) ∧
    ((∃ w_end : World, main (pre ++ line :: post) = some w_end) ↔
      journeys_fit
        (completed_journeys (input_records regexes_table (pre ++ line :: post) 0))) := by
  have hpre : (0 + pre.length) % LINE_MOD = pre.length := by
    rw [Nat.zero_add]
    exact Nat.mod_eq_of_lt (by omega)
  have hnext : (pre.length + 1) % LINE_MOD = pre.length + 1 := Nat.mod_eq_of_lt hlen
  refine ⟨?_, ?_, ?_⟩
  · constructor
    · rintro ⟨w, hw⟩
      exact (invoke_loop_returns pre).mp ⟨_, w, hw⟩
    · intro hfit
      obtain ⟨w, hw, _⟩ := invoke_loop_total pre 0 World.initial journey_log_initial
        (by decide) agrees_initial hfit
      rw [hpre] at hw
      exact ⟨w, hw⟩
  · intro k w hkw
    have hk : k = pre.length := by
      rw [invoke_loop_counter regexes_table pre 0 k World.initial w (by decide) hkw, hpre]
    subst hk
    have hw : invoke_loop regexes_table pre 0 World.initial = some (pre.length, w) := hkw
    have hline : invoke_line regexes_table (pre.length + 1, line) w =
        some { w with
          cerr := w.cerr ++
            ("Error in line " ++ show_nat (pre.length + 1) ++ ": " ++ line ++ "\n") } := by
      simp only [invoke_line, regexes_table, h0, h1, Option.isSome_none, Bool.false_eq_true,
        if_false, invoke_query, h2, h3, query_if, Option.some_bind, Bool.or_self, error_line]
    have hstep : invoke_loop regexes_table [line] pre.length w =
        some (pre.length + 1, { w with
          cerr := w.cerr ++
            ("Error in line " ++ show_nat (pre.length + 1) ++ ": " ++ line ++ "\n") }) := by
      simp only [invoke_loop, if_neg hne, hnext, hline]
    refine ⟨rfl, ?_, ?_, ?_⟩
    · rw [invoke_loop_append, hw]
      exact hstep
    · rw [invoke_loop_append, hw]
      simp only [Option.some_bind, invoke_loop, if_true, hnext]
    · unfold main invoke
      rw [show pre ++ line :: post = pre ++ ([line] ++ post) from rfl, invoke_loop_append, hw]
      simp only [Option.some_bind]
      rw [invoke_loop_append, hstep]
      simp only [Option.some_bind]
  · exact main_returns (pre ++ line :: post)

/-- C15, instance: the input of an empty line followed by `not a valid line`; the error
names line 2 and the database is still the initial one. -/
theorem malformed_line_reported_witness :
    invoke_loop regexes_table ["", "not a valid line"] 0 World.initial =
      some (2, ⟨[], [], [], "", "Error in line 2: not a valid line\n"⟩) := by
  obtain ⟨hfit, hall, _⟩ := malformed_line_reported [""] [] "not a valid line"
    (by decide) (by decide) (by decide) (by decide) (by decide) (by decide)
  obtain ⟨w, h1⟩ := hfit.mpr (journeys_fit_of_total _ (by decide) (by decide))
  have e : invoke_loop regexes_table [""] 0 World.initial = some (1, World.initial) := by
    decide
  have hw : w = World.initial := by
    have := Option.some.inj (h1.symm.trans e)
    exact (Prod.mk.inj this).2
  subst hw
  exact (hall _ _ h1).2.1


/-- The loop body of invoke runs exactly the dispatched calls, and writes the error line
exactly when there is none. -/
theorem invoke_line_dispatched (table : Nat → regex) (input : input_type_t) (w : World) :
    invoke_line table input w =
      if (dispatched table input).isEmpty then
        some { w with cerr := w.cerr ++ error_line input.1 input.2 }
      else run_calls (dispatched table input) w := by
  unfold invoke_line dispatched
  cases h0 : table 0 input.2 with
  | some words => simp [run_calls, run_call]
  | none =>
    cases h1 : table 1 input.2 with
    | some w1 => simp [run_calls, run_call]
    | none =>
      cases h2 : table 2 input.2 with
      | some wc =>
        cases h3 : table 3 input.2 with
        | some wr =>
          simp only [Option.isSome_none, Bool.false_eq_true, if_false, invoke_query, h2, h3,
            query_if, Option.isSome_some, Bool.or_self, if_true, List.singleton_append,
            List.isEmpty_cons, run_calls, run_call]
        | none =>
          simp only [Option.isSome_none, Bool.false_eq_true, if_false, invoke_query, h2, h3,
            query_if, Option.isSome_some, Bool.or_false, if_true, List.append_nil,
            List.isEmpty_cons, run_calls, run_call, Option.some_bind]
      | none =>
        cases h3 : table 3 input.2 with
        | some wr =>
          simp only [Option.isSome_none, Bool.false_eq_true, if_false, invoke_query, h2, h3,
            query_if, Option.isSome_some, Bool.false_or, if_true, List.nil_append,
            List.isEmpty_cons, run_calls, run_call, Option.some_bind]
        | none =>
          simp [invoke_query, h2, h3, query_if]

/-- C16, the claim fails: the line `?A12` is dispatched to a car query and then to a road
query, and after a journey of the car A12 on the road A12 it prints the line of the car and
the line of the road. -/
theorem single_dispatch_counterexample :
    dispatched regexes_table (3, "?A12") =
        [core_call.car ["?A12", "A12"], core_call.road ["?A12", "A12"]] ∧
      (dispatched regexes_table (3, "?A12")).length ≠ 1 ∧
      (main ["A12 A12 0,0", "A12 A12 1,0", "?A12"]).map World.cout =
        some "A12 A 1,0\nA12 1,0\n" := by
  decide

/-- C16 as amended.  For a line given to the loop body of invoke with the table of main, the
body runs exactly the dispatched calls, which are: the one update when the line is an update
record; else the one query-all when the line is `?`; else the car query when the key is a
plate, followed by the road query when the key is a road label, both with the same key, or
no call at all; so a line causes at most two calls, never an update together with a query
and never the same operation twice, and two calls exactly when the key is both a plate and a
road label. -/
theorem dispatch_cases (n : Nat) (line : line_content_t) (w : World) :
    (invoke_line regexes_table (n, line) w =
      if (dispatched regexes_table (n, line)).isEmpty then
        some { w with cerr := w.cerr ++ error_line n line }
      else run_calls (dispatched regexes_table (n, line)) w) ∧
    (∀ words, data_regex line = some words →
      dispatched regexes_table (n, line) = [core_call.update words (n, line)]) ∧
    (data_regex line = none → (all_query_regex line).isSome = true →
      dispatched regexes_table (n, line) = [core_call.all_data]) ∧
    (data_regex line = none → all_query_regex line = none →
      (∀ wc, car_query_regex line = some wc → road_query_regex line = none →
        dispatched regexes_table (n, line) = [core_call.car wc]) ∧
      (∀ wr, car_query_regex line = none → road_query_regex line = some wr →
        dispatched regexes_table (n, line) = [core_call.road wr]) ∧
      (∀ wc wr, car_query_regex line = some wc → road_query_regex line = some wr →
        dispatched regexes_table (n, line) = [core_call.car wc, core_call.road wr] ∧
          wc = wr ∧ is_plate (get_query_key wc) = true ∧
          is_road_label (get_query_key wc) = true) ∧
      (car_query_regex line = none → road_query_regex line = none →
        dispatched regexes_table (n, line) = [])) ∧
    (dispatched regexes_table (n, line)).length ≤ 2 := by
  refine ⟨invoke_line_dispatched regexes_table (n, line) w, ?_, ?_, ?_, ?_⟩
  · intro words h
    simp [dispatched, regexes_table, h]
  · intro h0 h1
    simp [dispatched, regexes_table, h0, h1]
  · intro h0 h1
    refine ⟨?_, ?_, ?_, ?_⟩
    · intro wc h2 h3
      simp [dispatched, regexes_table, h0, h1, h2, h3]
    · intro wr h2 h3
      simp [dispatched, regexes_table, h0, h1, h2, h3]
    · intro wc wr h2 h3
      obtain ⟨k, hk, hwc, hp⟩ := car_query_regex_some h2
      obtain ⟨k', hk', hwr, hr⟩ := road_query_regex_some h3
      have e : k' = k := by
        have := Option.some.inj (hk'.symm.trans hk)
        simpa using this
      subst e
      refine ⟨by simp [dispatched, regexes_table, h0, h1, h2, h3], by rw [hwc, hwr], ?_, ?_⟩
      · rw [hwc]
        exact hp
      · rw [hwc]
        exact hr
    · intro h2 h3
      simp [dispatched, regexes_table, h0, h1, h2, h3]
  · unfold dispatched
    split
    · simp
    · split
      · simp
      · split <;> split <;> simp

/-- C16 as amended, instance: `?ABC123` is a car query only, `?A12` a car query and a road
query with the one key A12. -/
theorem dispatch_cases_witness :
    dispatched regexes_table (1, "?ABC123") = [core_call.car ["?ABC123", "ABC123"]] ∧
      dispatched regexes_table (1, "?A12") =
        [core_call.car ["?A12", "A12"], core_call.road ["?A12", "A12"]] ∧
      is_plate "A12" = true ∧ is_road_label "A12" = true := by
  have h := dispatch_cases 1 "?ABC123" World.initial
  have g := dispatch_cases 1 "?A12" World.initial
  have g3 := (g.2.2.2.1 (by decide) (by decide)).2.2.1 ["?A12", "A12"] ["?A12", "A12"]
    (by decide) (by decide)
  exact ⟨(h.2.2.2.1 (by decide) (by decide)).1 ["?ABC123", "ABC123"] (by decide) (by decide),
    g3.1, g3.2.2.1, g3.2.2.2⟩


/-! ## The token matchers are the regular expressions -/

theorem tokens_from_nil (cur : List Char) (h : cur ≠ []) : tokens_from cur [] = [cur] := by
  simp [tokens_from, h]

theorem tokens_from_space (s rest : List Char) (hs : s.all isspace = true) :
    tokens_from [] (s ++ rest) = tokens_from [] rest := by
  induction s with
  | nil => rfl
  | cons c t ih =>
    rw [List.all_cons, Bool.and_eq_true] at hs
    simp only [List.cons_append, tokens_from, hs.1, if_true]
    exact ih hs.2

theorem tokens_from_word (t : List Char) : ∀ (cur rest : List Char),
    t.all (fun c => !isspace c) = true →
    tokens_from cur (t ++ rest) = tokens_from (cur ++ t) rest := by
  induction t with
  | nil => intro cur rest _; simp
  | cons c t ih =>
    intro cur rest ht
    rw [List.all_cons, Bool.and_eq_true] at ht
    have hc : isspace c = false := by simpa using ht.1
    simp only [List.cons_append, tokens_from, hc, Bool.false_eq_true, if_false]
    exact (ih (cur ++ [c]) rest ht.2).trans (by simp)

theorem tokens_from_close (cur s rest : List Char) (hcur : cur ≠ [])
    (hs : s.all isspace = true) (hne : s ≠ []) :
    tokens_from cur (s ++ rest) = cur :: tokens_from [] rest := by
  cases s with
  | nil => exact absurd rfl hne
  | cons c t =>
    rw [List.all_cons, Bool.and_eq_true] at hs
    simp only [List.cons_append, tokens_from, hs.1, if_true, hcur, if_false]
    exact congrArg _ (tokens_from_space t rest hs.2)

/-- A word between white space is one token. -/
theorem tokens_from_token (t s rest : List Char) (ht : t.all (fun c => !isspace c) = true)
    (hne : t ≠ []) (hs : s.all isspace = true) (hsr : s ≠ [] ∨ rest = []) :
    tokens_from [] (t ++ (s ++ rest)) = t :: tokens_from [] rest := by
  rw [tokens_from_word t [] _ ht, List.nil_append]
  rcases hsr with h | h
  · exact tokens_from_close t s rest hne hs h
  · subst h
    by_cases h' : s = []
    · subst h'
      simp [tokens_from, hne]
    · exact tokens_from_close t s [] hne hs h'

theorem tokens_from_eq_nil (l : List Char) : ∀ cur : List Char,
    tokens_from cur l = [] → cur = [] ∧ l.all isspace = true := by
  induction l with
  | nil =>
    intro cur h
    by_cases hc : cur = []
    · exact ⟨hc, rfl⟩
    · simp [tokens_from, hc] at h
  | cons c t ih =>
    intro cur h
    unfold tokens_from at h
    by_cases hc : isspace c = true
    · rw [if_pos hc] at h
      by_cases hcur : cur = []
      · rw [if_pos hcur] at h
        exact ⟨hcur, by simp [hc, (ih [] h).2]⟩
      · rw [if_neg hcur] at h
        exact absurd h (by simp)
    · rw [if_neg hc] at h
      have := (ih _ h).1
      simp at this

/-- The first token of a line: white space, the token, then white space or the end. -/
theorem tokens_from_eq_cons (l : List Char) : ∀ (cur t : List Char) (ts : List (List Char)),
    cur.all (fun c => !isspace c) = true → tokens_from cur l = t :: ts →
    ∃ s0 a s rest : List Char, l = s0 ++ (a ++ (s ++ rest)) ∧ s0.all isspace = true ∧
      (cur ≠ [] → s0 = []) ∧ a.all (fun c => !isspace c) = true ∧ t = cur ++ a ∧ t ≠ [] ∧
      s.all isspace = true ∧ (s ≠ [] ∨ rest = []) ∧ tokens_from [] rest = ts := by
  induction l with
  | nil =>
    intro cur t ts hcur h
    by_cases hc : cur = []
    · simp [tokens_from, hc] at h
    · simp only [tokens_from, hc, if_false, List.cons.injEq] at h
      exact ⟨[], [], [], [], rfl, rfl, fun _ => rfl, rfl, by simp [h.1], by rw [← h.1]; exact hc,
        rfl, Or.inr rfl, by rw [← h.2]; rfl⟩
  | cons c l ih =>
    intro cur t ts hcur h
    unfold tokens_from at h
    by_cases hc : isspace c = true
    · rw [if_pos hc] at h
      by_cases hcur0 : cur = []
      · rw [if_pos hcur0] at h
        obtain ⟨s0, a, s, rest, e, h1, _, h3, h4, h5, h6, h7, h8⟩ := ih [] t ts rfl h
        refine ⟨c :: s0, a, s, rest, by rw [e]; rfl, by simp [hc, h1],
          fun hne => absurd hcur0 hne, h3, ?_, h5, h6, h7, h8⟩
        rw [hcur0]
        exact h4
      · rw [if_neg hcur0] at h
        simp only [List.cons.injEq] at h
        exact ⟨[], [], [c], l, rfl, rfl, fun _ => rfl, rfl, by rw [← h.1]; simp,
          by rw [← h.1]; exact hcur0, by simp [hc], Or.inl (by simp), h.2⟩
    · rw [if_neg hc] at h
      have hcf : isspace c = false := by simpa using hc
      have hcur' : (cur ++ [c]).all (fun c => !isspace c) = true := by
        simp only [List.all_append, hcur, List.all_cons, hcf, Bool.not_false, List.all_nil,
          Bool.and_self]
      obtain ⟨s0, a, s, rest, e, h1, h2, h3, h4, h5, h6, h7, h8⟩ := ih (cur ++ [c]) t ts hcur' h
      have hs0 : s0 = [] := h2 (by simp)
      subst hs0
      refine ⟨[], c :: a, s, rest, by rw [e]; rfl, rfl, fun _ => rfl, by simp [hcf, h3],
        by rw [h4]; simp, h5, h6, h7, h8⟩


theorem not_isspace_of_isalnum {c : Char} (h : isalnum c = true) : isspace c = false := by
  rw [Bool.eq_false_iff]
  intro hs
  simp only [isspace, Bool.or_eq_true, decide_eq_true_eq] at hs
  rcases hs with ((((hs | hs) | hs) | hs) | hs) | hs <;>
  · subst hs
    revert h
    decide

theorem word_of_is_plate {P : String} (h : is_plate P = true) :
    P.toList.all (fun c => !isspace c) = true ∧ P.toList ≠ [] := by
  simp only [is_plate, Bool.and_eq_true, decide_eq_true_eq] at h
  obtain ⟨⟨h1, _⟩, h3⟩ := h
  constructor
  · rw [List.all_eq_true] at h3 ⊢
    intro c hc
    simp [not_isspace_of_isalnum (h3 c hc)]
  · intro e
    have hl : P.length = P.toList.length := rfl
    rw [e, List.length_nil] at hl
    omega

theorem word_of_is_road_label {R : String} (h : is_road_label R = true) :
    R.toList.all (fun c => !isspace c) = true ∧ R.toList ≠ [] := by
  obtain ⟨c, num, rfl, hc, hnum⟩ := is_road_label_split h
  obtain ⟨hall, _, _, _⟩ := positive_number_facts hnum
  refine ⟨?_, by simp⟩
  simp only [String.toList, List.all_cons, Bool.and_eq_true]
  constructor
  · rcases hc with rfl | rfl <;> decide
  · rw [List.all_eq_true] at hall ⊢
    intro x hx
    simp [not_isspace_of_isdigit (hall x hx)]

theorem word_of_is_distance {D : String} (h : is_distance D = true) :
    D.toList.all (fun c => !isspace c) = true ∧ D.toList ≠ [] := by
  obtain ⟨ip, d, rfl, hd, hip⟩ := is_distance_split h
  obtain ⟨hall, _, _, _⟩ := whole_part_facts hip
  refine ⟨?_, by simp⟩
  simp only [String.toList, List.all_append, List.all_cons, List.all_nil, Bool.and_true,
    Bool.and_eq_true]
  refine ⟨?_, by decide, by simp [not_isspace_of_isdigit hd]⟩
  rw [List.all_eq_true] at hall ⊢
  intro x hx
  simp [not_isspace_of_isdigit (hall x hx)]

/-- The matcher data_regex accepts exactly the lines of the language of the expression,
with the groups of the expression. -/
theorem data_regex_iff (line : String) (words : smatch) :
    data_regex line = some words ↔
      ∃ P R D : String, words = [line, P, R, D] ∧ data_line line P R D := by
  constructor
  · intro h
    unfold data_regex at h
    split at h
    · next p r d htok =>
      split at h
      · next hc =>
        simp only [Bool.and_eq_true] at hc
        simp only [Option.some.injEq] at h
        refine ⟨_, _, _, h.symm, ?_⟩
        unfold tokens at htok
        obtain ⟨s0, a, s1, rest1, e1, a1, _, _, a4, _, a6, a7, a8⟩ :=
          tokens_from_eq_cons _ [] p [r, d] rfl htok
        obtain ⟨s0', b, s2, rest2, e2, b1, _, _, b4, _, b6, b7, b8⟩ :=
          tokens_from_eq_cons _ [] r [d] rfl a8
        obtain ⟨s0'', c, s3, rest3, e3, c1, _, _, c4, _, c6, _, c8⟩ :=
          tokens_from_eq_cons _ [] d [] rfl b8
        have c9 := (tokens_from_eq_nil _ _ c8).2
        simp only [List.nil_append] at a4 b4 c4
        subst a4 b4 c4
        have hs1 : s1 ≠ [] ∨ s0' ≠ [] := by
          rcases a7 with h1 | h1
          · exact Or.inl h1
          · rw [h1] at a8
            simp [tokens_from] at a8
        have hs2 : s2 ≠ [] ∨ s0'' ≠ [] := by
          rcases b7 with h1 | h1
          · exact Or.inl h1
          · rw [h1] at b8
            simp [tokens_from] at b8
        refine ⟨s0, s1 ++ s0', s2 ++ s0'', s3 ++ rest3, a1, by simp [a6, b1], ?_,
          by simp [b6, c1], ?_, by simp [c6, c9], ?_, hc.1.1, hc.1.2, hc.2⟩
        · rcases hs1 with h1 | h1 <;> simp [h1]
        · rcases hs2 with h1 | h1 <;> simp [h1]
        · rw [e1, e2, e3]
          simp [String.toList]
      · exact absurd h (by simp)
    · exact absurd h (by simp)
  · rintro ⟨P, R, D, rfl, s0, s1, s2, s3, h0, h1, n1, h2, n2, h3, e, hP, hR, hD⟩
    have wP := word_of_is_plate hP
    have wR := word_of_is_road_label hR
    have wD := word_of_is_distance hD
    have htok : tokens line.toList = [P.toList, R.toList, D.toList] := by
      unfold tokens
      rw [e, tokens_from_space s0 _ h0,
        tokens_from_token P.toList s1 _ wP.1 wP.2 h1 (Or.inl n1),
        tokens_from_token R.toList s2 _ wR.1 wR.2 h2 (Or.inl n2)]
      have := tokens_from_token D.toList s3 [] wD.1 wD.2 h3 (Or.inr rfl)
      rw [List.append_nil] at this
      rw [this]
      rfl
    unfold data_regex
    rw [htok]
    simp [hP, hR, hD]


theorem dropWhile_isspace_question (s0 rest : List Char) (h : s0.all isspace = true) :
    (s0 ++ '?' :: rest).dropWhile isspace = '?' :: rest := by
  induction s0 with
  | nil =>
    have : isspace '?' = false := by decide
    simp [List.dropWhile_cons, this]
  | cons c t ih =>
    rw [List.all_cons, Bool.and_eq_true] at h
    simp only [List.cons_append, List.dropWhile_cons, h.1, if_true]
    exact ih h.2

theorem query_tokens_iff (line : String) (ts : List (List Char)) :
    query_tokens line = some ts ↔
      ∃ s0 rest : List Char, s0.all isspace = true ∧ line.toList = s0 ++ '?' :: rest ∧
        tokens rest = ts := by
  constructor
  · intro h
    unfold query_tokens at h
    split at h
    · next rest hd =>
      simp only [Option.some.injEq] at h
      refine ⟨line.toList.takeWhile isspace, rest, ?_, ?_, h⟩
      · rw [List.all_eq_true]
        intro x hx
        exact List.mem_takeWhile_imp hx
      · rw [← hd, List.takeWhile_append_dropWhile]
    · exact absurd h (by simp)
  · rintro ⟨s0, rest, h0, e, rfl⟩
    unfold query_tokens
    rw [e, dropWhile_isspace_question s0 rest h0]
    rfl

/-- The matcher all_query_regex accepts exactly the lines of its expression. -/
theorem all_query_regex_iff (line : String) (words : smatch) :
    all_query_regex line = some words ↔ words = [line] ∧ all_query_line line := by
  constructor
  · intro h
    unfold all_query_regex at h
    split at h
    · next hq =>
      simp only [Option.some.injEq] at h
      obtain ⟨s0, rest, h0, e, ht⟩ := (query_tokens_iff line []).mp hq
      exact ⟨h.symm, s0, rest, h0, (tokens_from_eq_nil _ _ ht).2, e⟩
    · exact absurd h (by simp)
  · rintro ⟨rfl, s0, s1, h0, h1, e⟩
    have hq : query_tokens line = some [] := by
      rw [query_tokens_iff]
      refine ⟨s0, s1, h0, e, ?_⟩
      unfold tokens
      have := tokens_from_space s1 [] h1
      rw [List.append_nil] at this
      rw [this]
      rfl
    unfold all_query_regex
    rw [hq]

theorem query_tokens_single (line : String) (k : List Char)
    (hk : k.all (fun c => !isspace c) = true) (hne : k ≠ []) :
    query_tokens line = some [k] ↔ key_query_line line (String.mk k) := by
  rw [query_tokens_iff]
  constructor
  · rintro ⟨s0, rest, h0, e, ht⟩
    unfold tokens at ht
    obtain ⟨s1, a, s, rest', e1, a1, _, _, a4, _, a6, _, a8⟩ :=
      tokens_from_eq_cons _ [] k [] rfl ht
    have a9 := (tokens_from_eq_nil _ _ a8).2
    simp only [List.nil_append] at a4
    subst a4
    refine ⟨s0, s1, s ++ rest', h0, a1, by simp [a6, a9], ?_⟩
    rw [e, e1]
    rfl
  · rintro ⟨s0, s1, s2, h0, h1, h2, e⟩
    refine ⟨s0, s1 ++ (k ++ s2), h0, e, ?_⟩
    unfold tokens
    rw [tokens_from_space s1 _ h1]
    have := tokens_from_token k s2 [] hk hne h2 (Or.inr rfl)
    rw [List.append_nil] at this
    rw [this]
    rfl

theorem query_tokens_word {line : String} {k : List Char}
    (h : query_tokens line = some [k]) :
    k.all (fun c => !isspace c) = true ∧ k ≠ [] := by
  obtain ⟨s0, rest, _, _, ht⟩ := (query_tokens_iff line [k]).mp h
  unfold tokens at ht
  obtain ⟨_, a, _, _, _, _, _, a3, a4, a5, _⟩ := tokens_from_eq_cons _ [] k [] rfl ht
  simp only [List.nil_append] at a4
  rw [a4]
  exact ⟨a3, by rw [← a4]; exact a5⟩

/-- The matcher car_query_regex accepts exactly the lines of its expression, with the key
as its group. -/
theorem car_query_regex_iff (line : String) (words : smatch) :
    car_query_regex line = some words ↔
      ∃ K : String, words = [line, K] ∧ is_plate K = true ∧ key_query_line line K := by
  constructor
  · intro h
    obtain ⟨k, hq, hw, hp⟩ := car_query_regex_some h
    have hk := query_tokens_word hq
    exact ⟨String.mk k, hw, hp, (query_tokens_single line k hk.1 hk.2).mp hq⟩
  · rintro ⟨K, rfl, hp, hl⟩
    have hk := word_of_is_plate hp
    have hq := (query_tokens_single line K.toList hk.1 hk.2).mpr hl
    unfold car_query_regex
    rw [hq]
    simp [hp]

/-- The matcher road_query_regex accepts exactly the lines of its expression, with the key
as its group. -/
theorem road_query_regex_iff (line : String) (words : smatch) :
    road_query_regex line = some words ↔
      ∃ K : String, words = [line, K] ∧ is_road_label K = true ∧ key_query_line line K := by
  constructor
  · intro h
    obtain ⟨k, hq, hw, hp⟩ := road_query_regex_some h
    have hk := query_tokens_word hq
    exact ⟨String.mk k, hw, hp, (query_tokens_single line k hk.1 hk.2).mp hq⟩
  · rintro ⟨K, rfl, hp, hl⟩
    have hk := word_of_is_road_label hp
    have hq := (query_tokens_single line K.toList hk.1 hk.2).mpr hl
    unfold road_query_regex
    rw [hq]
    simp [hp]


end Nod
